import Mathlib

/-!
# QuicheJS: a shallow embedding of `src/quiche.js`

The development follows the source file top to bottom.

* JavaScript values that the library touches are the type `JSVal`.
* A JavaScript string is its list of UTF-16 code units (`JSString`).
* `JSON.stringify` and `JSON.parse` are platform functions; they are given here as
  executable definitions over code units (`JSONstringify`, `JSONparse`).
* `localStorage` is an ordered list of key/value entries.
* Asynchronous functions are state-passing functions; a rejected promise (a raised
  exception) is `Except.error`.
-/

namespace QuicheJS

/-! ## JavaScript values -/

/-- A JavaScript string: the list of its UTF-16 code units. -/
abbrev JSString := List Nat

/-- The code units of an (ASCII) string literal of the source. -/
def lit (s : String) : JSString := s.toList.map Char.toNat

/-- What a raised exception can be. `hostError` is an exception of the host
(access to a storage that is not available). `unmodelled` marks an input on
which the platform's behaviour is outside this model (a typed-array source that
is not an array of numbers, the text of a cached response whose body is not a
string); `fuel` is the recursion bound of the parser, which `JSON.parse` never
reaches. -/
inductive JSError where
  | syntaxError
  | typeError
  | hostError
  | unmodelled
  | fuel
  deriving DecidableEq, Repr

/-- The JavaScript values of the model. A number that is an integer of magnitude
at most `2^53` is `num n`; any other finite double is `real negative mant exp`,
the value `± mant × 2^exp` with `mant` odd; `infinity` is one of the two
infinities. `NaN` is not a value of the model: no JSON text denotes it, and minus
zero is `num 0`. An object is the list of its own enumerable members in
insertion order; when a key is repeated the last member is the one that counts.
`blob` is a `Blob` (MIME type, bytes), `buffer` an `ArrayBuffer`. -/
inductive JSVal where
  | undefined
  | null
  | bool (b : Bool)
  | num (n : Int)
  | real (negative : Bool) (mant : Nat) (exp : Int)
  | infinity (negative : Bool)
  | str (s : JSString)
  | arr (xs : List JSVal)
  | obj (fields : List (JSString × JSVal))
  | blob (type : JSString) (bytes : List Nat)
  | buffer (bytes : List Nat)
  deriving Repr

/-- The literal `false`, the failure sentinel of the library. -/
abbrev jsFalse : JSVal := .bool false

/-- The literal `true`. -/
abbrev jsTrue : JSVal := .bool true

/-- JavaScript truthiness (`ToBoolean`). -/
def truthy : JSVal → Bool
  | .undefined => false
  | .null => false
  | .bool b => b
  | .num n => n != 0
  | .str s => !s.isEmpty
  | _ => true

/-- Strict equality `===`. Two objects are compared by identity; the objects met
here (a parsed record, a blob) are never the same object as a fingerprint. -/
def strictEq : JSVal → JSVal → Bool
  | .undefined, .undefined => true
  | .null, .null => true
  | .bool a, .bool b => a == b
  | .num a, .num b => a == b
  | .real s m e, .real s' m' e' => s == s' && m == m' && e == e'
  | .infinity s, .infinity s' => s == s'
  | .str a, .str b => a == b
  | _, _ => false

/-- Decimal digits of `n` in front of `acc`, most significant first; the first
argument bounds the number of digits. -/
def decimalAux : Nat → Nat → List Nat → List Nat
  | 0, _, acc => acc
  | fuel + 1, n, acc =>
    if n < 10 then (48 + n) :: acc else decimalAux fuel (n / 10) ((48 + n % 10) :: acc)

/-- Decimal digits of a natural number, most significant first. -/
def decimal (n : Nat) : List Nat := decimalAux (n + 1) n []

/-- The number of binary digits of `n`; the first argument bounds it. -/
def bitLengthAux : Nat → Nat → Nat
  | 0, _ => 0
  | fuel + 1, n => if n = 0 then 0 else bitLengthAux fuel (n / 2) + 1

/-- The number of binary digits of `n` (`0` for `0`). -/
def bitLength (n : Nat) : Nat := bitLengthAux n n

/-- The integer `k` with `2^k ≤ a / b < 2^(k+1)`, for positive `a` and `b`. -/
def floorLog2 (a b : Nat) : Int :=
  let k : Int := (bitLength a : Int) - (bitLength b : Int)
  if 0 ≤ k then (if b * 2 ^ k.toNat ≤ a then k else k - 1)
  else (if b ≤ a * 2 ^ (-k).toNat then k else k - 1)

/-- The quotient `a / b` rounded to the nearest integer, a tie going to the even
one. -/
def roundHalfEven (a b : Nat) : Nat :=
  let q := a / b
  let r := a % b
  if 2 * r < b then q
  else if b < 2 * r then q + 1
  else if q % 2 = 0 then q else q + 1

/-- Factors of two moved from the significand into the exponent. -/
def stripTwos : Nat → Nat → Int → Nat × Int
  | 0, m, e => (m, e)
  | fuel + 1, m, e => if m % 2 = 0 ∧ m ≠ 0 then stripTwos fuel (m / 2) (e + 1) else (m, e)

/-- The Number value `± m × 2^e` in the representation of `JSVal`: an integer of
magnitude at most `2^53` is `num`, any other value is `real` with an odd
significand. Minus zero is not told apart from zero. -/
def mkNumber (neg : Bool) (m : Nat) (e : Int) : JSVal :=
  let r := stripTwos 64 m e
  if 0 ≤ r.2 ∧ r.2 ≤ 53 ∧ r.1 * 2 ^ r.2.toNat ≤ 2 ^ 53 then
    .num (if neg then -((r.1 * 2 ^ r.2.toNat : Nat) : Int) else ((r.1 * 2 ^ r.2.toNat : Nat) : Int))
  else .real neg r.1 r.2

/-- The double nearest to `± a / b` (round to nearest, ties to even), for
`b > 0`: 53 significant bits, exponents from `-1074` to `971`, overflow to an
infinity. -/
def toDouble (neg : Bool) (a b : Nat) : JSVal :=
  if a = 0 then .num 0
  else
    let k := floorLog2 a b
    if 1024 ≤ k then .infinity neg
    else
      let e := max k (-1022) - 52
      let n := if e < 0 then roundHalfEven (a * 2 ^ (-e).toNat) b
               else roundHalfEven a (b * 2 ^ e.toNat)
      if n = 0 then .num 0
      else if e = 971 ∧ n = 2 ^ 53 then .infinity neg
      else mkNumber neg n e

/-- The Number value of the decimal `± s × 10^t` (`StringNumericValue` followed
by rounding to a double). A decimal of at least `10^311` is beyond every double,
and one below `10^-540` is far below the least double, `5e-324`. -/
def decimalToNumber (neg : Bool) (s : Nat) (t : Int) : JSVal :=
  if s = 0 then .num 0
  else if 0 ≤ t ∧ t ≤ 16 ∧ s * 10 ^ t.toNat ≤ 2 ^ 53 then
    .num (if neg then -((s * 10 ^ t.toNat : Nat) : Int) else ((s * 10 ^ t.toNat : Nat) : Int))
  else if 310 < t then .infinity neg
  else if t + ((decimal s).length : Int) < -540 then .num 0
  else if 0 ≤ t then toDouble neg (s * 10 ^ t.toNat) 1
  else toDouble neg s (10 ^ (-t).toNat)

/-- Whether a value is the double `± m × 2^e`. -/
def isReal (neg : Bool) (m : Nat) (e : Int) : JSVal → Bool
  | .real neg' m' e' => neg' == neg && m' == m && e' == e
  | _ => false

/-- The exact decimal expansion of `m × 2^e`: the pair `(S, t)` with
`m × 2^e = S × 10^t`. -/
def exactDecimal (m : Nat) (e : Int) : Nat × Int :=
  if 0 ≤ e then (m * 2 ^ e.toNat, 0) else (m * 5 ^ (-e).toNat, e)

/-- Whether the digits `s`, with the decimal point behind the first `n` of them
(the decimal `s × 10^(n-k)` for `k` digits), denote the double `± m × 2^e`. -/
def denotes (neg : Bool) (m : Nat) (e : Int) (s : Nat) (n : Int) : Bool :=
  isReal neg m e (decimalToNumber neg s (n - ((decimal s).length : Int)))

/-- The shortest digits of the double `± m × 2^e` (`Number::toString`, step 5):
the least `k` and an integer `s` of `k` digits with `s × 10^(n-k)` rounding to
the double, the nearest such `s`, an even one when two are as near; the result
is `(s, n)`. `S` holds the `K` digits of the exact expansion and `n0` is the
decimal exponent of the value; the candidates with `k` digits are the exact
digits cut after the first `k`, and that number plus one. The search goes from
`k` upwards and ends at the exact expansion. -/
def shortestDigits (neg : Bool) (m : Nat) (e : Int) (S K : Nat) (n0 : Int) :
    Nat → Nat → Nat × Int
  | 0, _ => (S, n0)
  | fuel + 1, k =>
    let unit := 10 ^ (K - k)
    let lo := S / unit
    let rem := S % unit
    let hi : Nat × Int := if lo + 1 = 10 ^ k then (10 ^ (k - 1), n0 + 1) else (lo + 1, n0)
    let okLo := denotes neg m e lo n0
    let okHi := denotes neg m e hi.1 hi.2
    if okLo && okHi then
      (if 2 * rem < unit then (lo, n0)
       else if unit < 2 * rem then hi
       else if lo % 2 = 0 then (lo, n0) else hi)
    else if okLo then (lo, n0)
    else if okHi then hi
    else shortestDigits neg m e S K n0 fuel (k + 1)

/-- The text of the digits `s` with decimal exponent `n` (`Number::toString`,
steps 6 to 10). -/
def formatDigits (s : Nat) (n : Int) : JSString :=
  let ds := decimal s
  let k := ds.length
  if (k : Int) ≤ n ∧ n ≤ 21 then ds ++ List.replicate (n.toNat - k) 48
  else if 0 < n ∧ n ≤ 21 then ds.take n.toNat ++ 46 :: ds.drop n.toNat
  else if -6 < n ∧ n ≤ 0 then 48 :: 46 :: (List.replicate (-n).toNat 48 ++ ds)
  else
    let tail := 101 :: (if n - 1 < 0 then 45 else 43) :: decimal (n - 1).natAbs
    if k = 1 then ds ++ tail else ds.take 1 ++ 46 :: (ds.drop 1 ++ tail)

/-- The text of the double `± m × 2^e` (`Number::toString`, radix 10). -/
def realToString (neg : Bool) (m : Nat) (e : Int) : JSString :=
  let x := exactDecimal m e
  let K := (decimal x.1).length
  let r := shortestDigits neg m e x.1 K ((K : Int) + x.2) (K - 1) 1
  if neg then 45 :: formatDigits r.1 r.2 else formatDigits r.1 r.2

/-- A finite double `± m × 2^e` that is not an integer of magnitude at most
`2^53`, in its one representation: `m` is odd and has at most 53 bits, the
exponent is at least `-1074`, and the value is below `2^1024`. -/
def ValidReal (m : Nat) (e : Int) : Prop :=
  m % 2 = 1 ∧ m < 2 ^ 53 ∧ -1074 ≤ e ∧ (bitLength m : Int) + e ≤ 1024
    ∧ (e < 0 ∨ 2 ^ 53 < m * 2 ^ e.toNat)

/-- The text of an integer-valued number (`Number::toString`, radix 10). -/
def numberToString (n : Int) : JSString :=
  if n < 0 then 45 :: decimal n.natAbs else decimal n.natAbs

/-- Strings joined by a comma. -/
def commaJoin : List JSString → JSString
  | [] => []
  | [x] => x
  | x :: y :: rest => x ++ 44 :: commaJoin (y :: rest)

/-- The string a value is coerced to by `+` with a string (`ToString`). A plain
object prints as `[object Object]`; an array prints its elements joined by
commas, `null` and `undefined` elements printing as nothing. -/
def toJSString : JSVal → JSString
  | .undefined => lit "undefined"
  | .null => lit "null"
  | .bool true => lit "true"
  | .bool false => lit "false"
  | .num n => numberToString n
  | .real neg m e => realToString neg m e
  | .infinity neg => if neg then lit "-Infinity" else lit "Infinity"
  | .str s => s
  | .arr xs => commaJoin (elements xs)
  | .obj _ => lit "[object Object]"
  | .blob _ _ => lit "[object Blob]"
  | .buffer _ => lit "[object ArrayBuffer]"
where
  /-- The printed elements of an array. -/
  elements : List JSVal → List JSString
    | [] => []
    | .undefined :: rest => [] :: elements rest
    | .null :: rest => [] :: elements rest
    | x :: rest => toJSString x :: elements rest

/-- The last member of an object with the given key. -/
def lookupLast (k : JSString) : List (JSString × JSVal) → Option JSVal
  | [] => none
  | (k', v) :: rest =>
    match lookupLast k rest with
    | some w => some w
    | none => if k' = k then some v else none

/-- Whether the conversion of a value to a string returns. An object with an own
member named `toString`, which is never a function here, has no primitive value
(`valueOf` answers the object itself), and its conversion raises a `TypeError`;
an array is converted through its elements. -/
def stringable : JSVal → Bool
  | .obj fields => (lookupLast (lit "toString") fields).isNone
  | .arr xs => elements xs
  | _ => true
where
  /-- Every element can be converted. -/
  elements : List JSVal → Bool
    | [] => true
    | x :: rest => stringable x && elements rest

/-- Property read `v.k` for a key that no prototype defines (`__blob`, `ver`,
`type`, `data`): an own member of an object, `undefined` on any other value,
and a `TypeError` on `null` and `undefined`. -/
def getProp (v : JSVal) (k : JSString) : Except JSError JSVal :=
  match v with
  | .undefined => .error .typeError
  | .null => .error .typeError
  | .obj fields => .ok ((lookupLast k fields).getD .undefined)
  | _ => .ok .undefined

/-- The method call `v.hasOwnProperty(k)` for a key `k` that is neither an index
nor `length`. On an object that has an own member named `hasOwnProperty` the
call reaches that member, which in a parsed record is never a function. -/
def hasOwnProperty (v : JSVal) (k : JSString) : Except JSError Bool :=
  match v with
  | .undefined => .error .typeError
  | .null => .error .typeError
  | .obj fields =>
    match lookupLast (lit "hasOwnProperty") fields with
    | some _ => .error .typeError
    | none => .ok (lookupLast k fields).isSome
  | _ => .ok false

/-! ## `JSON.stringify` -/

/-- A hexadecimal digit, lower case. -/
def hexDigit (d : Nat) : Nat := if d < 10 then 48 + d else 87 + d

/-- The escape `\uXXXX` of a code unit. -/
def uEscape (c : Nat) : List Nat :=
  [92, 117, hexDigit (c / 4096 % 16), hexDigit (c / 256 % 16), hexDigit (c / 16 % 16),
    hexDigit (c % 16)]

/-- A leading surrogate. -/
def isHigh (c : Nat) : Bool := 0xD800 ≤ c && c ≤ 0xDBFF

/-- A trailing surrogate. -/
def isLow (c : Nat) : Bool := 0xDC00 ≤ c && c ≤ 0xDFFF

/-- How `QuoteJSONString` writes one code unit that is not part of a surrogate
pair. -/
def quoteUnit (c : Nat) : List Nat :=
  if c = 8 then [92, 98]
  else if c = 9 then [92, 116]
  else if c = 10 then [92, 110]
  else if c = 12 then [92, 102]
  else if c = 13 then [92, 114]
  else if c = 34 then [92, 34]
  else if c = 92 then [92, 92]
  else if c < 32 || (0xD800 ≤ c && c ≤ 0xDFFF) then uEscape c
  else [c]

/-- The body of `QuoteJSONString`: a surrogate pair is copied, any other unit is
written by `quoteUnit`. -/
def quoteUnits : List Nat → List Nat
  | [] => []
  | [c] => quoteUnit c
  | c :: d :: rest =>
    if isHigh c && isLow d then c :: d :: quoteUnits rest
    else quoteUnit c ++ quoteUnits (d :: rest)

/-- `QuoteJSONString`. -/
def quoteJSONString (s : JSString) : JSString := 34 :: (quoteUnits s ++ [34])

/-- The members `"i":b` of a typed array, from index `i` on. -/
def indexedMembers : Nat → List Nat → List JSString
  | _, [] => []
  | i, b :: rest => (quoteJSONString (decimal i) ++ 58 :: decimal b) :: indexedMembers (i + 1) rest

/-- `SerializeJSONProperty`; `none` is `undefined`. With `replacer` set, the
replacer of `serialize` is applied: an `ArrayBuffer` becomes a `Uint8Array`,
which is written as an object of its indices. -/
def stringifyWith (replacer : Bool) : JSVal → Option JSString
  | .undefined => none
  | .null => some (lit "null")
  | .bool true => some (lit "true")
  | .bool false => some (lit "false")
  | .num n => some (numberToString n)
  | .real neg m e => some (realToString neg m e)
  | .infinity _ => some (lit "null")
  | .str s => some (quoteJSONString s)
  | .arr xs => some (91 :: (commaJoin (elements xs) ++ [93]))
  | .obj fields => some (123 :: (commaJoin (members fields) ++ [125]))
  | .blob _ _ => some (lit "{}")
  | .buffer bytes =>
    if replacer then some (123 :: (commaJoin (indexedMembers 0 bytes) ++ [125]))
    else some (lit "{}")
where
  /-- The elements of an array; `undefined` is written `null`. -/
  elements : List JSVal → List JSString
    | [] => []
    | x :: rest => ((stringifyWith replacer x).getD (lit "null")) :: elements rest
  /-- The members of an object; a member whose value is `undefined` is left out. -/
  members : List (JSString × JSVal) → List JSString
    | [] => []
    | (k, x) :: rest =>
      match stringifyWith replacer x with
      | some t => (quoteJSONString k ++ 58 :: t) :: members rest
      | none => members rest

/-- `JSON.stringify(v)`. -/
def JSONstringify (v : JSVal) : Option JSString := stringifyWith false v

/-! ## `JSON.parse` -/

/-- JSON white space. -/
def isWs (c : Nat) : Bool := c = 32 || c = 9 || c = 10 || c = 13

/-- Drops leading white space. -/
def skipWs : List Nat → List Nat
  | [] => []
  | c :: rest => if isWs c then skipWs rest else c :: rest

/-- The value of a hexadecimal digit. -/
def hexVal (c : Nat) : Option Nat :=
  if 48 ≤ c ∧ c ≤ 57 then some (c - 48)
  else if 97 ≤ c ∧ c ≤ 102 then some (c - 87)
  else if 65 ≤ c ∧ c ≤ 70 then some (c - 55)
  else none

/-- The code unit of four hexadecimal digits. -/
def hex4 (a b c d : Nat) : Option Nat :=
  match hexVal a, hexVal b, hexVal c, hexVal d with
  | some x, some y, some z, some w => some (x * 4096 + y * 256 + z * 16 + w)
  | _, _, _, _ => none

/-- The code unit a one-letter escape stands for. -/
def unescape (e : Nat) : Option Nat :=
  if e = 34 then some 34
  else if e = 92 then some 92
  else if e = 47 then some 47
  else if e = 98 then some 8
  else if e = 102 then some 12
  else if e = 110 then some 10
  else if e = 114 then some 13
  else if e = 116 then some 9
  else none

/-- Puts a code unit in front of a string that was read. -/
def consUnit (c : Nat) : Except JSError (JSString × List Nat) → Except JSError (JSString × List Nat)
  | .ok (s, rest) => .ok (c :: s, rest)
  | .error e => .error e

/-- Reads a string after its opening quote, up to and including the closing
quote. -/
def parseStr : List Nat → Except JSError (JSString × List Nat)
  | [] => .error .syntaxError
  | c :: rest =>
    if c = 34 then .ok ([], rest)
    else if c = 92 then
      match rest with
      | [] => .error .syntaxError
      | e :: rest1 =>
        if e = 117 then
          match rest1 with
          | a :: b :: c2 :: d :: rest2 =>
            match hex4 a b c2 d with
            | some u => consUnit u (parseStr rest2)
            | none => .error .syntaxError
          | _ => .error .syntaxError
        else
          match unescape e with
          | some u => consUnit u (parseStr rest1)
          | none => .error .syntaxError
    else if c < 32 then .error .syntaxError
    else consUnit c (parseStr rest)

/-- A decimal digit. -/
def isDigit (c : Nat) : Bool := 48 ≤ c && c ≤ 57

/-- The number written by a list of digits. -/
def digitsValue (ds : List Nat) : Nat := ds.foldl (fun acc c => acc * 10 + (c - 48)) 0

/-- The exponent part of a numeral and the value of the whole: `sig` holds the
digits before the exponent, `fracLen` of them behind the decimal point. -/
def exponentPart (neg : Bool) (sig : List Nat) (fracLen : Nat) :
    List Nat → Except JSError JSVal
  | [] => .ok (decimalToNumber neg (digitsValue sig) (-(fracLen : Int)))
  | c :: r =>
    if c = 101 ∨ c = 69 then
      let signed : Bool × List Nat :=
        match r with
        | 43 :: r1 => (false, r1)
        | 45 :: r1 => (true, r1)
        | _ => (false, r)
      if signed.2 = [] ∨ signed.2.all isDigit = false then .error .syntaxError
      else
        let x : Int := if signed.1 then -(digitsValue signed.2 : Int) else (digitsValue signed.2 : Int)
        .ok (decimalToNumber neg (digitsValue sig) (x - (fracLen : Int)))
    else .error .syntaxError

/-- The value of a JSON numeral without its sign: an integer part without a
leading zero, an optional fraction, an optional exponent, and nothing else. -/
def numeralValue (neg : Bool) (tok : List Nat) : Except JSError JSVal :=
  let int := tok.takeWhile isDigit
  let rest := tok.dropWhile isDigit
  if int = [] then .error .syntaxError
  else if int.head? = some 48 ∧ int.length ≠ 1 then .error .syntaxError
  else
    match rest with
    | 46 :: r =>
      let frac := r.takeWhile isDigit
      if frac = [] then .error .syntaxError
      else exponentPart neg (int ++ frac) frac.length (r.dropWhile isDigit)
    | _ => exponentPart neg int 0 rest

/-- A code unit that can stand in a numeral: a digit, `+`, `-`, `.`, `E`, `e`. -/
def isNumeralChar (c : Nat) : Bool :=
  isDigit c || c = 43 || c = 45 || c = 46 || c = 69 || c = 101

/-- Reads a numeral after its optional sign. No code unit of a numeral can
follow a JSON value, so the numeral is the longest run of such units, and the
run has to be a numeral as a whole. -/
def parseNumber (neg : Bool) (input : List Nat) : Except JSError (JSVal × List Nat) :=
  match numeralValue neg (input.takeWhile isNumeralChar) with
  | .ok v => .ok (v, input.dropWhile isNumeralChar)
  | .error e => .error e

/-- Reads the given code units, then answers `v`. -/
def expect (word : List Nat) (v : JSVal) (input : List Nat) : Except JSError (JSVal × List Nat) :=
  if word.isPrefixOf input then .ok (v, input.drop word.length) else .error .syntaxError

mutual
/-- Reads one JSON value. The first argument bounds the recursion. -/
def parseValue : Nat → List Nat → Except JSError (JSVal × List Nat)
  | 0, _ => .error .fuel
  | fuel + 1, input =>
    match skipWs input with
    | [] => .error .syntaxError
    | c :: rest =>
      if c = 34 then
        match parseStr rest with
        | .ok (s, r) => .ok (.str s, r)
        | .error e => .error e
      else if c = 91 then
        match skipWs rest with
        | 93 :: r => .ok (.arr [], r)
        | _ =>
          match parseElems fuel rest with
          | .ok (xs, r) => .ok (.arr xs, r)
          | .error e => .error e
      else if c = 123 then
        match skipWs rest with
        | 125 :: r => .ok (.obj [], r)
        | _ =>
          match parseMembers fuel rest with
          | .ok (fs, r) => .ok (.obj fs, r)
          | .error e => .error e
      else if c = 116 then expect [114, 117, 101] (.bool true) rest
      else if c = 102 then expect [97, 108, 115, 101] (.bool false) rest
      else if c = 110 then expect [117, 108, 108] .null rest
      else if c = 45 then parseNumber true rest
      else if isDigit c then parseNumber false (c :: rest)
      else .error .syntaxError
/-- Reads the elements of a non-empty array and its closing bracket. -/
def parseElems : Nat → List Nat → Except JSError (List JSVal × List Nat)
  | 0, _ => .error .fuel
  | fuel + 1, input =>
    match parseValue fuel input with
    | .error e => .error e
    | .ok (v, r) =>
      match skipWs r with
      | 44 :: r2 =>
        match parseElems fuel r2 with
        | .ok (vs, r3) => .ok (v :: vs, r3)
        | .error e => .error e
      | 93 :: r2 => .ok ([v], r2)
      | _ => .error .syntaxError
/-- Reads the members of a non-empty object and its closing brace. -/
def parseMembers : Nat → List Nat → Except JSError (List (JSString × JSVal) × List Nat)
  | 0, _ => .error .fuel
  | fuel + 1, input =>
    match skipWs input with
    | 34 :: r =>
      match parseStr r with
      | .error e => .error e
      | .ok (k, r1) =>
        match skipWs r1 with
        | 58 :: r2 =>
          match parseValue fuel r2 with
          | .error e => .error e
          | .ok (v, r3) =>
            match skipWs r3 with
            | 44 :: r4 =>
              match parseMembers fuel r4 with
              | .ok (fs, r5) => .ok ((k, v) :: fs, r5)
              | .error e => .error e
            | 125 :: r4 => .ok ([(k, v)], r4)
            | _ => .error .syntaxError
        | _ => .error .syntaxError
    | _ => .error .syntaxError
end

/-- `JSON.parse(text)`: one value, with nothing but white space after it. The
recursion bound is one that no text exhausts. -/
def JSONparse (text : JSString) : Except JSError JSVal :=
  match parseValue (2 * text.length + 1) text with
  | .error e => .error e
  | .ok (v, rest) => if skipWs rest = [] then .ok v else .error .syntaxError

/-! ## Values that `JSON.stringify` writes and `JSON.parse` reads back -/

/-- The number of nodes of a value, each element and member counted once more. -/
def JSVal.size : JSVal → Nat
  | .arr xs => 1 + sizeList xs
  | .obj fields => 1 + sizeFields fields
  | _ => 1
where
  /-- The nodes of the elements of an array. -/
  sizeList : List JSVal → Nat
    | [] => 0
    | x :: rest => 1 + x.size + sizeList rest
  /-- The nodes of the members of an object. -/
  sizeFields : List (JSString × JSVal) → Nat
    | [] => 0
    | (_, x) :: rest => 1 + x.size + sizeFields rest

/-- The text is a JSON numeral that `JSON.parse` reads as the number `x`: it
consists of code units of numerals, and after the optional sign it starts with
a digit and has the value `x`. -/
def NumberReads (x : JSVal) (text : JSString) : Prop :=
  text.all isNumeralChar = true ∧
  match text with
  | [] => False
  | c :: rest =>
    if c = 45 then numeralValue true rest = .ok x
    else isDigit c = true ∧ numeralValue false (c :: rest) = .ok x

/-- A JSON value: `null`, a boolean, a finite number (an integer of magnitude at
most `2^53` as `num`, any other double as `real`), a string, an array of JSON
values, an object whose members are JSON values. -/
def Plain : JSVal → Prop
  | .null => True
  | .bool _ => True
  | .num n => n.natAbs ≤ 2 ^ 53
  | .real _ m e => ValidReal m e
  | .str _ => True
  | .arr xs => plainList xs
  | .obj fields => plainFields fields
  | _ => False
where
  /-- Every element is a JSON value. -/
  plainList : List JSVal → Prop
    | [] => True
    | x :: rest => Plain x ∧ plainList rest
  /-- Every member holds a JSON value. -/
  plainFields : List (JSString × JSVal) → Prop
    | [] => True
    | (_, x) :: rest => Plain x ∧ plainFields rest

/-- A reader's answer on an input of `n` code units is sound: it does not fail
for want of recursion depth or outside the model, and what it leaves unread is
shorter than the input. -/
def Sound {α : Type} (res : Except JSError (α × List Nat)) (n : Nat) : Prop :=
  (∀ e, res = .error e → e = .syntaxError) ∧ (∀ v r, res = .ok (v, r) → r.length < n)

/-- The readers are sound at one recursion bound whenever the bound is at least
twice the length of the input, plus one for a value and plus two for a list of
elements or members. -/
def ReadsAll (fuel : Nat) : Prop :=
  (∀ input, 2 * input.length + 1 ≤ fuel → Sound (parseValue fuel input) input.length)
  ∧ (∀ input, 2 * input.length + 2 ≤ fuel → Sound (parseElems fuel input) input.length)
  ∧ (∀ input, 2 * input.length + 2 ≤ fuel → Sound (parseMembers fuel input) input.length)

/-- What may follow a value inside a text: nothing, a comma, `]` or `}`. -/
def delim : List Nat → Bool
  | [] => true
  | c :: _ => c = 44 || c = 93 || c = 125

/-- A text that begins like a value: not with white space, not with `]`. -/
def valueStart : List Nat → Bool
  | [] => false
  | c :: _ => !isWs c && c != 93

/-- The round-trip statement at one recursion bound: a value, the elements of a
non-empty array, the members of a non-empty object. -/
def ReadsBack (rep : Bool) (fuel : Nat) : Prop :=
  (∀ v t tail, Plain v → stringifyWith rep v = some t → v.size ≤ fuel → delim tail = true →
      parseValue fuel (t ++ tail) = .ok (v, tail))
  ∧ (∀ x xs tail, Plain.plainList (x :: xs) → JSVal.size.sizeList (x :: xs) ≤ fuel →
      parseElems fuel (commaJoin (stringifyWith.elements rep (x :: xs)) ++ 93 :: tail)
        = .ok (x :: xs, tail))
  ∧ (∀ f fs tail, Plain.plainFields (f :: fs) → JSVal.size.sizeFields (f :: fs) ≤ fuel →
      parseMembers fuel (commaJoin (stringifyWith.members rep (f :: fs)) ++ 125 :: tail)
        = .ok (f :: fs, tail))

/-- The text of a value is at least as long as the value has nodes. -/
def FitsText (rep : Bool) (n : Nat) : Prop :=
  (∀ v t, Plain v → v.size ≤ n → stringifyWith rep v = some t → v.size ≤ t.length)
  ∧ (∀ xs, Plain.plainList xs → JSVal.size.sizeList xs ≤ n →
      JSVal.size.sizeList xs ≤ (commaJoin (stringifyWith.elements rep xs)).length + 1)
  ∧ (∀ fs, Plain.plainFields fs → JSVal.size.sizeFields fs ≤ n →
      JSVal.size.sizeFields fs ≤ (commaJoin (stringifyWith.members rep fs)).length + 1)

/-! ## The state of the library and of its host -/

/-- The public options `cfg`. An option holds whatever value the caller passed. -/
structure Cfg where
  debug : JSVal
  onlineCheckTimeout : JSVal
  checkForUpdates : JSVal
  storage : JSVal
  nameSpace : JSVal

/-- The initial value of `cfg`. -/
def defaultCfg : Cfg where
  debug := jsFalse
  onlineCheckTimeout := .num 1500
  checkForUpdates := jsTrue
  storage := .str (lit "cache")
  nameSpace := .str (lit "quiche")

/-- The capability flags `__.support`. -/
structure Support where
  ls : Bool
  cache : Bool
  deriving DecidableEq, Repr

/-- The object `__.cache` once the Cache API stores are opened: the names of the
two caches. -/
structure CacheHandle where
  label_file : JSString
  label_tag : JSString
  deriving DecidableEq, Repr

/-- The private variables `__`. `cache = none` is the initial `false`. -/
structure Priv where
  cache : Option CacheHandle
  online : Bool
  support : Support
  networkChecked : Bool
  loaded : Bool
  deriving DecidableEq, Repr

/-- The initial value of `__`. -/
def initialPriv : Priv where
  cache := none
  online := false
  support := ⟨false, false⟩
  networkChecked := false
  loaded := false

/-- One instance of the library: its private variables and its options. -/
structure Instance where
  priv : Priv
  cfg : Cfg

/-- The entries of `localStorage`, in the order in which `key(i)` enumerates
them. -/
abbrev LocalStorage := List (JSString × JSString)

/-- A response held by a cache of the Cache API. -/
structure CachedResponse where
  status : Nat
  typeHeader : Option JSString
  body : JSVal

/-- One cache of the Cache API: request URL and response. -/
abbrev CacheStore := List (JSString × CachedResponse)

/-- What the library can change on its host. `localStorage = none`: access to
`localStorage` raises. `caches = none`: there is no `caches` in `window`. -/
structure Host where
  localStorage : Option LocalStorage
  caches : Option (List (JSString × CacheStore))

/-- What `fetch` answered. `text` is the body read by `text()`, `blobType` and
`bytes` the body read by `blob()`. -/
structure FetchResponse where
  ok : Bool
  lastModified : Option JSString
  eTag : Option JSString
  text : JSString
  blobType : JSString
  bytes : List Nat

/-- The network and the hash function, which the library only reads.
`reachable` is the outcome of the reachability request of `isOnline`: `none`
when it fails or is aborted, else `resp.type === 'opaque' || resp.ok`. `head`
and `get` answer `none` when `fetch` rejects. -/
structure Net where
  navigatorOnLine : Bool
  reachable : Option Bool
  head : JSString → Option FetchResponse
  get : JSString → Option FetchResponse
  sha256 : JSString → JSString

/-! ### `localStorage` -/

/-- `localStorage.getItem(k)`; `none` is `null`. -/
def lsGetItem : LocalStorage → JSString → Option JSString
  | [], _ => none
  | (k', v) :: rest, k => if k' = k then some v else lsGetItem rest k

/-- `localStorage.setItem(k, v)`: an existing entry keeps its place, a new one
goes last. -/
def lsSetItem : LocalStorage → JSString → JSString → LocalStorage
  | [], k, v => [(k, v)]
  | (k', v') :: rest, k, v =>
    if k' = k then (k, v) :: rest else (k', v') :: lsSetItem rest k v

/-- `localStorage.removeItem(k)`: the other entries keep their order. -/
def lsRemoveItem : LocalStorage → JSString → LocalStorage
  | [], _ => []
  | (k', v') :: rest, k => if k' = k then rest else (k', v') :: lsRemoveItem rest k

/-- Truthiness of what `getItem` answered: `null` and the empty string are
falsy. -/
def itemTruthy : Option JSString → Bool
  | none => false
  | some s => !s.isEmpty

/-! ### Options -/

/-- `typeof v === 'object'`. -/
def typeofObject : JSVal → Bool
  | .null => true
  | .arr _ => true
  | .obj _ => true
  | .blob _ _ => true
  | .buffer _ => true
  | _ => false

/-- The keys without repetition, each at its first place. -/
def distinctKeys : List JSString → List JSString
  | [] => []
  | k :: rest => k :: (distinctKeys rest).filter (fun k' => k' ≠ k)

/-- A key that is an array index: the decimal numeral, without a leading zero,
of an integer below `2^32 - 1`. -/
def isArrayIndex (k : JSString) : Bool :=
  k.all isDigit && decimal (digitsValue k) = k && digitsValue k < 2 ^ 32 - 1

/-- The own keys of an object in the order of `OrdinaryOwnPropertyKeys`: the
array indices in ascending order, then the other keys in the order in which
they were added. -/
def ownKeys (fields : List (JSString × JSVal)) : List JSString :=
  let keys := distinctKeys (fields.map Prod.fst)
  (((keys.filter isArrayIndex).map digitsValue).insertionSort (fun a b => a ≤ b)).map decimal
    ++ keys.filter (fun k => !isArrayIndex k)

/-- `Object.keys(v)`, which is also the order of `for (o in v)`. -/
def objectKeys : JSVal → Except JSError (List JSString)
  | .undefined => .error .typeError
  | .null => .error .typeError
  | .obj fields => .ok (ownKeys fields)
  | .arr xs => .ok ((List.range xs.length).map decimal)
  | .str s => .ok ((List.range s.length).map decimal)
  | _ => .ok []

/-- The member read `opts[o]` for a key `o` that `for (o in opts)` produced. -/
def member (opts : JSVal) (o : JSString) : JSVal :=
  match opts with
  | .obj fields => (lookupLast o fields).getD .undefined
  | _ => .undefined

/-- The assignment `cfg[o] = v` for a key with `cfg.hasOwnProperty(o)`; `none`
when `cfg` has no such key. -/
def setOption (cfg : Cfg) (o : JSString) (v : JSVal) : Option Cfg :=
  if o = lit "debug" then some { cfg with debug := v }
  else if o = lit "onlineCheckTimeout" then some { cfg with onlineCheckTimeout := v }
  else if o = lit "checkForUpdates" then some { cfg with checkForUpdates := v }
  else if o = lit "storage" then some { cfg with storage := v }
  else if o = lit "namespace" then some { cfg with nameSpace := v }
  else none

/-- `String.prototype.toLowerCase` on the ASCII letters. A code unit outside
ASCII is kept; its real lower case is never one of the letters of `local`,
`localstorage`, `ls` or `cache`, the only words the result is compared with. -/
def toLowerCase (s : JSString) : JSString :=
  s.map fun c => if 65 ≤ c ∧ c ≤ 90 then c + 32 else c

/-- The function `normalizeStorageVar`, run with the capability flags as they are
at the time of the call. The second component is the exception raised, if any
(`cfg.storage.toLowerCase` is not a function unless `cfg.storage` is a string). -/
def normalizeStorageVar (support : Support) (cfg : Cfg) : Cfg × Option JSError :=
  match cfg.storage with
  | .str st =>
    let s := toLowerCase st
    let cfg1 : Cfg :=
      if s = lit "local" ∨ s = lit "localstorage" ∨ s = lit "ls" then
        { cfg with storage := .str (lit "local") }
      else cfg
    if ¬ (strictEq cfg1.storage (.str (lit "cache")) ∨ strictEq cfg1.storage (.str (lit "local")))
    then
      if support.cache then ({ cfg1 with storage := .str (lit "cache") }, none)
      else if support.ls then ({ cfg1 with storage := .str (lit "local") }, none)
      else (cfg1, none)
    else (cfg1, none)
  | _ => (cfg, some .typeError)

/-- The loop `for (var o in opts)` of `parsePasssedOptions` over the keys still to
visit. The flag tells whether the loop ran to its end (`true`) or left through
`return invalidOptions()` (`false`). -/
def optionsLoop (opts : JSVal) : List JSString → Cfg → Cfg × Bool
  | [], cfg => (cfg, true)
  | o :: rest, cfg =>
    match setOption cfg o (member opts o) with
    | none => (cfg, false)
    | some cfg1 => optionsLoop opts rest cfg1

/-- The function `parsePasssedOptions`: the options after the call and the
exception raised, if any. -/
def parsePasssedOptions (support : Support) (cfg : Cfg) (opts : JSVal) : Cfg × Option JSError :=
  if ¬ typeofObject opts then (cfg, none)
  else
    match objectKeys opts with
    | .error e => (cfg, some e)
    | .ok keys =>
      if keys.length < 1 then (cfg, none)
      else
        match optionsLoop opts keys cfg with
        | (cfg1, false) => (cfg1, none)
        | (cfg1, true) => normalizeStorageVar support cfg1

/-! ### Capabilities, connectivity, construction -/

/-- The function `Cache_Supported`: `'caches' in window`. -/
def Cache_Supported (host : Host) : Bool := host.caches.isSome

/-- The function `LS_Supported`: it writes and removes the entry `lstest`, and
answers `false` when that raises. -/
def LS_Supported (host : Host) : Bool × Host :=
  match host.localStorage with
  | none => (false, host)
  | some ls =>
    (true, { host with
      localStorage := some (lsRemoveItem (lsSetItem ls (lit "lstest") (lit "lstest")) (lit "lstest")) })

/-- The function `isOnline` (its answer; it also sets `__.networkChecked`). -/
def isOnline (net : Net) (cfg : Cfg) : Bool :=
  if strictEq cfg.checkForUpdates jsFalse then true
  else if ¬ net.navigatorOnLine then false
  else
    match net.reachable with
    | some b => b
    | none => false

/-- `caches.open(name)`: the cache is created when it does not exist yet. -/
def cachesOpen (caches : List (JSString × CacheStore)) (name : JSString) :
    List (JSString × CacheStore) :=
  if (caches.lookup name).isSome then caches else caches ++ [(name, [])]

/-- `caches.delete(name)`. -/
def cachesDelete (caches : List (JSString × CacheStore)) (name : JSString) :
    List (JSString × CacheStore) :=
  caches.filter (fun entry => entry.1 ≠ name)

/-- The function `initCacheAPI`: it opens the two caches and sets `__.cache`. -/
def initCacheAPI (inst : Instance) (host : Host) : Except JSError (Instance × Host) :=
  match host.caches with
  | none => .error .hostError
  | some caches =>
    let files := toJSString inst.cfg.nameSpace ++ lit "_files"
    let tags := toJSString inst.cfg.nameSpace ++ lit "_tags"
    .ok ({ inst with priv := { inst.priv with cache := some ⟨files, tags⟩ } },
      { host with caches := some (cachesOpen (cachesOpen caches files) tags) })

/-- How a call of `constructor` ends: the instance and the host afterwards, and
what the promise of the call settles to. -/
structure Built where
  inst : Instance
  host : Host
  result : Except JSError JSVal

/-- The function `constructor`. When it returns before its `try` block, or
raises, `__.loaded` stays `false` and the loading promise is never resolved. -/
def constructor (net : Net) (host : Host) (opts : JSVal) : Built :=
  let parsed : Cfg × Option JSError :=
    if truthy opts then parsePasssedOptions initialPriv.support defaultCfg opts
    else (defaultCfg, none)
  match parsed.2 with
  | some e => ⟨⟨initialPriv, parsed.1⟩, host, .error e⟩
  | none =>
    let cacheOk := Cache_Supported host
    let probe := LS_Supported host
    let inst1 : Instance :=
      ⟨{ initialPriv with support := ⟨probe.1, cacheOk⟩ }, parsed.1⟩
    if ¬ probe.1 ∧ ¬ cacheOk then ⟨inst1, probe.2, .ok jsFalse⟩
    else
      let opened : Except JSError (Instance × Host) :=
        if strictEq parsed.1.storage (.str (lit "cache")) ∧ cacheOk then initCacheAPI inst1 probe.2
        else .ok (inst1, probe.2)
      match opened with
      | .error e => ⟨inst1, probe.2, .error e⟩
      | .ok (inst2, host2) =>
        let online := isOnline net inst2.cfg
        ⟨{ inst2 with priv := { inst2.priv with
            networkChecked := true, online := online, loaded := true } },
          host2, .ok (.bool online)⟩

/-! ### The codec -/

/-- The array `Array.from(new Uint8Array(buffer))` of the bytes of a blob. -/
def byteArray (bytes : List Nat) : JSVal :=
  .arr (bytes.map fun (b : Nat) => JSVal.num (Int.ofNat b))

/-- The function `serialize`, awaited; `none` is `undefined`. -/
def serialize (d : JSVal) : Option JSString :=
  match d with
  | .blob type bytes =>
    JSONstringify (.obj [(lit "__blob", jsTrue), (lit "type", .str type),
      (lit "data", byteArray bytes)])
  | _ => stringifyWith true d

/-- `typeof x === 'number'`. -/
def isNumber : JSVal → Bool
  | .num _ => true
  | .real _ _ _ => true
  | .infinity _ => true
  | _ => false

/-- The byte a number becomes in a `Uint8Array` (`ToUint8`). -/
def toUint8 : JSVal → Nat
  | .num n => (n % 256).toNat
  | .real neg m e =>
    let mag : Nat := if 0 ≤ e then m * 2 ^ e.toNat else m / 2 ^ (-e).toNat
    ((if neg then -(mag : Int) else (mag : Int)) % 256).toNat
  | _ => 0

/-- The bytes of `new Uint8Array(v)` for an array of numbers, for `undefined`
and for `null`; any other source is outside the model. -/
def uint8Array : JSVal → Option (List Nat)
  | .arr xs => if xs.all isNumber then some (xs.map toUint8) else none
  | .undefined => some []
  | .null => some []
  | _ => none

/-- The type a `Blob` constructor gives a blob: the empty string when the given
type has a code unit outside U+0020..U+007E, else the type in ASCII lower case. -/
def normaliseType (t : JSString) : JSString :=
  if t.all (fun c => 32 ≤ c ∧ c ≤ 126) then toLowerCase t else []

/-- The call `new Blob([bytes], {'type': type})`. -/
def newBlob (bytes : List Nat) (type : JSVal) : JSVal :=
  match type with
  | .undefined => .blob [] bytes
  | t => .blob (normaliseType (toJSString t)) bytes

/-- The reviver of `unserialize`, applied bottom-up as `JSON.parse` does: an
array all of whose elements are numbers becomes the buffer of a `Uint8Array`. -/
def revive : JSVal → JSVal
  | .arr xs =>
    if (reviveList xs).all isNumber then .buffer ((reviveList xs).map toUint8)
    else .arr (reviveList xs)
  | .obj fields => .obj (reviveFields fields)
  | v => v
where
  /-- The revived elements of an array. -/
  reviveList : List JSVal → List JSVal
    | [] => []
    | x :: rest => revive x :: reviveList rest
  /-- The revived members of an object. -/
  reviveFields : List (JSString × JSVal) → List (JSString × JSVal)
    | [] => []
    | (k, x) :: rest => (k, revive x) :: reviveFields rest

/-- The function `unserialize`. -/
def unserialize (d : JSString) : Except JSError JSVal :=
  match JSONparse d with
  | .error e => .error e
  | .ok parsed =>
    match getProp parsed (lit "__blob") with
    | .error e => .error e
    | .ok tag =>
      if truthy tag then
        match uint8Array (member parsed (lit "data")) with
        | none => .error .unmodelled
        | some bytes => .ok (newBlob bytes (member parsed (lit "type")))
      else .ok (revive parsed)

/-! ### Reading and writing records -/

/-- The function `NamespaceIt`: `cfg.namespace+'::'+n`. -/
def NamespaceIt (cfg : Cfg) (n : JSVal) : JSString :=
  toJSString cfg.nameSpace ++ lit "::" ++ toJSString n

/-- `cache.match(url)` on the cache named `label`. -/
def cacheMatch (host : Host) (label : JSString) (url : JSVal) : Option CachedResponse :=
  (((host.caches.getD []).lookup label).getD []).lookup (toJSString url)

/-- Sets the value of a key in a keyed list: an existing entry keeps its place,
a new one goes last. -/
def assocSet {α : Type} : List (JSString × α) → JSString → α → List (JSString × α)
  | [], k, v => [(k, v)]
  | (k', v') :: rest, k, v =>
    if k' = k then (k, v) :: rest else (k', v') :: assocSet rest k v

/-- `cache.put(url, response)` on the cache named `label`. -/
def cachePut (host : Host) (label : JSString) (url : JSVal) (r : CachedResponse) : Host :=
  let caches := host.caches.getD []
  let entries := (caches.lookup label).getD []
  { host with caches := some (assocSet caches label (assocSet entries (toJSString url) r)) }

/-- `response.text()` for a body that is a string. -/
def responseText (r : CachedResponse) : Except JSError JSString :=
  match r.body with
  | .str s => .ok s
  | _ => .error .unmodelled

/-- The metadata `v` that `check` and `getFromStorage` read from the tag cache:
`undefined` without a response, the response itself (an object without own
members) when its status is not 200, its text when that is empty, else the
text parsed. -/
def cacheTag (host : Host) (h : CacheHandle) (url : JSVal) : Except JSError JSVal :=
  match cacheMatch host h.label_tag url with
  | none => .ok .undefined
  | some r =>
    if r.status = 200 then
      match responseText r with
      | .error e => .error e
      | .ok t => if t.isEmpty then .ok (.str t) else JSONparse t
    else .ok (.obj [])

/-- The test `item && v && v.hasOwnProperty(k)` followed by the read `v.k`:
`none` when the test fails. -/
def guardedMember (item : Bool) (v : JSVal) (k : JSString) : Except JSError (Option JSVal) :=
  if item && truthy v then
    match hasOwnProperty v k with
    | .error e => .error e
    | .ok true =>
      match getProp v k with
      | .error e => .error e
      | .ok x => .ok (some x)
    | .ok false => .ok none
  else .ok none

/-- The function `check`. -/
def check (inst : Instance) (host : Host) (res : JSVal) : Except JSError JSVal :=
  if strictEq inst.cfg.storage (.str (lit "local")) then
    match host.localStorage with
    | none => .error .hostError
    | some ls =>
      let item := lsGetItem ls (NamespaceIt inst.cfg res)
      match JSONparse ((lsGetItem ls (NamespaceIt inst.cfg res ++ lit "::V")).getD (lit "null")) with
      | .error e => .error e
      | .ok v =>
        match guardedMember (itemTruthy item) v (lit "ver") with
        | .error e => .error e
        | .ok (some ver) => .ok ver
        | .ok none => .ok jsFalse
  else if strictEq inst.cfg.storage (.str (lit "cache")) then
    match inst.priv.cache with
    | none => .error .typeError
    | some h =>
      let item := cacheMatch host h.label_file res
      match cacheTag host h res with
      | .error e => .error e
      | .ok v =>
        match guardedMember item.isSome v (lit "ver") with
        | .error e => .error e
        | .ok (some ver) => .ok ver
        | .ok none => .ok jsFalse
  else .ok .undefined

/-- The body a `Response` is built with. -/
def responseBody : JSVal → JSVal
  | .str s => .str s
  | .blob t b => .blob t b
  | .buffer b => .blob [] b
  | .undefined => .str []
  | .null => .str []
  | v => .str (toJSString v)

/-- `typeof content === 'string'`. -/
def isString : JSVal → Bool
  | .str _ => true
  | _ => false

/-- The function `store`. -/
def store (inst : Instance) (host : Host) (res content version type : JSVal) :
    Except JSError (JSVal × Host) :=
  let answer : JSVal := .obj [(lit "content", content), (lit "type", type)]
  let tag : JSString :=
    (JSONstringify (.obj [(lit "type", type), (lit "ver", version)])).getD (lit "undefined")
  if strictEq inst.cfg.storage (.str (lit "local")) then
    match host.localStorage with
    | none => .error .hostError
    | some ls =>
      let ls1 := lsSetItem ls (NamespaceIt inst.cfg res)
        ((serialize content).getD (lit "undefined"))
      let ls2 := lsSetItem ls1 (NamespaceIt inst.cfg (.str (toJSString res ++ lit "::V"))) tag
      .ok (answer, { host with localStorage := some ls2 })
  else if strictEq inst.cfg.storage (.str (lit "cache")) then
    match inst.priv.cache with
    | none => .error .typeError
    | some h =>
      let host1 := cachePut host h.label_file res
        ⟨200, some (if isString content then lit "text" else lit "blob"), responseBody content⟩
      let host2 := cachePut host1 h.label_tag res ⟨200, none, .str tag⟩
      .ok (answer, host2)
  else .ok (answer, host)

/-- The function `getFromStorage`. -/
def getFromStorage (inst : Instance) (host : Host) (url : JSVal) : Except JSError JSVal :=
  if strictEq inst.cfg.storage (.str (lit "local")) then
    match host.localStorage with
    | none => .error .hostError
    | some ls =>
      let item := lsGetItem ls (NamespaceIt inst.cfg url)
      match JSONparse ((lsGetItem ls (NamespaceIt inst.cfg url ++ lit "::V")).getD (lit "null")) with
      | .error e => .error e
      | .ok v =>
        match guardedMember (itemTruthy item) v (lit "type") with
        | .error e => .error e
        | .ok none => .ok jsFalse
        | .ok (some type) =>
          match unserialize (item.getD []) with
          | .error e => .error e
          | .ok content => .ok (.obj [(lit "type", type), (lit "content", content)])
  else if strictEq inst.cfg.storage (.str (lit "cache")) then
    match inst.priv.cache with
    | none => .error .typeError
    | some h =>
      match cacheTag host h url with
      | .error e => .error e
      | .ok v =>
        match cacheMatch host h.label_file url with
        | none => .ok jsFalse
        | some item =>
          match guardedMember true v (lit "type") with
          | .error e => .error e
          | .ok none => .ok jsFalse
          | .ok (some type) =>
            let file : JSVal :=
              if item.typeHeader = some (lit "text") then item.body
              else if item.typeHeader = some (lit "blob") then item.body
              else .undefined
            .ok (.obj [(lit "type", type), (lit "content", file)])
  else .ok .undefined

/-! ### Fingerprints and downloads -/

/-- The text hashed for a response: `f.headers.get('Last-Modified')+f.headers.get('ETag')`.
A header that is missing is `null`; `null+null` is the number `0`. -/
def headerSum (f : FetchResponse) : JSString :=
  match f.lastModified, f.eTag with
  | none, none => lit "0"
  | a, b => a.getD (lit "null") ++ b.getD (lit "null")

/-- The function `getHeadersHash`: the fingerprint, or `false`. -/
def getHeadersHash (net : Net) (url : JSVal) : JSVal :=
  match net.head (toJSString url) with
  | none => jsFalse
  | some f => if f.ok then .str (net.sha256 (headerSum f)) else jsFalse

/-- The function `download`: the object `{hash, file}`, or `false`. -/
def download (net : Net) (url type : JSVal) : JSVal :=
  match net.get (toJSString url) with
  | none => jsFalse
  | some f =>
    if f.ok then
      let file : JSVal :=
        if strictEq type (.str (lit "js")) ∨ strictEq type (.str (lit "css"))
            ∨ strictEq type (.str (lit "text")) then .str f.text
        else if strictEq type (.str (lit "font")) ∨ strictEq type (.str (lit "img"))
            ∨ strictEq type (.str (lit "blob")) then .blob f.blobType f.bytes
        else .undefined
      .obj [(lit "hash", .str (net.sha256 (headerSum f))), (lit "file", file)]
    else jsFalse

/-- The function `downloadAndStore`: what it answers and the host afterwards. -/
def downloadAndStore (inst : Instance) (net : Net) (host : Host) (url type : JSVal) :
    Except JSError (JSVal × Host) :=
  let d := download net url type
  let hash := member d (lit "hash")
  let file := member d (lit "file")
  if ¬ truthy hash ∨ ¬ truthy file then .ok (jsFalse, host)
  else store inst host url file hash type

/-! ### Purging -/

/-- The loop of `cleanLocalStorage` from index `i` on: `localStorage.key(i)` is
the key of the entry at index `i`. -/
def cleanLoop (pre : JSString) (i : Nat) (ls : LocalStorage) : LocalStorage :=
  if h : i < ls.length then
    if pre.isPrefixOf (ls.get ⟨i, h⟩).1 then
      cleanLoop pre (i + 1) (lsRemoveItem ls (ls.get ⟨i, h⟩).1)
    else cleanLoop pre (i + 1) ls
  else ls
termination_by ls.length - i
decreasing_by
  · have hle : ∀ (l : LocalStorage) (k : JSString), (lsRemoveItem l k).length ≤ l.length := by
      intro l k
      induction l with
      | nil => simp [lsRemoveItem]
      | cons e rest ih =>
        obtain ⟨k', v'⟩ := e
        simp only [lsRemoveItem]
        split
        · simp
        · simpa using ih
    have := hle ls (ls.get ⟨i, h⟩).1
    omega
  · omega

/-- The function `cleanLocalStorage`. -/
def cleanLocalStorage (inst : Instance) (host : Host) : Except JSError Host :=
  match host.localStorage with
  | none => .error .hostError
  | some ls =>
    .ok { host with
      localStorage := some (cleanLoop (toJSString inst.cfg.nameSpace ++ lit "::") 0 ls) }

/-- The function `cleanCacheStorage`. On an instance whose `__.cache` is still
`false` the two labels are `undefined`. -/
def cleanCacheStorage (inst : Instance) (host : Host) : Except JSError (Instance × Host) :=
  match host.caches with
  | none => .error .hostError
  | some caches =>
    let tag := (inst.priv.cache.map CacheHandle.label_tag).getD (lit "undefined")
    let file := (inst.priv.cache.map CacheHandle.label_file).getD (lit "undefined")
    initCacheAPI inst { host with caches := some (cachesDelete (cachesDelete caches tag) file) }

/-- How a call of `clearAll` ends. -/
structure Cleared where
  inst : Instance
  host : Host
  result : Except JSError JSVal

/-- The two purges of `clearAll` one after the other (`case 'all'`). -/
def cleanBoth (inst : Instance) (host : Host) : Cleared :=
  match cleanCacheStorage inst host with
  | .error e => ⟨inst, host, .error e⟩
  | .ok (inst1, host1) =>
    match cleanLocalStorage inst1 host1 with
    | .error e => ⟨inst1, host1, .error e⟩
    | .ok host2 => ⟨inst1, host2, .ok .undefined⟩

/-- The `switch (store)` of `clearAll`. -/
def clearSwitch (inst : Instance) (host : Host) (which : JSString) : Cleared :=
  if which = lit "cache" then
    match cleanCacheStorage inst host with
    | .error e => ⟨inst, host, .error e⟩
    | .ok (inst1, host1) => ⟨inst1, host1, .ok .undefined⟩
  else if which = lit "local" ∨ which = lit "ls" ∨ which = lit "localStorage" then
    match cleanLocalStorage inst host with
    | .error e => ⟨inst, host, .error e⟩
    | .ok host1 => ⟨inst, host1, .ok .undefined⟩
  else if which = lit "all" then cleanBoth inst host
  else ⟨inst, host, .ok .undefined⟩

/-- The function `clearAll`. -/
def clearAll (inst : Instance) (host : Host) (storage : JSVal) : Cleared :=
  if truthy storage then
    match storage with
    | .str s =>
      let l := toLowerCase s
      if ¬ (l = lit "cache" ∨ l = lit "local" ∨ l = lit "ls" ∨ l = lit "localStorage") then
        ⟨inst, host, .ok jsFalse⟩
      else clearSwitch inst host l
    | _ => ⟨inst, host, .error .typeError⟩
  else clearSwitch inst host (lit "all")

/-! ### `load` and `cache` -/

/-- What a resource task does that can be seen from outside, in order: a
fingerprint request (`getHeadersHash`), a download (`downloadAndStore`), a read
of the stored record (`getFromStorage`), a call of `renderItem`. -/
inductive Event where
  | probe (url : JSVal)
  | fetched (url type : JSVal)
  | read (url : JSVal)
  | render (item : JSVal)

/-- A resource task after it has run: the host, what it did, and whether it
called `resolveThread`. -/
structure TaskRun where
  host : Host
  events : List Event
  signalled : Bool

/-- The comparison `v == 'font'` with a word that is not a numeral. -/
def looseEqWord (v : JSVal) (word : JSString) : Bool :=
  match v with
  | .str s => s = word
  | .arr xs => toJSString (.arr xs) = word
  | _ => false

/-- The assignment `r.name = x`; on the primitive `false` it does nothing. -/
def setName (r x : JSVal) : JSVal :=
  match r with
  | .obj fields => .obj (assocSet fields (lit "name") x)
  | v => v

/-- The statement `if(item.type=='font' && item.hasOwnProperty('name')){r.name=item.name;}`. -/
def nameIt (item r : JSVal) : Except JSError JSVal :=
  if looseEqWord (member item (lit "type")) (lit "font") then
    match hasOwnProperty item (lit "name") with
    | .error e => .error e
    | .ok true => .ok (setName r (member item (lit "name")))
    | .ok false => .ok r
  else .ok r

/-- The function `renderItem`, as far as the core sees it. `switch(item.type)`
raises on `undefined` and on `null`. For a script and a style sheet the content
is converted to a string (`s.innerHTML=item.content`); for a font
`URL.createObjectURL(item.content)` raises unless the content is a `Blob`, and
the name is converted to a string inside the template; any other type reaches
`default`, which builds its message only when `cfg.debug` is set. The elements
added to the document are outside the model. -/
def renderItem (cfg : Cfg) (item : JSVal) : Except JSError Unit :=
  match getProp item (lit "type") with
  | .error e => .error e
  | .ok type =>
    if strictEq type (.str (lit "js")) ∨ strictEq type (.str (lit "css")) then
      if stringable (member item (lit "content")) then .ok () else .error .typeError
    else if strictEq type (.str (lit "font")) then
      match member item (lit "content") with
      | .blob _ _ => if stringable (member item (lit "name")) then .ok () else .error .typeError
      | _ => .error .typeError
    else if truthy cfg.debug ∧ ¬ stringable type then .error .typeError
    else .ok ()

/-- The callback of a task of `load`: it names a font, renders, and calls
`resolveThread`. `before` is what the task did so far. -/
def renderAndResolve (cfg : Cfg) (host : Host) (item r : JSVal) (before : List Event) :
    TaskRun :=
  match nameIt item r with
  | .error _ => ⟨host, before, false⟩
  | .ok r1 =>
    match renderItem cfg r1 with
    | .error _ => ⟨host, before, false⟩
    | .ok _ => ⟨host, before ++ [.render r1], true⟩

/-- The end of a task of `load` that downloads: `downloadAndStore`, then the
callback. -/
def finishDownload (inst : Instance) (net : Net) (host : Host) (item : JSVal)
    (before : List Event) : TaskRun :=
  let url := member item (lit "url")
  let type := member item (lit "type")
  match downloadAndStore inst net host url type with
  | .error _ => ⟨host, before ++ [.fetched url type], false⟩
  | .ok (r, host1) => renderAndResolve inst.cfg host1 item r (before ++ [.fetched url type])

/-- The end of a task of `load` that reuses the stored record:
`getFromStorage`, then the callback. -/
def finishRead (inst : Instance) (host : Host) (item : JSVal) (before : List Event) : TaskRun :=
  let url := member item (lit "url")
  match getFromStorage inst host url with
  | .error _ => ⟨host, before ++ [.read url], false⟩
  | .ok r => renderAndResolve inst.cfg host item r (before ++ [.read url])

/-- The body of the promise that `load` creates for one resource, from the
point where `check` has answered `checked`; `host` is the host at that point. -/
def taskAfterCheck (inst : Instance) (net : Net) (host : Host) (item : JSVal)
    (checked : Except JSError JSVal) : TaskRun :=
  let url := member item (lit "url")
  match checked with
  | .error _ => ⟨host, [], false⟩
  | .ok storedVersion =>
    if ¬ truthy storedVersion then
      if ¬ inst.priv.online then ⟨host, [], false⟩
      else finishDownload inst net host item []
    else if truthy inst.cfg.checkForUpdates then
      if ¬ inst.priv.online then finishRead inst host item []
      else
        let liveVersion := getHeadersHash net url
        if strictEq storedVersion liveVersion then finishRead inst host item [.probe url]
        else finishDownload inst net host item [.probe url]
    else finishRead inst host item []

/-- The body of the promise that `load` creates for one resource, run on its
own. -/
def loadTask (inst : Instance) (net : Net) (host : Host) (item : JSVal) : TaskRun :=
  taskAfterCheck inst net host item (check inst host (member item (lit "url")))

/-- The statement `if(cfg.debug){console.log(... + item.url ...);}`: the text is
built only when `cfg.debug` is truthy, and building it raises when `item` is
`undefined` or `null` or when `item.url` cannot be converted to a string. -/
def debugLog (cfg : Cfg) (item : JSVal) : Except JSError Unit :=
  if truthy cfg.debug then
    match getProp item (lit "url") with
    | .error e => .error e
    | .ok url => if stringable url then .ok () else .error .typeError
  else .ok ()

/-- The body of the loop of `load` on one element of the list, up to the point
where the task is created: `true` when a task is spawned, `false` when the
element is skipped (`continue`). The message about an unsupported type is built
from `item.type`, which raises when the type cannot be converted to a string. -/
def loadValid (cfg : Cfg) (item : JSVal) : Except JSError Bool :=
  match debugLog cfg item with
  | .error e => .error e
  | .ok _ =>
    match hasOwnProperty item (lit "url") with
    | .error e => .error e
    | .ok false => .ok false
    | .ok true =>
      match hasOwnProperty item (lit "type") with
      | .error e => .error e
      | .ok false => .ok false
      | .ok true =>
        let type := member item (lit "type")
        if ¬ (strictEq type (.str (lit "js")) ∨ strictEq type (.str (lit "css"))
            ∨ strictEq type (.str (lit "font"))) then
          if stringable type then .ok false else .error .typeError
        else
          let named : Except JSError Bool :=
            if looseEqWord type (lit "font") then hasOwnProperty item (lit "name") else .ok true
          match named with
          | .error e => .error e
          | .ok false => .ok false
          | .ok true =>
            match debugLog cfg item with
            | .error e => .error e
            | .ok _ => .ok true

/-- The loop of `load`: the elements for which a task is spawned, in order, and
the exception that ended the loop, if any. -/
def spawn (cfg : Cfg) : List JSVal → List JSVal × Option JSError
  | [] => ([], none)
  | item :: rest =>
    match loadValid cfg item with
    | .error e => ([], some e)
    | .ok false => spawn cfg rest
    | .ok true => (item :: (spawn cfg rest).1, (spawn cfg rest).2)

/-- The tasks from the point where `check` has answered, run one after the
other (one of the orders in which the scheduler may run them). -/
def continueTasks (inst : Instance) (net : Net) :
    List (JSVal × Except JSError JSVal) → Host → List TaskRun
  | [], _ => []
  | (item, checked) :: rest, host =>
    taskAfterCheck inst net host item checked
      :: continueTasks inst net rest (taskAfterCheck inst net host item checked).host

/-- The spawned tasks. Each task runs up to the answer of its `check` when it is
created, so every `check` of the batch reads the host as it is before any
download of the batch is stored; then the tasks go on. -/
def runTasks (inst : Instance) (net : Net) (items : List JSVal) (host : Host) : List TaskRun :=
  continueTasks inst net
    (items.map fun item => (item, check inst host (member item (lit "url")))) host

/-- How a public call ends: it returns a value, it raises, or its promise stays
pending for ever. -/
inductive Settled where
  | returned (v : JSVal)
  | raised (e : JSError)
  | pending

/-- A call of `load` after all it started has run. -/
structure LoadRun where
  tasks : List TaskRun
  outcome : Settled

/-- The function `load`, on an instance whose construction has ended. -/
def load (inst : Instance) (net : Net) (host : Host) (list : JSVal) : LoadRun :=
  match list with
  | .arr items =>
    if ¬ inst.priv.loaded then ⟨[], .pending⟩
    else
      let tasks := runTasks inst net (spawn inst.cfg items).1 host
      match (spawn inst.cfg items).2 with
      | some e => ⟨tasks, .raised e⟩
      | none =>
        if tasks.all (fun t => t.signalled) then
          ⟨tasks, .returned (.arr (tasks.map fun _ => .undefined))⟩
        else ⟨tasks, .pending⟩
  | _ => ⟨[], .returned jsFalse⟩

/-- The host after a `downloadAndStore` that nobody awaits. -/
def hostAfterDownload (inst : Instance) (net : Net) (host : Host) (url type : JSVal) : Host :=
  match downloadAndStore inst net host url type with
  | .error _ => host
  | .ok (_, host1) => host1

/-- The host after the downloads among the events have run, in their order. -/
def settleDownloads (inst : Instance) (net : Net) : List Event → Host → Host
  | [], host => host
  | .fetched url type :: rest, host =>
    settleDownloads inst net rest (hostAfterDownload inst net host url type)
  | _ :: rest, host => settleDownloads inst net rest host

/-- One turn of the loop of `cache`: the host at the end of the turn and what
the turn did, or the exception that ends the call. A download that the turn
starts (the event `fetched`) is not awaited: the turn ends before anything is
stored, and the next turn's `check` reads the host as it was. -/
def cacheStep (inst : Instance) (net : Net) (host : Host) (item : JSVal) :
    Except JSError (Host × List Event) :=
  let url := member item (lit "url")
  let type := member item (lit "type")
  match hasOwnProperty item (lit "url") with
  | .error e => .error e
  | .ok false => .ok (host, [])
  | .ok true =>
    match hasOwnProperty item (lit "type") with
    | .error e => .error e
    | .ok false => .ok (host, [])
    | .ok true =>
      match check inst host url with
      | .error e => .error e
      | .ok storedVersion =>
        if ¬ truthy storedVersion then
          if ¬ inst.priv.online then .ok (host, [])
          else .ok (host, [.fetched url type])
        else if truthy inst.cfg.checkForUpdates then
          if ¬ inst.priv.online then .ok (host, [])
          else
            let liveVersion := getHeadersHash net url
            if strictEq storedVersion liveVersion then .ok (host, [.probe url])
            else .ok (host, [.probe url, .fetched url type])
        else .ok (host, [])

/-- The loop of `cache` over the elements still to visit: the host afterwards,
what the turns did, and the exception that ended the loop, if any. -/
def cacheLoop (inst : Instance) (net : Net) : List JSVal → Host → Host × List Event × Option JSError
  | [], host => (host, [], none)
  | item :: rest, host =>
    match cacheStep inst net host item with
    | .error e => (host, [], some e)
    | .ok (host1, events) =>
      ((cacheLoop inst net rest host1).1, events ++ (cacheLoop inst net rest host1).2.1,
        (cacheLoop inst net rest host1).2.2)

/-- A call of `cache` after all it started has run: the downloads it started
have stored what they fetched. -/
structure CacheRun where
  host : Host
  events : List Event
  outcome : Settled

/-- The function `cache`, on an instance whose construction has ended. -/
def cache (inst : Instance) (net : Net) (host : Host) (list : JSVal) : CacheRun :=
  match list with
  | .arr items =>
    if ¬ inst.priv.loaded then ⟨host, [], .pending⟩
    else
      match cacheLoop inst net items host with
      | (host1, events, some e) => ⟨settleDownloads inst net events host1, events, .raised e⟩
      | (host1, events, none) =>
        ⟨settleDownloads inst net events host1, events, .returned .undefined⟩
  | _ => ⟨host, [], .returned jsFalse⟩

/-- The number of fingerprint requests among some events. -/
def probes : List Event → Nat
  | [] => 0
  | .probe _ :: rest => probes rest + 1
  | _ :: rest => probes rest

/-- The number of downloads among some events. -/
def downloads : List Event → Nat
  | [] => 0
  | .fetched _ _ :: rest => downloads rest + 1
  | _ :: rest => downloads rest

/-- The number of reads of a stored record among some events. -/
def reads : List Event → Nat
  | [] => 0
  | .read _ :: rest => reads rest + 1
  | _ :: rest => reads rest

/-! ### Vocabulary of the statements -/

/-- A payload of the codec: a text, or a blob as the platform makes them (its
type is one the `Blob` constructor leaves as it is, its bytes are below 256). -/
def IsPayload : JSVal → Prop
  | .str _ => True
  | .blob type bytes => normaliseType type = type ∧ ∀ b ∈ bytes, b < 256
  | _ => False

/-- The instance on the flat backend with the default namespace, once loaded. -/
def flatInstance (online : Bool) : Instance where
  priv := ⟨none, online, ⟨true, false⟩, true, true⟩
  cfg := { defaultCfg with storage := .str (lit "local") }

/-- A host with the given `localStorage` and no Cache API. -/
def flatHost (ls : LocalStorage) : Host where
  localStorage := some ls
  caches := none

/-- A response with the given body and no `Last-Modified` or `ETag` header. -/
def plainResponse (text : JSString) (blobType : JSString) (bytes : List Nat) : FetchResponse where
  ok := true
  lastModified := none
  eTag := none
  text := text
  blobType := blobType
  bytes := bytes

/-- A network on which every request succeeds with the given response and every
fingerprint is `h1`. -/
def steadyNet (f : FetchResponse) : Net where
  navigatorOnLine := true
  reachable := some true
  head := fun _ => some f
  get := fun _ => some f
  sha256 := fun _ => lit "h1"

/-- The descriptor `{url: 'a.js', type: 'js'}`. -/
def scriptItem : JSVal :=
  .obj [(lit "url", .str (lit "a.js")), (lit "type", .str (lit "js"))]

/-- The `localStorage` after `a.js` was stored with content `x` and version `h1`
under the default namespace. -/
def scriptStored : LocalStorage :=
  [(lit "quiche::a.js", lit "\"x\""), (lit "quiche::a.js::V", lit "\x7b\"type\":\"js\",\"ver\":\"h1\"\x7d")]

/-- The own member `k` of a value: a member of an object, nothing on any other
value. -/
def ownMember (v : JSVal) (k : JSString) : Option JSVal :=
  match v with
  | .obj fields => lookupLast k fields
  | _ => none

/-- A descriptor: an object, none of whose members is named `hasOwnProperty`. -/
def isDescriptor : JSVal → Bool
  | .obj fields => (lookupLast (lit "hasOwnProperty") fields).isNone
  | _ => false

/-- The member is the given word. -/
def isWord (v : Option JSVal) (word : JSString) : Bool :=
  match v with
  | some (.str s) => s = word
  | _ => false

/-- The validity of a descriptor as the specification words it: it has a URL and
a type, the type is one of `js`, `css`, `font`, and a font has a name. -/
def validDescriptor (item : JSVal) : Bool :=
  (ownMember item (lit "url")).isSome
  && (ownMember item (lit "type")).isSome
  && (isWord (ownMember item (lit "type")) (lit "js")
      || isWord (ownMember item (lit "type")) (lit "css")
      || isWord (ownMember item (lit "type")) (lit "font"))
  && (!isWord (ownMember item (lit "type")) (lit "font")
      || (ownMember item (lit "name")).isSome)

/-- The texts that the loop of `load` prints for a descriptor can be built: the
URL can be converted to a string when `cfg.debug` is set, and so can the type
when the descriptor has a URL and a type that is none of `js`, `css`, `font`. -/
def printable (cfg : Cfg) (item : JSVal) : Bool :=
  (!truthy cfg.debug || stringable (member item (lit "url")))
  && (!((ownMember item (lit "url")).isSome && (ownMember item (lit "type")).isSome)
      || isWord (ownMember item (lit "type")) (lit "js")
      || isWord (ownMember item (lit "type")) (lit "css")
      || isWord (ownMember item (lit "type")) (lit "font")
      || stringable (member item (lit "type")))

/-- The descriptor `{url: 'b.js', type: 'js', hasOwnProperty: 1}`. -/
def shadowedItem : JSVal :=
  .obj [(lit "url", .str (lit "b.js")), (lit "type", .str (lit "js")),
    (lit "hasOwnProperty", .num 1)]

/-- The descriptor `{url: 'c.bin', type: {toString: 1}}`. -/
def opaqueTypeItem : JSVal :=
  .obj [(lit "url", .str (lit "c.bin")), (lit "type", .obj [(lit "toString", .num 1)])]

/-- A batch of three descriptors: a script, a descriptor without URL, a font
without name. -/
def mixedBatch : List JSVal :=
  [scriptItem,
   .obj [(lit "type", .str (lit "js"))],
   .obj [(lit "url", .str (lit "f.woff")), (lit "type", .str (lit "font"))]]

/-- A host with `localStorage` and without the Cache API. -/
def hostWithoutCaches : Host where
  localStorage := some []
  caches := none

/-- A host with the Cache API on which access to `localStorage` raises. -/
def hostWithoutLocalStorage : Host where
  localStorage := none
  caches := some []

/-- The construction with no options (preferred backend `cache`) on a host
without the Cache API, connectivity present. -/
def builtWithoutCaches : Built :=
  constructor (steadyNet (plainResponse [] [] [])) hostWithoutCaches .undefined

/-- The construction with the option `storage: 'local'` on a host where access
to `localStorage` raises, connectivity present. -/
def builtWithoutLocalStorage : Built :=
  constructor (steadyNet (plainResponse [] [] [])) hostWithoutLocalStorage
    (.obj [(lit "storage", .str (lit "local"))])

/-- No array in the value has only numbers as elements; in particular no array
in it is empty. -/
def Stable : JSVal → Prop
  | .arr xs => xs.all isNumber = false ∧ stableList xs
  | .obj fields => stableFields fields
  | _ => True
where
  /-- Every element is stable. -/
  stableList : List JSVal → Prop
    | [] => True
    | x :: rest => Stable x ∧ stableList rest
  /-- Every member holds a stable value. -/
  stableFields : List (JSString × JSVal) → Prop
    | [] => True
    | (_, x) :: rest => Stable x ∧ stableFields rest

/-- The reviver of `unserialize` leaves the stable values of at most `n` nodes
as they are: a value, the elements of an array, the members of an object. -/
def RevivesToSelf (n : Nat) : Prop :=
  (∀ v : JSVal, v.size ≤ n → Stable v → revive v = v)
  ∧ (∀ xs : List JSVal, JSVal.size.sizeList xs ≤ n → Stable.stableList xs →
      revive.reviveList xs = xs)
  ∧ (∀ fields : List (JSString × JSVal), JSVal.size.sizeFields fields ≤ n →
      Stable.stableFields fields → revive.reviveFields fields = fields)

/-- The payload `{"name": "quiche", "ratio": 1.5, "tags": ["a", true, -3]}`. -/
def recordPayload : JSVal :=
  .obj [(lit "name", .str (lit "quiche")), (lit "ratio", .real false 3 (-1)),
    (lit "tags", .arr [.str (lit "a"), jsTrue, .num (-3)])]

/-- A host with a working `localStorage` and the Cache API. -/
def hostWithBoth : Host where
  localStorage := some []
  caches := some []

/-- The construction with the option `storage: 'foo'` on a host with both
capabilities, connectivity present. -/
def builtWithFoo : Built :=
  constructor (steadyNet (plainResponse [] [] [])) hostWithBoth
    (.obj [(lit "storage", .str (lit "foo"))])

/-- The construction with the option `storage: 'CACHE'` on a host with both
capabilities, connectivity present. -/
def builtWithUpperCache : Built :=
  constructor (steadyNet (plainResponse [] [] [])) hostWithBoth
    (.obj [(lit "storage", .str (lit "CACHE"))])

/-! ## Numerals -/

theorem decimalAux_eq (n : Nat) :
    ∀ fuel acc, n < fuel → decimalAux fuel n acc = decimalAux (n + 1) n [] ++ acc := by
  induction n using Nat.strong_induction_on with
  | _ n ih =>
    intro fuel acc hf
    obtain ⟨f, rfl⟩ : ∃ f, fuel = f + 1 := ⟨fuel - 1, by omega⟩
    by_cases h : n < 10
    · simp [decimalAux, h]
    · simp only [decimalAux, if_neg h]
      rw [ih (n / 10) (by omega) f _ (by omega), ih (n / 10) (by omega) n [48 + n % 10] (by omega)]
      simp

theorem decimal_eq (n : Nat) :
    decimal n = if n < 10 then [48 + n] else decimal (n / 10) ++ [48 + n % 10] := by
  by_cases h : n < 10
  · simp [decimal, decimalAux, h]
  · rw [if_neg h]
    unfold decimal
    simp only [decimalAux, if_neg h]
    exact decimalAux_eq (n / 10) n _ (by omega)

theorem decimal_head (n : Nat) :
    ∃ d ds, decimal n = d :: ds ∧ isDigit d = true ∧ (d = 48 → n = 0 ∧ ds = []) := by
  induction n using Nat.strong_induction_on with
  | _ n ih =>
    by_cases h : n < 10
    · refine ⟨48 + n, [], ?_, ?_, ?_⟩
      · rw [decimal_eq, if_pos h]
      · simp [isDigit]; omega
      · intro h0; exact ⟨by omega, rfl⟩
    · obtain ⟨d, ds, hd, hdig, hz⟩ := ih (n / 10) (by omega)
      refine ⟨d, ds ++ [48 + n % 10], ?_, hdig, ?_⟩
      · rw [decimal_eq, if_neg h, hd]; rfl
      · intro h0
        have := (hz h0).1
        omega

theorem decimal_digits (n : Nat) : (decimal n).all isDigit = true := by
  induction n using Nat.strong_induction_on with
  | _ n ih =>
    by_cases h : n < 10
    · rw [decimal_eq, if_pos h]
      simp [isDigit]; omega
    · rw [decimal_eq, if_neg h, List.all_append, ih (n / 10) (by omega)]
      simp [isDigit]; omega

theorem digitsValue_snoc (ds : List Nat) (c : Nat) :
    digitsValue (ds ++ [c]) = digitsValue ds * 10 + (c - 48) := by
  simp [digitsValue, List.foldl_append]

theorem digitsValue_decimal (n : Nat) : digitsValue (decimal n) = n := by
  induction n using Nat.strong_induction_on with
  | _ n ih =>
    by_cases h : n < 10
    · rw [decimal_eq, if_pos h]
      simp [digitsValue]
    · rw [decimal_eq, if_neg h, digitsValue_snoc, ih (n / 10) (by omega)]
      omega

theorem takeWhile_run (p : Nat → Bool) (l tail : List Nat) (hl : l.all p = true)
    (ht : ∀ c r, tail = c :: r → p c = false) :
    (l ++ tail).takeWhile p = l ∧ (l ++ tail).dropWhile p = tail := by
  induction l with
  | nil =>
    cases tail with
    | nil => exact ⟨rfl, rfl⟩
    | cons c r => simp [List.takeWhile, List.dropWhile, ht c r rfl]
  | cons a l ih =>
    simp only [List.all_cons, Bool.and_eq_true] at hl
    obtain ⟨h1, h2⟩ := ih hl.2
    simp [List.takeWhile, List.dropWhile, hl.1, h1, h2]

theorem takeWhile_all (p : Nat → Bool) (l : List Nat) (hl : l.all p = true) :
    l.takeWhile p = l ∧ l.dropWhile p = [] := by
  have h := takeWhile_run p l [] hl (fun c r hc => by cases hc)
  simpa using h

theorem delim_not_numeral (tail : List Nat) (ht : delim tail = true) :
    ∀ c r, tail = c :: r → isNumeralChar c = false := by
  intro c r hc
  subst hc
  simp only [delim, Bool.or_eq_true, decide_eq_true_eq] at ht
  rcases ht with (h | h) | h <;> subst h <;> rfl

theorem digit_numeral (l : List Nat) (h : l.all isDigit = true) :
    l.all isNumeralChar = true := by
  rw [List.all_eq_true] at h ⊢
  intro c hc
  simp [isNumeralChar, h c hc]

/-- A numeral in front of what may follow a value is read as a whole. -/
theorem parseNumber_token (neg : Bool) (tok tail : List Nat) (x : JSVal)
    (htok : tok.all isNumeralChar = true) (ht : delim tail = true)
    (hx : numeralValue neg tok = .ok x) :
    parseNumber neg (tok ++ tail) = .ok (x, tail) := by
  obtain ⟨h1, h2⟩ := takeWhile_run isNumeralChar tok tail htok (delim_not_numeral tail ht)
  simp [parseNumber, h1, h2, hx]

theorem numeralValue_decimal (neg : Bool) (n : Nat) :
    numeralValue neg (decimal n) = .ok (decimalToNumber neg n 0) := by
  obtain ⟨d, ds, hd, hdig, hz⟩ := decimal_head n
  obtain ⟨h1, h2⟩ := takeWhile_all isDigit (decimal n) (decimal_digits n)
  have hv := digitsValue_decimal n
  unfold numeralValue
  simp only [h1, h2]
  rw [hd] at hv ⊢
  rw [if_neg (by simp), if_neg]
  · simp [exponentPart, hv]
  · rintro ⟨h0, hlen⟩
    simp only [List.head?_cons, Option.some.injEq] at h0
    obtain ⟨-, hds⟩ := hz h0
    simp [hds] at hlen

theorem decimalToNumber_exact (neg : Bool) (n : Nat) (hn : n ≤ 2 ^ 53) :
    decimalToNumber neg n 0 = .num (if neg then - (n : Int) else (n : Int)) := by
  unfold decimalToNumber
  by_cases h0 : n = 0
  · subst h0; cases neg <;> rfl
  · rw [if_neg h0, if_pos ⟨le_refl _, by decide, by simpa using hn⟩]
    simp

theorem parseNumber_decimal (neg : Bool) (n : Nat) (hn : n ≤ 2 ^ 53) (tail : List Nat)
    (ht : delim tail = true) :
    parseNumber neg (decimal n ++ tail)
      = .ok (.num (if neg then - (n : Int) else (n : Int)), tail) := by
  rw [← decimalToNumber_exact neg n hn]
  exact parseNumber_token neg _ tail _ (digit_numeral _ (decimal_digits n)) ht
    (numeralValue_decimal neg n)

theorem bitLengthAux_spec (fuel : Nat) :
    ∀ n, n ≤ fuel → n ≠ 0 →
      1 ≤ bitLengthAux fuel n ∧ 2 ^ (bitLengthAux fuel n - 1) ≤ n ∧ n < 2 ^ bitLengthAux fuel n := by
  induction fuel with
  | zero => intro n h h0; omega
  | succ f ih =>
    intro n h h0
    simp only [bitLengthAux, if_neg h0]
    by_cases h2 : n / 2 = 0
    · have h1 : n = 1 := by omega
      subst h1
      have hz : bitLengthAux f (1 / 2) = 0 := by
        cases f <;> simp [bitLengthAux]
      rw [hz]
      simp
    · obtain ⟨hb1, hb2, hb3⟩ := ih (n / 2) (by omega) h2
      refine ⟨by omega, ?_, ?_⟩
      · rw [Nat.add_sub_cancel]
        have : 2 ^ bitLengthAux f (n / 2) = 2 * 2 ^ (bitLengthAux f (n / 2) - 1) := by
          rw [← pow_succ']
          congr 1
          omega
        omega
      · rw [pow_succ]
        omega

theorem bitLength_spec (n : Nat) (h0 : n ≠ 0) :
    1 ≤ bitLength n ∧ 2 ^ (bitLength n - 1) ≤ n ∧ n < 2 ^ bitLength n :=
  bitLengthAux_spec n n (le_refl _) h0

theorem roundHalfEven_exact (q d : Nat) (hd : 0 < d) : roundHalfEven (q * d) d = q := by
  unfold roundHalfEven
  simp [Nat.mul_div_cancel _ hd, hd]

theorem stripTwos_odd (m : Nat) (hm : m % 2 = 1) :
    ∀ (d fuel : Nat) (e : Int), d ≤ fuel → stripTwos fuel (m * 2 ^ d) e = (m, e + d) := by
  intro d
  induction d with
  | zero =>
    intro fuel e _
    cases fuel with
    | zero => simp [stripTwos]
    | succ f =>
      simp only [stripTwos, pow_zero, mul_one]
      rw [if_neg (by omega)]
      simp
  | succ d ih =>
    intro fuel e hf
    obtain ⟨f, rfl⟩ : ∃ f, fuel = f + 1 := ⟨fuel - 1, by omega⟩
    have hpos : 0 < m * 2 ^ (d + 1) := by
      have : 0 < m := by omega
      positivity
    have hdiv : m * 2 ^ (d + 1) / 2 = m * 2 ^ d := by
      rw [pow_succ, ← mul_assoc]
      exact Nat.mul_div_cancel _ (by decide)
    have hmod : m * 2 ^ (d + 1) % 2 = 0 := by
      rw [pow_succ, ← mul_assoc]
      exact Nat.mul_mod_left _ _
    simp only [stripTwos]
    rw [if_pos ⟨hmod, by omega⟩, hdiv, ih f (e + 1) (by omega)]
    congr 1
    push_cast
    ring

theorem zpow_two_nonneg (k : Int) (hk : 0 ≤ k) : (2 : ℚ) ^ k = ((2 ^ k.toNat : Nat) : ℚ) := by
  obtain ⟨n, rfl⟩ := Int.eq_ofNat_of_zero_le hk
  simp

theorem zpow_two_neg (k : Int) (hk : k ≤ 0) :
    (2 : ℚ) ^ k * ((2 ^ (-k).toNat : Nat) : ℚ) = 1 := by
  obtain ⟨n, hn⟩ := Int.eq_ofNat_of_zero_le (neg_nonneg.mpr hk)
  have hk2 : k = -(n : Int) := by omega
  subst hk2
  simp

theorem scaled_le_nonneg (k : Int) (hk : 0 ≤ k) (a b : Nat) :
    (2 : ℚ) ^ k * b ≤ a ↔ b * 2 ^ k.toNat ≤ a := by
  rw [zpow_two_nonneg k hk]
  constructor
  · intro h
    have : ((b * 2 ^ k.toNat : Nat) : ℚ) ≤ (a : ℚ) := by push_cast at h ⊢; linarith
    exact_mod_cast this
  · intro h
    have : ((b * 2 ^ k.toNat : Nat) : ℚ) ≤ (a : ℚ) := by exact_mod_cast h
    push_cast at this ⊢; linarith

theorem scaled_le_neg (k : Int) (hk : k ≤ 0) (a b : Nat) :
    (2 : ℚ) ^ k * b ≤ a ↔ b ≤ a * 2 ^ (-k).toNat := by
  have h1 := zpow_two_neg k hk
  have hpos : (0 : ℚ) < ((2 ^ (-k).toNat : Nat) : ℚ) := by positivity
  have hz : (0 : ℚ) < (2 : ℚ) ^ k := by positivity
  constructor
  · intro h
    have h2 : (2 : ℚ) ^ k * b * ((2 ^ (-k).toNat : Nat) : ℚ) ≤ a * ((2 ^ (-k).toNat : Nat) : ℚ) :=
      mul_le_mul_of_nonneg_right h hpos.le
    have h3 : (2 : ℚ) ^ k * b * ((2 ^ (-k).toNat : Nat) : ℚ) = b := by
      calc (2 : ℚ) ^ k * b * ((2 ^ (-k).toNat : Nat) : ℚ)
          = ((2 : ℚ) ^ k * ((2 ^ (-k).toNat : Nat) : ℚ)) * b := by ring
        _ = b := by rw [h1, one_mul]
    rw [h3] at h2
    exact_mod_cast h2
  · intro h
    have h2 : (b : ℚ) ≤ a * ((2 ^ (-k).toNat : Nat) : ℚ) := by exact_mod_cast h
    have h3 : (2 : ℚ) ^ k * b ≤ (2 : ℚ) ^ k * (a * ((2 ^ (-k).toNat : Nat) : ℚ)) :=
      mul_le_mul_of_nonneg_left h2 hz.le
    calc (2 : ℚ) ^ k * b ≤ (2 : ℚ) ^ k * (a * ((2 ^ (-k).toNat : Nat) : ℚ)) := h3
      _ = a * ((2 : ℚ) ^ k * ((2 ^ (-k).toNat : Nat) : ℚ)) := by ring
      _ = a := by rw [h1, mul_one]

theorem bitLength_rat (n : Nat) (h0 : n ≠ 0) :
    (2 : ℚ) ^ ((bitLength n : Int) - 1) ≤ n ∧ (n : ℚ) < (2 : ℚ) ^ (bitLength n : Int) := by
  obtain ⟨h1, h2, h3⟩ := bitLength_spec n h0
  constructor
  · have : ((bitLength n : Int) - 1) = ((bitLength n - 1 : Nat) : Int) := by omega
    rw [this, zpow_natCast]
    exact_mod_cast h2
  · rw [zpow_natCast]
    exact_mod_cast h3

theorem floorLog2_spec (a b : Nat) (ha : a ≠ 0) (hb : b ≠ 0) :
    (2 : ℚ) ^ (floorLog2 a b) * b ≤ a ∧ (a : ℚ) < (2 : ℚ) ^ (floorLog2 a b + 1) * b := by
  obtain ⟨ha1, ha2⟩ := bitLength_rat a ha
  obtain ⟨hb1, hb2⟩ := bitLength_rat b hb
  have hbpos : (0 : ℚ) < b := by exact_mod_cast Nat.pos_of_ne_zero hb
  have two : (2 : ℚ) ≠ 0 := by norm_num
  -- the bounds that hold for the difference of the bit lengths
  have hup : (a : ℚ) < (2 : ℚ) ^ ((bitLength a : Int) - (bitLength b : Int) + 1) * b := by
    have e1 : (2 : ℚ) ^ ((bitLength a : Int) - (bitLength b : Int) + 1)
        * (2 : ℚ) ^ ((bitLength b : Int) - 1) = (2 : ℚ) ^ (bitLength a : Int) := by
      rw [← zpow_add₀ two]
      congr 1
      ring
    calc (a : ℚ) < (2 : ℚ) ^ (bitLength a : Int) := ha2
      _ = (2 : ℚ) ^ ((bitLength a : Int) - (bitLength b : Int) + 1)
            * (2 : ℚ) ^ ((bitLength b : Int) - 1) := e1.symm
      _ ≤ (2 : ℚ) ^ ((bitLength a : Int) - (bitLength b : Int) + 1) * b :=
          mul_le_mul_of_nonneg_left hb1 (by positivity)
  have hlow : (2 : ℚ) ^ ((bitLength a : Int) - (bitLength b : Int) - 1) * b ≤ a := by
    have e1 : (2 : ℚ) ^ ((bitLength a : Int) - (bitLength b : Int) - 1)
        * (2 : ℚ) ^ (bitLength b : Int) = (2 : ℚ) ^ ((bitLength a : Int) - 1) := by
      rw [← zpow_add₀ two]
      congr 1
      ring
    calc (2 : ℚ) ^ ((bitLength a : Int) - (bitLength b : Int) - 1) * b
        ≤ (2 : ℚ) ^ ((bitLength a : Int) - (bitLength b : Int) - 1)
            * (2 : ℚ) ^ (bitLength b : Int) :=
          mul_le_mul_of_nonneg_left hb2.le (by positivity)
      _ = (2 : ℚ) ^ ((bitLength a : Int) - 1) := e1
      _ ≤ a := ha1
  unfold floorLog2
  simp only
  by_cases hk : 0 ≤ (bitLength a : Int) - (bitLength b : Int)
  · rw [if_pos hk]
    by_cases ht : b * 2 ^ ((bitLength a : Int) - (bitLength b : Int)).toNat ≤ a
    · rw [if_pos ht]
      exact ⟨(scaled_le_nonneg _ hk a b).2 ht, hup⟩
    · rw [if_neg ht]
      refine ⟨hlow, ?_⟩
      rw [sub_add_cancel]
      exact lt_of_not_le (fun h => ht ((scaled_le_nonneg _ hk a b).1 h))
  · rw [if_neg hk]
    have hk' : (bitLength a : Int) - (bitLength b : Int) ≤ 0 := by omega
    by_cases ht : b ≤ a * 2 ^ (-((bitLength a : Int) - (bitLength b : Int))).toNat
    · rw [if_pos ht]
      exact ⟨(scaled_le_neg _ hk' a b).2 ht, hup⟩
    · rw [if_neg ht]
      refine ⟨hlow, ?_⟩
      rw [sub_add_cancel]
      exact lt_of_not_le (fun h => ht ((scaled_le_neg _ hk' a b).1 h))

theorem floorLog2_unique (x : ℚ) (k k' : Int) (h1 : (2 : ℚ) ^ k ≤ x) (h2 : x < (2 : ℚ) ^ (k + 1))
    (h3 : (2 : ℚ) ^ k' ≤ x) (h4 : x < (2 : ℚ) ^ (k' + 1)) : k = k' := by
  have a1 : k < k' + 1 := (zpow_lt_zpow_iff_right₀ (by norm_num : (1 : ℚ) < 2)).1 (lt_of_le_of_lt h1 h4)
  have a2 : k' < k + 1 := (zpow_lt_zpow_iff_right₀ (by norm_num : (1 : ℚ) < 2)).1 (lt_of_le_of_lt h3 h2)
  omega

theorem bitLength_le (m : Nat) (hm : m ≠ 0) (h : m < 2 ^ 53) : bitLength m ≤ 53 := by
  obtain ⟨h1, h2, -⟩ := bitLength_spec m hm
  by_contra hc
  have : 2 ^ 53 ≤ 2 ^ (bitLength m - 1) := Nat.pow_le_pow_right (by decide) (by omega)
  omega

theorem floorLog2_exact (m : Nat) (e : Int) (a b : Nat) (hm : m ≠ 0) (hb : b ≠ 0)
    (hrel : (a : ℚ) = m * (2 : ℚ) ^ e * b) :
    a ≠ 0 ∧ floorLog2 a b = (bitLength m : Int) - 1 + e := by
  have hbpos : (0 : ℚ) < b := by exact_mod_cast Nat.pos_of_ne_zero hb
  have hmpos : (0 : ℚ) < m := by exact_mod_cast Nat.pos_of_ne_zero hm
  have two : (2 : ℚ) ≠ 0 := by norm_num
  have hapos : (0 : ℚ) < a := by rw [hrel]; positivity
  have ha : a ≠ 0 := by
    intro h0
    rw [h0] at hapos
    simp at hapos
  refine ⟨ha, ?_⟩
  obtain ⟨h1, h2⟩ := floorLog2_spec a b ha hb
  obtain ⟨m1, m2⟩ := bitLength_rat m hm
  rw [hrel] at h1 h2
  have k1 : (2 : ℚ) ^ (floorLog2 a b) ≤ m * (2 : ℚ) ^ e := le_of_mul_le_mul_right h1 hbpos
  have k2 : (m : ℚ) * (2 : ℚ) ^ e < (2 : ℚ) ^ (floorLog2 a b + 1) := lt_of_mul_lt_mul_right h2 hbpos.le
  have hz : (0 : ℚ) < (2 : ℚ) ^ e := by positivity
  have l1 : (2 : ℚ) ^ ((bitLength m : Int) - 1 + e) ≤ m * (2 : ℚ) ^ e := by
    rw [zpow_add₀ two]
    exact mul_le_mul_of_nonneg_right m1 hz.le
  have l2 : (m : ℚ) * (2 : ℚ) ^ e < (2 : ℚ) ^ ((bitLength m : Int) - 1 + e + 1) := by
    have : (bitLength m : Int) - 1 + e + 1 = (bitLength m : Int) + e := by ring
    rw [this, zpow_add₀ two]
    exact mul_lt_mul_of_pos_right m2 hz
  exact floorLog2_unique _ _ _ k1 k2 l1 l2

theorem scaled_exact (m : Nat) (e E : Int) (a b : Nat) (hE : E ≤ e)
    (hrel : (a : ℚ) = m * (2 : ℚ) ^ e * b) :
    (E < 0 → a * 2 ^ (-E).toNat = m * 2 ^ (e - E).toNat * b)
    ∧ (0 ≤ E → a = m * 2 ^ (e - E).toNat * (b * 2 ^ E.toNat)) := by
  have two : (2 : ℚ) ≠ 0 := by norm_num
  have hd : (2 : ℚ) ^ (e - E) = ((2 ^ (e - E).toNat : Nat) : ℚ) := zpow_two_nonneg _ (by omega)
  constructor
  · intro hneg
    have h1 := zpow_two_neg E (by omega)
    have : ((a * 2 ^ (-E).toNat : Nat) : ℚ) = ((m * 2 ^ (e - E).toNat * b : Nat) : ℚ) := by
      push_cast
      push_cast at hd h1
      rw [hrel, ← hd]
      have hsplit : (2 : ℚ) ^ e = (2 : ℚ) ^ (e - E) * (2 : ℚ) ^ E := by
        rw [← zpow_add₀ two]
        congr 1
        ring
      rw [hsplit]
      calc (m : ℚ) * ((2 : ℚ) ^ (e - E) * (2 : ℚ) ^ E) * b * 2 ^ (-E).toNat
          = m * (2 : ℚ) ^ (e - E) * b * ((2 : ℚ) ^ E * 2 ^ (-E).toNat) := by ring
        _ = m * (2 : ℚ) ^ (e - E) * b := by rw [h1, mul_one]
    exact_mod_cast this
  · intro hpos
    have hE2 : (2 : ℚ) ^ E = ((2 ^ E.toNat : Nat) : ℚ) := zpow_two_nonneg _ hpos
    have : (a : ℚ) = ((m * 2 ^ (e - E).toNat * (b * 2 ^ E.toNat) : Nat) : ℚ) := by
      push_cast
      push_cast at hd hE2
      rw [hrel, ← hd, ← hE2]
      have hsplit : (2 : ℚ) ^ e = (2 : ℚ) ^ (e - E) * (2 : ℚ) ^ E := by
        rw [← zpow_add₀ two]
        congr 1
        ring
      rw [hsplit]
      ring
    exact_mod_cast this

theorem round_exact (m : Nat) (e E : Int) (a b : Nat) (hE : E ≤ e) (hb : b ≠ 0)
    (hrel : (a : ℚ) = m * (2 : ℚ) ^ e * b) :
    (if E < 0 then roundHalfEven (a * 2 ^ (-E).toNat) b else roundHalfEven a (b * 2 ^ E.toNat))
      = m * 2 ^ (e - E).toNat := by
  obtain ⟨s1, s2⟩ := scaled_exact m e E a b hE hrel
  have hbpos : 0 < b := Nat.pos_of_ne_zero hb
  by_cases hneg : E < 0
  · rw [if_pos hneg, s1 hneg]
    exact roundHalfEven_exact _ _ hbpos
  · rw [if_neg hneg]
    have h2 := s2 (by omega)
    have hpos : 0 < b * 2 ^ E.toNat := by positivity
    calc roundHalfEven a (b * 2 ^ E.toNat)
        = roundHalfEven (m * 2 ^ (e - E).toNat * (b * 2 ^ E.toNat)) (b * 2 ^ E.toNat) := by
          rw [← h2]
      _ = m * 2 ^ (e - E).toNat := roundHalfEven_exact _ _ hpos

theorem mkNumber_odd (neg : Bool) (m : Nat) (e E : Int) (hv : ValidReal m e) (hE : E ≤ e)
    (hd : (e - E).toNat ≤ 64) :
    mkNumber neg (m * 2 ^ (e - E).toNat) E = .real neg m e := by
  obtain ⟨hodd, hm, he, hl, hbig⟩ := hv
  unfold mkNumber
  have hs := stripTwos_odd m hodd (e - E).toNat 64 E hd
  have he2 : E + ((e - E).toNat : Int) = e := by omega
  rw [he2] at hs
  simp only [hs]
  rw [if_neg]
  rintro ⟨h1, h2, h3⟩
  rcases hbig with h | h
  · omega
  · omega

theorem toDouble_exact (neg : Bool) (m : Nat) (e : Int) (a b : Nat) (hv : ValidReal m e)
    (hb : b ≠ 0) (hrel : (a : ℚ) = m * (2 : ℚ) ^ e * b) :
    toDouble neg a b = .real neg m e := by
  have hv' := hv
  obtain ⟨hodd, hm, he, hl, hbig⟩ := hv
  have hm0 : m ≠ 0 := by omega
  obtain ⟨ha, hk⟩ := floorLog2_exact m e a b hm0 hb hrel
  have hL := bitLength_le m hm0 hm
  obtain ⟨hL1, hL2, hL3⟩ := bitLength_spec m hm0
  have hE : max (floorLog2 a b) (-1022) - 52 ≤ e := by
    rw [hk]
    omega
  have hδ : (e - (max (floorLog2 a b) (-1022) - 52)).toNat + bitLength m ≤ 53 := by
    rw [hk]
    omega
  have hn := round_exact m e (max (floorLog2 a b) (-1022) - 52) a b hE hb hrel
  have hlt : m * 2 ^ (e - (max (floorLog2 a b) (-1022) - 52)).toNat < 2 ^ 53 := by
    calc m * 2 ^ (e - (max (floorLog2 a b) (-1022) - 52)).toNat
        < 2 ^ bitLength m * 2 ^ (e - (max (floorLog2 a b) (-1022) - 52)).toNat :=
          Nat.mul_lt_mul_of_pos_right hL3 (by positivity)
      _ = 2 ^ (bitLength m + (e - (max (floorLog2 a b) (-1022) - 52)).toNat) := by
          rw [pow_add]
      _ ≤ 2 ^ 53 := Nat.pow_le_pow_right (by decide) (by omega)
  have hpos : m * 2 ^ (e - (max (floorLog2 a b) (-1022) - 52)).toNat ≠ 0 := by
    have : 0 < m := by omega
    positivity
  unfold toDouble
  rw [if_neg ha]
  simp only
  rw [if_neg (by rw [hk]; omega), hn, if_neg hpos, if_neg (by omega)]
  exact mkNumber_odd neg m e _ hv' hE (by omega)

theorem decimal_length_lt (n : Nat) : n < 10 ^ (decimal n).length := by
  induction n using Nat.strong_induction_on with
  | _ n ih =>
    by_cases h : n < 10
    · rw [decimal_eq, if_pos h]
      simpa using h
    · rw [decimal_eq, if_neg h]
      have := ih (n / 10) (by omega)
      simp only [List.length_append, List.length_singleton, pow_succ]
      omega

theorem tiny_guard (m j : Nat) (hm : m ≠ 0) (hj : j ≤ 1074) :
    j ≤ (decimal (m * 5 ^ j)).length + 540 := by
  have h1 := decimal_length_lt (m * 5 ^ j)
  have h3 : 5 ^ j ≤ m * 5 ^ j := Nat.le_mul_of_pos_left _ (Nat.pos_of_ne_zero hm)
  have h4 : (4 : Nat) ^ j ≤ 5 ^ j := Nat.pow_le_pow_left (by decide) j
  have h5 : (10 : Nat) ^ (decimal (m * 5 ^ j)).length ≤ 16 ^ (decimal (m * 5 ^ j)).length :=
    Nat.pow_le_pow_left (by decide) _
  have h6 : (4 : Nat) ^ j = 2 ^ (2 * j) := by rw [pow_mul]; rfl
  have h7 : (16 : Nat) ^ (decimal (m * 5 ^ j)).length = 2 ^ (4 * (decimal (m * 5 ^ j)).length) := by
    rw [pow_mul]; rfl
  have h8 : 2 ^ (2 * j) < 2 ^ (4 * (decimal (m * 5 ^ j)).length) := by
    rw [← h6, ← h7]
    omega
  have h9 := (Nat.pow_lt_pow_iff_right (by decide : 1 < 2)).1 h8
  omega

theorem decimalToNumber_exactDecimal (neg : Bool) (m : Nat) (e : Int) (hv : ValidReal m e) :
    decimalToNumber neg (exactDecimal m e).1 (exactDecimal m e).2 = .real neg m e := by
  have hv' := hv
  obtain ⟨hodd, hm, he, hl, hbig⟩ := hv
  have hm0 : m ≠ 0 := by omega
  have hmpos : 0 < m := by omega
  unfold exactDecimal
  by_cases h0 : 0 ≤ e
  · rw [if_pos h0]
    have hbig' : 2 ^ 53 < m * 2 ^ e.toNat := by
      rcases hbig with h | h
      · omega
      · exact h
    have hs : m * 2 ^ e.toNat ≠ 0 := by positivity
    unfold decimalToNumber
    simp only
    rw [if_neg hs, if_neg (by simp; omega), if_neg (by decide), if_neg (by omega),
      if_pos (le_refl _)]
    apply toDouble_exact neg m e _ 1 hv' (by decide)
    rw [zpow_two_nonneg e h0]
    push_cast
    simp
  · rw [if_neg h0]
    have hs : m * 5 ^ (-e).toNat ≠ 0 := by positivity
    have hg := tiny_guard m (-e).toNat hm0 (by omega)
    unfold decimalToNumber
    simp only
    rw [if_neg hs, if_neg (by omega), if_neg (by omega), if_neg (by omega), if_neg h0]
    apply toDouble_exact neg m e _ _ hv' (by positivity)
    have h1 := zpow_two_neg e (by omega)
    push_cast at h1 ⊢
    have h10 : (10 : ℚ) ^ (-e).toNat = 2 ^ (-e).toNat * 5 ^ (-e).toNat := by
      rw [← mul_pow]
      norm_num
    rw [h10]
    calc (m : ℚ) * 5 ^ (-e).toNat = m * 1 * 5 ^ (-e).toNat := by ring
      _ = m * ((2 : ℚ) ^ e * 2 ^ (-e).toNat) * 5 ^ (-e).toNat := by rw [h1]
      _ = m * (2 : ℚ) ^ e * (2 ^ (-e).toNat * 5 ^ (-e).toNat) := by ring

theorem isReal_eq (neg : Bool) (m : Nat) (e : Int) (v : JSVal) (h : isReal neg m e v = true) :
    v = .real neg m e := by
  cases v with
  | real neg' m' e' =>
    simp only [isReal, Bool.and_eq_true, beq_iff_eq] at h
    obtain ⟨⟨h1, h2⟩, h3⟩ := h
    rw [h1, h2, h3]
  | _ => simp [isReal] at h

theorem isReal_self (neg : Bool) (m : Nat) (e : Int) : isReal neg m e (.real neg m e) = true := by
  simp [isReal]

theorem denotes_ne_zero (neg : Bool) (m : Nat) (e : Int) (s : Nat) (n : Int)
    (h : denotes neg m e s n = true) : s ≠ 0 := by
  intro h0
  subst h0
  simp [denotes, decimalToNumber, isReal] at h

theorem shortestDigits_denotes (neg : Bool) (m : Nat) (e : Int) (S K : Nat) (n0 : Int)
    (hS : denotes neg m e S n0 = true) :
    ∀ fuel k, denotes neg m e (shortestDigits neg m e S K n0 fuel k).1
      (shortestDigits neg m e S K n0 fuel k).2 = true := by
  intro fuel
  induction fuel with
  | zero => intro k; exact hS
  | succ f ih =>
    intro k
    simp only [shortestDigits]
    split_ifs with h1 h2 h3 h4 h5 h6 <;> simp_all

theorem realDigits_denotes (neg : Bool) (m : Nat) (e : Int) (hv : ValidReal m e) :
    denotes neg m e (exactDecimal m e).1
      (((decimal (exactDecimal m e).1).length : Int) + (exactDecimal m e).2) = true := by
  unfold denotes
  rw [add_sub_cancel_left, decimalToNumber_exactDecimal neg m e hv]
  exact isReal_self neg m e

theorem digitsValue_cons_zero (l : List Nat) : digitsValue (48 :: l) = digitsValue l := by
  simp [digitsValue]

theorem digitsValue_zeros (z : Nat) (l : List Nat) :
    digitsValue (List.replicate z 48 ++ l) = digitsValue l := by
  induction z with
  | zero => rfl
  | succ z ih => rw [List.replicate_succ, List.cons_append, digitsValue_cons_zero, ih]

theorem digitsValue_append_zeros (l : List Nat) (z : Nat) :
    digitsValue (l ++ List.replicate z 48) = digitsValue l * 10 ^ z := by
  induction z with
  | zero => simp
  | succ z ih =>
    rw [List.replicate_succ', ← List.append_assoc, digitsValue_snoc, ih, pow_succ]
    ring

theorem all_replicate_digit (z : Nat) : (List.replicate z 48).all isDigit = true := by
  rw [List.all_eq_true]
  intro c hc
  rw [List.eq_of_mem_replicate hc]
  rfl

theorem decimalToNumber_shift (neg : Bool) (s z : Nat) (hs : s ≠ 0) (hz : z ≤ 21) :
    decimalToNumber neg (s * 10 ^ z) 0 = decimalToNumber neg s (z : Int) := by
  have hpos : s * 10 ^ z ≠ 0 := by
    have : 0 < s := Nat.pos_of_ne_zero hs
    positivity
  have g1 : ¬ (310 : Int) < (z : Int) := by omega
  have g2 : ¬ ((z : Int) + ((decimal s).length : Int) < -540) := by omega
  have g3 : ¬ ((0 : Int) + ((decimal (s * 10 ^ z)).length : Int) < -540) := by omega
  have g4 : (0 : Int) ≤ (z : Int) := by omega
  unfold decimalToNumber
  rw [if_neg hpos, if_neg hs]
  simp only [Int.toNat_ofNat, Int.toNat_zero, pow_zero, mul_one]
  have g0 : ¬ (310 : Int) < 0 := by decide
  by_cases hle : s * 10 ^ z ≤ 2 ^ 53
  · have hz16 : (z : Int) ≤ 16 := by
      by_contra hc
      have h1 : 10 ^ 17 ≤ 10 ^ z := Nat.pow_le_pow_right (by decide) (by omega)
      have h2 : 10 ^ z ≤ s * 10 ^ z := Nat.le_mul_of_pos_left _ (Nat.pos_of_ne_zero hs)
      have h3 : (2 : Nat) ^ 53 < 10 ^ 17 := by norm_num
      omega
    have c1 : (0 : Int) ≤ 0 ∧ (0 : Int) ≤ 16 ∧ s * 10 ^ z ≤ 2 ^ 53 := ⟨le_refl _, by decide, hle⟩
    have c2 : (0 : Int) ≤ (z : Int) ∧ (z : Int) ≤ 16 ∧ s * 10 ^ z ≤ 2 ^ 53 := ⟨g4, hz16, hle⟩
    rw [if_pos c1, if_pos c2]
  · have c1 : ¬ ((0 : Int) ≤ 0 ∧ (0 : Int) ≤ 16 ∧ s * 10 ^ z ≤ 2 ^ 53) := fun h => hle h.2.2
    have c2 : ¬ ((0 : Int) ≤ (z : Int) ∧ (z : Int) ≤ 16 ∧ s * 10 ^ z ≤ 2 ^ 53) :=
      fun h => hle h.2.2
    rw [if_neg c1, if_neg c2, if_neg g0, if_neg g3, if_pos (le_refl (0 : Int)), if_neg g1,
      if_neg g2, if_pos g4]

theorem exponentPart_nil (neg : Bool) (sig : List Nat) (fracLen : Nat) :
    exponentPart neg sig fracLen []
      = .ok (decimalToNumber neg (digitsValue sig) (-(fracLen : Int))) := rfl

theorem exponentPart_exp (neg : Bool) (sig : List Nat) (fracLen : Nat) (sgn : Bool) (x : Nat) :
    exponentPart neg sig fracLen (101 :: (if sgn then 45 else 43) :: decimal x)
      = .ok (decimalToNumber neg (digitsValue sig)
          ((if sgn then -(x : Int) else (x : Int)) - (fracLen : Int))) := by
  obtain ⟨d, ds, hd, hdig, -⟩ := decimal_head x
  have hall := decimal_digits x
  have hval := digitsValue_decimal x
  have hd2 := hdig
  simp only [isDigit, Bool.and_eq_true, decide_eq_true_eq] at hd2
  cases sgn
  · simp only [exponentPart, Bool.false_eq_true, if_false, true_or, if_true]
    rw [if_neg]
    · simp [hval]
    · rw [hall]
      simp [hd]
  · simp only [exponentPart, if_true, true_or]
    rw [if_neg]
    · simp [hval]
    · rw [hall]
      simp [hd]

theorem numeralValue_int (neg : Bool) (int rest : List Nat) (hd : int.all isDigit = true)
    (hne : int ≠ []) (hz : ¬ (int.head? = some 48 ∧ int.length ≠ 1))
    (hrest : ∀ c r, rest = c :: r → c = 101) :
    numeralValue neg (int ++ rest) = exponentPart neg int 0 rest := by
  obtain ⟨h1, h2⟩ := takeWhile_run isDigit int rest hd
    (fun c r h => by rw [hrest c r h]; rfl)
  unfold numeralValue
  simp only [h1, h2]
  rw [if_neg hne, if_neg hz]
  cases rest with
  | nil => rfl
  | cons c r =>
    have := hrest c r rfl
    subst this
    rfl

theorem numeralValue_frac (neg : Bool) (int frac rest : List Nat) (hd : int.all isDigit = true)
    (hne : int ≠ []) (hz : ¬ (int.head? = some 48 ∧ int.length ≠ 1))
    (hf : frac.all isDigit = true) (hfne : frac ≠ [])
    (hrest : ∀ c r, rest = c :: r → c = 101) :
    numeralValue neg (int ++ 46 :: (frac ++ rest))
      = exponentPart neg (int ++ frac) frac.length rest := by
  obtain ⟨h1, h2⟩ := takeWhile_run isDigit int (46 :: (frac ++ rest)) hd
    (fun c r h => by simp only [List.cons.injEq] at h; rw [← h.1]; rfl)
  obtain ⟨h3, h4⟩ := takeWhile_run isDigit frac rest hf
    (fun c r h => by rw [hrest c r h]; rfl)
  unfold numeralValue
  simp only [h1, h2, h3, h4]
  rw [if_neg hne, if_neg hz, if_neg hfne]

theorem decimal_nonzero (s : Nat) (hs : s ≠ 0) :
    ∃ d ds, decimal s = d :: ds ∧ isDigit d = true ∧ d ≠ 48 := by
  obtain ⟨d, ds, hd, hdig, hz⟩ := decimal_head s
  exact ⟨d, ds, hd, hdig, fun h => hs (hz h).1⟩

theorem all_take_digit (l : List Nat) (p : Nat) (h : l.all isDigit = true) :
    (l.take p).all isDigit = true ∧ (l.drop p).all isDigit = true := by
  rw [List.all_eq_true] at h
  constructor
  · rw [List.all_eq_true]
    exact fun c hc => h c (List.mem_of_mem_take hc)
  · rw [List.all_eq_true]
    exact fun c hc => h c (List.mem_of_mem_drop hc)

theorem no_rest (c : Nat) (r : List Nat) (h : ([] : List Nat) = c :: r) : c = 101 := by
  cases h

theorem formatDigits_value (neg : Bool) (s : Nat) (n : Int) (hs : s ≠ 0) :
    numeralValue neg (formatDigits s n)
      = .ok (decimalToNumber neg s (n - ((decimal s).length : Int))) := by
  obtain ⟨d, ds, hd, hdig, hd48⟩ := decimal_nonzero s hs
  have hall := decimal_digits s
  have hval := digitsValue_decimal s
  have hlen : (decimal s).length = ds.length + 1 := by rw [hd]; rfl
  have hne : decimal s ≠ [] := by rw [hd]; simp
  have hz : ¬ ((decimal s).head? = some 48 ∧ (decimal s).length ≠ 1) := by
    rw [hd]
    simp [hd48]
  have hrest : ∀ (t : List Nat) (c : Nat) (r : List Nat), (101 :: t) = c :: r → c = 101 := by
    intro t c r h
    simp only [List.cons.injEq] at h
    exact h.1.symm
  unfold formatDigits
  simp only
  by_cases c1 : ((decimal s).length : Int) ≤ n ∧ n ≤ 21
  · -- digits followed by zeros
    rw [if_pos c1]
    have hall2 : (decimal s ++ List.replicate (n.toNat - (decimal s).length) 48).all isDigit
        = true := by
      rw [List.all_append, hall, all_replicate_digit]
      rfl
    have hz2 : ¬ ((decimal s ++ List.replicate (n.toNat - (decimal s).length) 48).head?
        = some 48 ∧ (decimal s ++ List.replicate (n.toNat - (decimal s).length) 48).length ≠ 1) := by
      rw [hd]
      simp [hd48]
    have h := numeralValue_int neg _ [] hall2 (by simp [hne]) hz2 no_rest
    rw [List.append_nil] at h
    rw [h, exponentPart_nil, digitsValue_append_zeros, hval, Nat.cast_zero, neg_zero,
      decimalToNumber_shift neg s _ hs (by omega)]
    congr 2
    omega
  rw [if_neg c1]
  by_cases c2 : 0 < n ∧ n ≤ 21
  · -- a decimal point inside the digits
    rw [if_pos c2]
    obtain ⟨ht, hdr⟩ := all_take_digit (decimal s) n.toNat hall
    have hK : n < ((decimal s).length : Int) := by
      by_contra hc
      exact c1 ⟨by omega, c2.2⟩
    obtain ⟨p, hp'⟩ : ∃ p, n.toNat = p + 1 := ⟨n.toNat - 1, by omega⟩
    have hne1 : (decimal s).take n.toNat ≠ [] := by
      rw [hd, hp']
      simp
    have hz1 : ¬ (((decimal s).take n.toNat).head? = some 48
        ∧ ((decimal s).take n.toNat).length ≠ 1) := by
      rw [hd, hp']
      simp [hd48]
    have hne2 : (decimal s).drop n.toNat ≠ [] := by
      intro h0
      have := congrArg List.length h0
      simp only [List.length_drop, List.length_nil] at this
      omega
    have h := numeralValue_frac neg _ _ [] ht hne1 hz1 hdr hne2 no_rest
    rw [List.append_nil] at h
    rw [h, exponentPart_nil, List.take_append_drop, hval, List.length_drop]
    congr 2
    omega
  rw [if_neg c2]
  by_cases c3 : -6 < n ∧ n ≤ 0
  · -- zeros between the decimal point and the digits
    rw [if_pos c3]
    have hf : (List.replicate (-n).toNat 48 ++ decimal s).all isDigit = true := by
      rw [List.all_append, hall, all_replicate_digit]
      rfl
    have h := numeralValue_frac neg [48] (List.replicate (-n).toNat 48 ++ decimal s) [] rfl
      (by simp) (by simp) hf (by simp [hne]) no_rest
    simp only [List.append_nil, List.singleton_append] at h
    rw [h, exponentPart_nil, digitsValue_cons_zero, digitsValue_zeros, hval, List.length_append,
      List.length_replicate]
    congr 2
    push_cast
    omega
  rw [if_neg c3]
  by_cases c4 : (decimal s).length = 1
  · -- one digit and an exponent
    rw [if_pos c4, numeralValue_int neg _ _ hall hne hz (hrest _)]
    by_cases hx : n - 1 < 0
    · rw [if_pos hx]
      have h := exponentPart_exp neg (decimal s) 0 true (n - 1).natAbs
      simp only [if_true] at h
      rw [h, hval]
      congr 2
      omega
    · rw [if_neg hx]
      have h := exponentPart_exp neg (decimal s) 0 false (n - 1).natAbs
      simp only [Bool.false_eq_true, if_false] at h
      rw [h, hval]
      congr 2
      omega
  · -- several digits and an exponent
    rw [if_neg c4]
    obtain ⟨ht, hdr⟩ := all_take_digit (decimal s) 1 hall
    have hne1 : (decimal s).take 1 ≠ [] := by rw [hd]; simp
    have hz1 : ¬ (((decimal s).take 1).head? = some 48 ∧ ((decimal s).take 1).length ≠ 1) := by
      rw [hd]
      simp
    have hne2 : (decimal s).drop 1 ≠ [] := by
      intro h0
      have := congrArg List.length h0
      simp only [List.length_drop, List.length_nil] at this
      omega
    rw [numeralValue_frac neg _ _ _ ht hne1 hz1 hdr hne2 (hrest _), List.take_append_drop,
      List.length_drop]
    by_cases hx : n - 1 < 0
    · rw [if_pos hx]
      have h := exponentPart_exp neg (decimal s) ((decimal s).length - 1) true (n - 1).natAbs
      simp only [if_true] at h
      rw [h, hval]
      congr 2
      omega
    · rw [if_neg hx]
      have h := exponentPart_exp neg (decimal s) ((decimal s).length - 1) false (n - 1).natAbs
      simp only [Bool.false_eq_true, if_false] at h
      rw [h, hval]
      congr 2
      omega

theorem formatDigits_chars (s : Nat) (n : Int) (hs : s ≠ 0) :
    (formatDigits s n).all isNumeralChar = true
    ∧ ∃ c rest, formatDigits s n = c :: rest ∧ isDigit c = true := by
  obtain ⟨d, ds, hd, hdig, hd48⟩ := decimal_nonzero s hs
  have hall := digit_numeral _ (decimal_digits s)
  have hzero : ∀ z, (List.replicate z 48).all isNumeralChar = true :=
    fun z => digit_numeral _ (all_replicate_digit z)
  have hexp : ∀ x, (decimal x).all isNumeralChar = true :=
    fun x => digit_numeral _ (decimal_digits x)
  have htd : ∀ p, ((decimal s).take p).all isNumeralChar = true
      ∧ ((decimal s).drop p).all isNumeralChar = true := fun p =>
    ⟨digit_numeral _ (all_take_digit _ p (decimal_digits s)).1,
      digit_numeral _ (all_take_digit _ p (decimal_digits s)).2⟩
  unfold formatDigits
  simp only
  by_cases c1 : ((decimal s).length : Int) ≤ n ∧ n ≤ 21
  · rw [if_pos c1]
    refine ⟨by rw [List.all_append, hall, hzero]; rfl, d, ds ++ _, by rw [hd]; rfl, hdig⟩
  rw [if_neg c1]
  by_cases c2 : 0 < n ∧ n ≤ 21
  · rw [if_pos c2]
    obtain ⟨p, hp⟩ : ∃ p, n.toNat = p + 1 := ⟨n.toNat - 1, by omega⟩
    refine ⟨?_, d, ds.take p ++ 46 :: (decimal s).drop n.toNat, ?_, hdig⟩
    · rw [List.all_append, (htd _).1, List.all_cons, (htd _).2]
      rfl
    · rw [hd, hp]
      rfl
  rw [if_neg c2]
  by_cases c3 : -6 < n ∧ n ≤ 0
  · rw [if_pos c3]
    refine ⟨?_, 48, _, rfl, rfl⟩
    rw [List.all_cons, List.all_cons, List.all_append, hzero, hall]
    rfl
  rw [if_neg c3]
  have hsign : isNumeralChar (if n - 1 < 0 then 45 else 43) = true := by
    split <;> rfl
  by_cases c4 : (decimal s).length = 1
  · rw [if_pos c4]
    refine ⟨?_, d, ds ++ _, by rw [hd]; rfl, hdig⟩
    rw [List.all_append, hall, List.all_cons, List.all_cons, hsign, hexp]
    rfl
  · rw [if_neg c4]
    refine ⟨?_, d, 46 :: _, by rw [hd]; rfl, hdig⟩
    rw [List.all_append, (htd _).1, List.all_cons, List.all_append, (htd _).2, List.all_cons,
      List.all_cons, hsign, hexp]
    rfl

/-- The text `Number::toString` writes for a double is a numeral that reads as
the same double. -/
theorem validReal_reads (neg : Bool) (m : Nat) (e : Int) (hv : ValidReal m e) :
    NumberReads (.real neg m e) (realToString neg m e) := by
  have hden := shortestDigits_denotes neg m e (exactDecimal m e).1
    (decimal (exactDecimal m e).1).length
    (((decimal (exactDecimal m e).1).length : Int) + (exactDecimal m e).2)
    (realDigits_denotes neg m e hv) ((decimal (exactDecimal m e).1).length - 1) 1
  unfold realToString
  simp only
  generalize shortestDigits neg m e (exactDecimal m e).1 (decimal (exactDecimal m e).1).length
    (((decimal (exactDecimal m e).1).length : Int) + (exactDecimal m e).2)
    ((decimal (exactDecimal m e).1).length - 1) 1 = r at hden
  have hs := denotes_ne_zero neg m e r.1 r.2 hden
  have hval := formatDigits_value neg r.1 r.2 hs
  rw [isReal_eq neg m e _ hden] at hval
  obtain ⟨hchars, c, rest, hc, hdig⟩ := formatDigits_chars r.1 r.2 hs
  cases neg with
  | true =>
    simp only [if_true]
    exact ⟨by rw [List.all_cons, hchars]; rfl, by simpa using hval⟩
  | false =>
    simp only [Bool.false_eq_true, if_false]
    refine ⟨hchars, ?_⟩
    rw [hc] at hval ⊢
    have hne : c ≠ 45 := by
      intro h
      rw [h] at hdig
      cases hdig
    simp only [if_neg hne]
    exact ⟨hdig, hval⟩

/-! ## `JSON.parse` reads back what `JSON.stringify` wrote -/

theorem hexVal_hexDigit (d : Nat) (h : d < 16) : hexVal (hexDigit d) = some d := by
  interval_cases d <;> rfl

theorem hex4_uEscape (c : Nat) (h : c < 65536) :
    hex4 (hexDigit (c / 4096 % 16)) (hexDigit (c / 256 % 16)) (hexDigit (c / 16 % 16))
      (hexDigit (c % 16)) = some c := by
  unfold hex4
  rw [hexVal_hexDigit _ (by omega), hexVal_hexDigit _ (by omega), hexVal_hexDigit _ (by omega),
    hexVal_hexDigit _ (by omega)]
  simp only [Option.some.injEq]
  omega

theorem parseStr_quote (tail : List Nat) : parseStr (34 :: tail) = .ok ([], tail) := by
  rw [parseStr.eq_def]
  simp

theorem parseStr_raw (c : Nat) (tail : List Nat) (h1 : c ≠ 34) (h2 : c ≠ 92) (h3 : ¬ c < 32) :
    parseStr (c :: tail) = consUnit c (parseStr tail) := by
  rw [parseStr.eq_def]
  simp [h1, h2, h3]

theorem parseStr_letter (e u : Nat) (tail : List Nat) (he : e ≠ 117) (hu : unescape e = some u) :
    parseStr (92 :: e :: tail) = consUnit u (parseStr tail) := by
  rw [parseStr.eq_def]
  simp [he, hu]

theorem parseStr_uEscape (c : Nat) (tail : List Nat) (h : c < 65536) :
    parseStr (uEscape c ++ tail) = consUnit c (parseStr tail) := by
  simp only [uEscape, List.cons_append, List.nil_append]
  rw [parseStr.eq_def]
  simp [hex4_uEscape c h]

theorem parseStr_quoteUnit (c : Nat) (tail : List Nat) :
    parseStr (quoteUnit c ++ tail) = consUnit c (parseStr tail) := by
  unfold quoteUnit
  split_ifs with h8 h9 h10 h12 h13 h34 h92 hu
  · subst h8; exact parseStr_letter 98 8 tail (by decide) rfl
  · subst h9; exact parseStr_letter 116 9 tail (by decide) rfl
  · subst h10; exact parseStr_letter 110 10 tail (by decide) rfl
  · subst h12; exact parseStr_letter 102 12 tail (by decide) rfl
  · subst h13; exact parseStr_letter 114 13 tail (by decide) rfl
  · subst h34; exact parseStr_letter 34 34 tail (by decide) rfl
  · subst h92; exact parseStr_letter 92 92 tail (by decide) rfl
  · apply parseStr_uEscape
    simp only [Bool.or_eq_true, decide_eq_true_eq, Bool.and_eq_true] at hu
    omega
  · simp only [Bool.or_eq_true, decide_eq_true_eq, Bool.and_eq_true, not_or] at hu
    exact parseStr_raw c tail h34 h92 hu.1

theorem parseStr_quoteUnits (s : JSString) (tail : List Nat) :
    parseStr (quoteUnits s ++ 34 :: tail) = .ok (s, tail) := by
  induction s using quoteUnits.induct with
  | case1 => exact parseStr_quote tail
  | case2 c =>
    rw [quoteUnits, parseStr_quoteUnit, parseStr_quote]
    rfl
  | case3 c d rest hp ih =>
    rw [quoteUnits, if_pos hp]
    simp only [isHigh, isLow, Bool.and_eq_true, decide_eq_true_eq] at hp
    rw [List.cons_append, List.cons_append,
      parseStr_raw c _ (by omega) (by omega) (by omega),
      parseStr_raw d _ (by omega) (by omega) (by omega), ih]
    rfl
  | case4 c d rest hp ih =>
    rw [quoteUnits, if_neg hp, List.append_assoc, parseStr_quoteUnit, ih]
    rfl

theorem skipWs_cons (c : Nat) (rest : List Nat) (h : isWs c = false) :
    skipWs (c :: rest) = c :: rest := by
  simp [skipWs, h]

theorem lit_null : lit "null" = [110, 117, 108, 108] := by decide
theorem lit_true : lit "true" = [116, 114, 117, 101] := by decide
theorem lit_false : lit "false" = [102, 97, 108, 115, 101] := by decide

theorem valueStart_cons (t : List Nat) (h : valueStart t = true) :
    ∃ c r, t = c :: r ∧ isWs c = false ∧ c ≠ 93 := by
  cases t with
  | nil => simp [valueStart] at h
  | cons c r =>
    simp only [valueStart, Bool.and_eq_true, Bool.not_eq_true', bne_iff_ne, ne_eq] at h
    exact ⟨c, r, rfl, h.1, h.2⟩

theorem valueStart_append (t u : List Nat) (h : valueStart t = true) :
    valueStart (t ++ u) = true := by
  obtain ⟨c, r, rfl, h1, h2⟩ := valueStart_cons t h
  simp [valueStart, h1, h2]

theorem valueStart_decimal (n : Nat) : valueStart (decimal n) = true := by
  obtain ⟨d, ds, hd, hdig, -⟩ := decimal_head n
  rw [hd]
  simp only [isDigit, Bool.and_eq_true, decide_eq_true_eq] at hdig
  simp only [valueStart, isWs, Bool.and_eq_true, Bool.not_eq_true', Bool.or_eq_false_iff,
    decide_eq_false_iff_not, bne_iff_ne, ne_eq]
  omega

theorem numberReads_start (x : JSVal) (text : JSString) (h : NumberReads x text) :
    valueStart text = true := by
  obtain ⟨-, h2⟩ := h
  cases text with
  | nil => exact h2.elim
  | cons c rest =>
    by_cases hc : c = 45
    · subst hc; rfl
    · simp only [if_neg hc] at h2
      have hd := h2.1
      simp only [isDigit, Bool.and_eq_true, decide_eq_true_eq] at hd
      simp only [valueStart, isWs, Bool.and_eq_true, Bool.not_eq_true', Bool.or_eq_false_iff,
        decide_eq_false_iff_not, bne_iff_ne, ne_eq]
      omega

theorem stringify_start (rep : Bool) (v : JSVal) (t : JSString) (hp : Plain v)
    (h : stringifyWith rep v = some t) : valueStart t = true := by
  cases v with
  | real neg m e =>
    simp only [stringifyWith, Option.some.injEq] at h
    subst h
    exact numberReads_start _ _ (validReal_reads neg m e hp)
  | infinity neg => simp [Plain] at hp
  | undefined => simp [stringifyWith] at h
  | null => simp [stringifyWith] at h; subst h; rfl
  | bool b => cases b <;> simp [stringifyWith] at h <;> subst h <;> rfl
  | num n =>
    simp only [stringifyWith, Option.some.injEq] at h
    subst h
    unfold numberToString
    split
    · rfl
    · exact valueStart_decimal _
  | str s => simp [stringifyWith, quoteJSONString] at h; subst h; rfl
  | arr xs => simp [stringifyWith] at h; subst h; rfl
  | obj fs => simp [stringifyWith] at h; subst h; rfl
  | blob t b => simp [stringifyWith] at h; subst h; rfl
  | buffer b => cases rep <;> simp [stringifyWith] at h <;> subst h <;> rfl

theorem plain_stringify (rep : Bool) (v : JSVal) (h : Plain v) :
    ∃ t, stringifyWith rep v = some t := by
  cases v with
  | undefined => simp [Plain] at h
  | null => exact ⟨_, rfl⟩
  | bool b => cases b <;> exact ⟨_, rfl⟩
  | num n => exact ⟨_, rfl⟩
  | real neg m e => exact ⟨_, rfl⟩
  | infinity neg => simp [Plain] at h
  | str s => exact ⟨_, rfl⟩
  | arr xs => exact ⟨_, rfl⟩
  | obj fs => exact ⟨_, rfl⟩
  | blob t b => simp [Plain] at h
  | buffer b => simp [Plain] at h

theorem parseValue_numeral (fuel : Nat) (x : JSVal) (text tail : List Nat)
    (h : NumberReads x text) (ht : delim tail = true) :
    parseValue (fuel + 1) (text ++ tail) = .ok (x, tail) := by
  obtain ⟨hall, h2⟩ := h
  cases text with
  | nil => exact h2.elim
  | cons c rest =>
    simp only [List.all_cons, Bool.and_eq_true] at hall
    by_cases hc : c = 45
    · subst hc
      simp only [if_true] at h2
      rw [List.cons_append, parseValue.eq_def]
      simp only [skipWs_cons 45 _ rfl]
      simp only [Nat.reduceEqDiff, if_false, if_true]
      exact parseNumber_token true rest tail x hall.2 ht h2
    · simp only [if_neg hc] at h2
      obtain ⟨hdig, hv⟩ := h2
      have hd2 := hdig
      simp only [isDigit, Bool.and_eq_true, decide_eq_true_eq] at hd2
      have hws : isWs c = false := by
        simp only [isWs, Bool.or_eq_false_iff, decide_eq_false_iff_not]
        omega
      rw [List.cons_append, parseValue.eq_def]
      simp only [skipWs_cons c _ hws]
      rw [if_neg (by omega), if_neg (by omega), if_neg (by omega), if_neg (by omega),
        if_neg (by omega), if_neg (by omega), if_neg (by omega), if_pos hdig]
      rw [← List.cons_append]
      exact parseNumber_token false (c :: rest) tail x (by simp [hall.1, hall.2]) ht hv

theorem parseValue_number (fuel : Nat) (n : Int) (hn : n.natAbs ≤ 2 ^ 53) (tail : List Nat)
    (ht : delim tail = true) :
    parseValue (fuel + 1) (numberToString n ++ tail) = .ok (.num n, tail) := by
  unfold numberToString
  split
  · rename_i hneg
    rw [List.cons_append, parseValue.eq_def]
    simp only [skipWs_cons 45 _ rfl]
    simp only [Nat.reduceEqDiff, if_false, if_true]
    rw [parseNumber_decimal true _ hn tail ht]
    simp only [if_true]
    congr 3
    omega
  · rename_i hpos
    obtain ⟨d, ds, hd, hdig, -⟩ := decimal_head n.natAbs
    have h1 := parseNumber_decimal false _ hn tail ht
    rw [hd] at h1 ⊢
    have hd2 := hdig
    simp only [isDigit, Bool.and_eq_true, decide_eq_true_eq] at hd2
    have hws : isWs d = false := by
      simp only [isWs, Bool.or_eq_false_iff, decide_eq_false_iff_not]
      omega
    rw [List.cons_append, parseValue.eq_def]
    simp only [skipWs_cons d _ hws]
    rw [if_neg (by omega), if_neg (by omega), if_neg (by omega), if_neg (by omega),
      if_neg (by omega), if_neg (by omega), if_neg (by omega), if_pos hdig]
    rw [List.cons_append] at h1
    rw [h1]
    simp only [Bool.false_eq_true, if_false]
    congr 3
    omega

theorem size_pos (v : JSVal) : 1 ≤ v.size := by
  cases v <;> simp [JSVal.size]

theorem elements_start (rep : Bool) (x : JSVal) (xs : List JSVal) (tail : List Nat)
    (hx : Plain x) :
    valueStart (commaJoin (stringifyWith.elements rep (x :: xs)) ++ tail) = true := by
  obtain ⟨t, ht⟩ := plain_stringify rep x hx
  have hs := stringify_start rep x t hx ht
  cases xs with
  | nil =>
    simp only [stringifyWith.elements, ht, Option.getD_some, commaJoin]
    exact valueStart_append _ _ hs
  | cons y ys =>
    simp only [stringifyWith.elements, ht, Option.getD_some, commaJoin, List.append_assoc]
    exact valueStart_append _ _ hs

theorem parseValue_emptyArr (fuel : Nat) (tail : List Nat) :
    parseValue (fuel + 1) (91 :: 93 :: tail) = .ok (.arr [], tail) := by
  rw [parseValue.eq_def]
  simp [skipWs_cons 91 _ rfl, skipWs_cons 93 _ rfl]

theorem parseValue_emptyObj (fuel : Nat) (tail : List Nat) :
    parseValue (fuel + 1) (123 :: 125 :: tail) = .ok (.obj [], tail) := by
  rw [parseValue.eq_def]
  simp [skipWs_cons 123 _ rfl, skipWs_cons 125 _ rfl]

theorem parseValue_arr (fuel : Nat) (rest : List Nat) (h : valueStart rest = true) :
    parseValue (fuel + 1) (91 :: rest) =
      match parseElems fuel rest with
      | .ok (xs, r) => .ok (.arr xs, r)
      | .error e => .error e := by
  obtain ⟨c, r, rfl, h1, h2⟩ := valueStart_cons rest h
  rw [parseValue.eq_def]
  simp [skipWs_cons 91 _ rfl, skipWs_cons c _ h1, h2]

theorem parseValue_obj (fuel : Nat) (rest : List Nat) :
    parseValue (fuel + 1) (123 :: 34 :: rest) =
      match parseMembers fuel (34 :: rest) with
      | .ok (fs, r) => .ok (.obj fs, r)
      | .error e => .error e := by
  rw [parseValue.eq_def]
  simp [skipWs_cons 123 _ rfl, skipWs_cons 34 _ rfl]

theorem parseValue_str (fuel : Nat) (s : JSString) (tail : List Nat) :
    parseValue (fuel + 1) (quoteJSONString s ++ tail) = .ok (.str s, tail) := by
  unfold quoteJSONString
  rw [List.cons_append, parseValue.eq_def]
  simp [skipWs_cons 34 _ rfl, parseStr_quoteUnits]

theorem parseValue_word (fuel : Nat) (tail : List Nat) :
    parseValue (fuel + 1) (lit "null" ++ tail) = .ok (.null, tail)
    ∧ parseValue (fuel + 1) (lit "true" ++ tail) = .ok (.bool true, tail)
    ∧ parseValue (fuel + 1) (lit "false" ++ tail) = .ok (.bool false, tail) := by
  rw [lit_null, lit_true, lit_false]
  refine ⟨?_, ?_, ?_⟩
  · rw [List.cons_append, parseValue.eq_def]
    simp [skipWs_cons 110 _ rfl, expect]
  · rw [List.cons_append, parseValue.eq_def]
    simp [skipWs_cons 116 _ rfl, expect]
  · rw [List.cons_append, parseValue.eq_def]
    simp [skipWs_cons 102 _ rfl, expect]

theorem delim_skipWs (tail : List Nat) (h : delim tail = true) : skipWs tail = tail := by
  cases tail with
  | nil => rfl
  | cons c rest =>
    apply skipWs_cons
    simp only [delim, Bool.or_eq_true, decide_eq_true_eq] at h
    rcases h with (h | h) | h <;> subst h <;> rfl

theorem readsBack (rep : Bool) (fuel : Nat) : ReadsBack rep fuel := by
  induction fuel with
  | zero =>
    refine ⟨?_, ?_, ?_⟩
    · intro v t tail _ _ hs _
      have := size_pos v
      omega
    · intro x xs tail _ hs
      simp only [JSVal.size.sizeList] at hs
      omega
    · intro f fs tail _ hs
      obtain ⟨k, x⟩ := f
      simp only [JSVal.size.sizeFields] at hs
      omega
  | succ fuel ih =>
    obtain ⟨ihv, ihe, ihm⟩ := ih
    refine ⟨?_, ?_, ?_⟩
    · intro v t tail hp ht hs hd
      cases v with
      | undefined => simp [Plain] at hp
      | blob ty b => simp [Plain] at hp
      | buffer b => simp [Plain] at hp
      | infinity neg => simp [Plain] at hp
      | real neg m e =>
        simp only [stringifyWith, Option.some.injEq] at ht
        subst ht
        exact parseValue_numeral fuel _ _ tail (validReal_reads neg m e hp) hd
      | null =>
        simp only [stringifyWith, Option.some.injEq] at ht
        subst ht
        exact (parseValue_word fuel tail).1
      | bool b =>
        cases b
        · simp only [stringifyWith, Option.some.injEq] at ht
          subst ht
          exact (parseValue_word fuel tail).2.2
        · simp only [stringifyWith, Option.some.injEq] at ht
          subst ht
          exact (parseValue_word fuel tail).2.1
      | num n =>
        simp only [stringifyWith, Option.some.injEq] at ht
        subst ht
        exact parseValue_number fuel n hp tail hd
      | str s =>
        simp only [stringifyWith, Option.some.injEq] at ht
        subst ht
        exact parseValue_str fuel s tail
      | arr xs =>
        simp only [stringifyWith, Option.some.injEq] at ht
        subst ht
        cases xs with
        | nil => exact parseValue_emptyArr fuel tail
        | cons x xs =>
          simp only [Plain] at hp
          simp only [JSVal.size] at hs
          rw [List.cons_append, List.append_assoc, List.singleton_append,
            parseValue_arr fuel _ (elements_start rep x xs _ hp.1),
            ihe x xs tail hp (by omega)]
      | obj fs =>
        simp only [stringifyWith, Option.some.injEq] at ht
        subst ht
        cases fs with
        | nil => exact parseValue_emptyObj fuel tail
        | cons f fs =>
          simp only [Plain] at hp
          simp only [JSVal.size] at hs
          have hm := ihm f fs tail hp (by omega)
          obtain ⟨k, x⟩ := f
          obtain ⟨tx, htx⟩ := plain_stringify rep x hp.1
          have hq : ∃ r, commaJoin (stringifyWith.members rep ((k, x) :: fs)) ++ 125 :: tail
              = 34 :: r := by
            cases hfs : stringifyWith.members rep fs with
            | nil => simp [stringifyWith.members, htx, hfs, commaJoin, quoteJSONString]
            | cons m ms => simp [stringifyWith.members, htx, hfs, commaJoin, quoteJSONString]
          obtain ⟨r, hr⟩ := hq
          rw [List.cons_append, List.append_assoc, List.singleton_append, hr,
            parseValue_obj, ← hr, hm]
    · intro x xs tail hp hs
      simp only [Plain.plainList] at hp
      simp only [JSVal.size.sizeList] at hs
      obtain ⟨tx, htx⟩ := plain_stringify rep x hp.1
      cases xs with
      | nil =>
        simp only [stringifyWith.elements, htx, Option.getD_some, commaJoin]
        rw [parseElems.eq_def]
        simp only [ihv x tx (93 :: tail) hp.1 htx (by omega) rfl, skipWs_cons 93 _ rfl]
      | cons y ys =>
        have hrec := ihe y ys tail hp.2 (by simp only [JSVal.size.sizeList] at hs ⊢; omega)
        simp only [stringifyWith.elements, htx, Option.getD_some, commaJoin,
          List.append_assoc, List.cons_append] at hrec ⊢
        rw [parseElems.eq_def]
        simp only [ihv x tx (44 :: _) hp.1 htx (by omega) rfl, skipWs_cons 44 _ rfl, hrec]
    · intro f fs tail hp hs
      obtain ⟨k, x⟩ := f
      simp only [Plain.plainFields] at hp
      simp only [JSVal.size.sizeFields] at hs
      obtain ⟨tx, htx⟩ := plain_stringify rep x hp.1
      cases fs with
      | nil =>
        simp only [stringifyWith.members, htx, commaJoin, quoteJSONString, List.cons_append,
          List.append_assoc, List.singleton_append]
        rw [parseMembers.eq_def]
        simp only [skipWs_cons 34 _ rfl, parseStr_quoteUnits, List.nil_append,
          skipWs_cons 58 _ rfl,
          ihv x tx (125 :: tail) hp.1 htx (by omega) rfl, skipWs_cons 125 _ rfl]
      | cons g gs =>
        have hrec := ihm g gs tail hp.2 (by omega)
        obtain ⟨k2, y⟩ := g
        simp only [Plain.plainFields] at hp
        obtain ⟨ty, hty⟩ := plain_stringify rep y hp.2.1
        simp only [stringifyWith.members, htx, hty, commaJoin, quoteJSONString,
          List.cons_append, List.append_assoc, List.singleton_append, List.nil_append] at hrec ⊢
        rw [parseMembers.eq_def]
        simp only [skipWs_cons 34 _ rfl, parseStr_quoteUnits, List.nil_append,
          skipWs_cons 58 _ rfl,
          ihv x tx (44 :: _) hp.1 htx (by omega) rfl, skipWs_cons 44 _ rfl, hrec]

theorem decimal_length_pos (n : Nat) : 1 ≤ (decimal n).length := by
  obtain ⟨d, ds, hd, -, -⟩ := decimal_head n
  simp [hd]

theorem commaJoin_cons_length (x : JSString) (xs : List JSString) :
    x.length + (commaJoin xs).length ≤ (commaJoin (x :: xs)).length := by
  cases xs with
  | nil => simp [commaJoin]
  | cons y ys => simp [commaJoin]

theorem fitsText (rep : Bool) (n : Nat) : FitsText rep n := by
  induction n with
  | zero =>
    refine ⟨?_, ?_, ?_⟩
    · intro v t _ hs _
      have := size_pos v
      omega
    · intro xs _ hs
      omega
    · intro fs _ hs
      omega
  | succ n ih =>
    obtain ⟨ihv, ihe, ihm⟩ := ih
    refine ⟨?_, ?_, ?_⟩
    · intro v t hp hs ht
      cases v with
      | undefined => simp [Plain] at hp
      | blob ty b => simp [Plain] at hp
      | buffer b => simp [Plain] at hp
      | infinity neg => simp [Plain] at hp
      | real neg m e =>
        simp only [stringifyWith, Option.some.injEq] at ht
        subst ht
        obtain ⟨-, h2⟩ := validReal_reads neg m e hp
        cases hte : realToString neg m e with
        | nil => rw [hte] at h2; exact h2.elim
        | cons c rest => simp [JSVal.size]
      | null => simp [stringifyWith] at ht; subst ht; decide
      | bool b => cases b <;> simp [stringifyWith] at ht <;> subst ht <;> decide
      | num z =>
        simp only [stringifyWith, Option.some.injEq] at ht
        subst ht
        have := decimal_length_pos z.natAbs
        unfold numberToString
        split
        · simp [JSVal.size]
        · simpa [JSVal.size] using this
      | str s =>
        simp only [stringifyWith, Option.some.injEq] at ht
        subst ht
        simp [JSVal.size, quoteJSONString]
      | arr xs =>
        simp only [stringifyWith, Option.some.injEq] at ht
        subst ht
        simp only [Plain] at hp
        simp only [JSVal.size] at hs ⊢
        have := ihe xs hp (by omega)
        simp only [List.length_cons, List.length_append, List.length_singleton]
        omega
      | obj fs =>
        simp only [stringifyWith, Option.some.injEq] at ht
        subst ht
        simp only [Plain] at hp
        simp only [JSVal.size] at hs ⊢
        have := ihm fs hp (by omega)
        simp only [List.length_cons, List.length_append, List.length_singleton]
        omega
    · intro xs hp hs
      cases xs with
      | nil => simp [JSVal.size.sizeList]
      | cons x rest =>
        simp only [Plain.plainList] at hp
        simp only [JSVal.size.sizeList] at hs ⊢
        obtain ⟨tx, htx⟩ := plain_stringify rep x hp.1
        have h1 := ihv x tx hp.1 (by omega) htx
        have h2 := ihe rest hp.2 (by omega)
        have h3 := commaJoin_cons_length tx (stringifyWith.elements rep rest)
        simp only [stringifyWith.elements, htx, Option.getD_some]
        cases rest with
        | nil =>
          simp only [JSVal.size.sizeList, stringifyWith.elements, commaJoin] at h2 ⊢
          omega
        | cons y ys =>
          simp only [stringifyWith.elements, commaJoin, List.length_append,
            List.length_cons] at h2 ⊢
          omega
    · intro fs hp hs
      cases fs with
      | nil => simp [JSVal.size.sizeFields]
      | cons f rest =>
        obtain ⟨k, x⟩ := f
        simp only [Plain.plainFields] at hp
        simp only [JSVal.size.sizeFields] at hs ⊢
        obtain ⟨tx, htx⟩ := plain_stringify rep x hp.1
        have h1 := ihv x tx hp.1 (by omega) htx
        have h2 := ihm rest hp.2 (by omega)
        simp only [stringifyWith.members, htx]
        cases rest with
        | nil =>
          simp only [stringifyWith.members, commaJoin, quoteJSONString, List.length_append,
            List.length_cons]
          simp only [JSVal.size.sizeFields]
          omega
        | cons g gs =>
          obtain ⟨k2, y⟩ := g
          simp only [Plain.plainFields] at hp
          obtain ⟨ty, hty⟩ := plain_stringify rep y hp.2.1
          simp only [stringifyWith.members, hty, commaJoin, quoteJSONString, List.length_append,
            List.length_cons] at h2 ⊢
          omega

/-- `JSON.parse` reads back a JSON value from the text `JSON.stringify` wrote. -/
theorem JSONparse_stringify (rep : Bool) (v : JSVal) (t : JSString) (hp : Plain v)
    (ht : stringifyWith rep v = some t) : JSONparse t = .ok v := by
  have hfit := (fitsText rep v.size).1 v t hp (le_refl _) ht
  have hread := (readsBack rep (2 * t.length + 1)).1 v t [] hp ht (by omega) rfl
  rw [List.append_nil] at hread
  simp [JSONparse, hread, skipWs]

/-! ## `JSON.parse` fails only with a `SyntaxError` -/

theorem skipWs_length (l : List Nat) : (skipWs l).length ≤ l.length := by
  induction l with
  | nil => simp [skipWs]
  | cons c rest ih =>
    simp only [skipWs]
    split
    · simp only [List.length_cons]; omega
    · exact le_refl _

theorem sound_mono {α : Type} (res : Except JSError (α × List Nat)) (n k : Nat)
    (h : Sound res n) (hk : n ≤ k) : Sound res k :=
  ⟨h.1, fun v r hr => lt_of_lt_of_le (h.2 v r hr) hk⟩

theorem sound_error {α : Type} (n : Nat) :
    Sound (Except.error JSError.syntaxError : Except JSError (α × List Nat)) n :=
  ⟨fun e h => (by cases h; rfl), fun v r h => (by cases h)⟩

theorem sound_ok {α : Type} (v : α) (r : List Nat) (n : Nat) (h : r.length < n) :
    Sound (Except.ok (v, r) : Except JSError (α × List Nat)) n :=
  ⟨fun e he => (by cases he), fun v' r' h' => (by cases h'; exact h)⟩

theorem consUnit_sound (c : Nat) (res : Except JSError (JSString × List Nat)) (n : Nat)
    (h : Sound res n) : Sound (consUnit c res) n := by
  cases res with
  | error e =>
    have := h.1 e rfl
    subst this
    exact sound_error n
  | ok p =>
    obtain ⟨s, r⟩ := p
    exact sound_ok _ _ _ (h.2 s r rfl)

theorem parseStr_sound (n : Nat) :
    ∀ input : List Nat, input.length ≤ n → Sound (parseStr input) input.length := by
  induction n with
  | zero =>
    intro input h
    cases input with
    | nil => rw [parseStr.eq_def]; exact sound_error _
    | cons c rest => simp at h
  | succ n ih =>
    intro input h
    cases input with
    | nil => rw [parseStr.eq_def]; exact sound_error _
    | cons c rest =>
      simp only [List.length_cons] at h ⊢
      have hrest := ih rest (by omega)
      rw [parseStr.eq_def]
      simp only
      by_cases h34 : c = 34
      · rw [if_pos h34]
        exact sound_ok _ _ _ (by omega)
      rw [if_neg h34]
      by_cases h92 : c = 92
      · rw [if_pos h92]
        cases rest with
        | nil => exact sound_error _
        | cons e rest1 =>
          simp only [List.length_cons] at h ⊢
          by_cases h117 : e = 117
          · simp only [if_pos h117]
            match rest1, h with
            | [], _ => exact sound_error _
            | [_], _ => exact sound_error _
            | [_, _], _ => exact sound_error _
            | [_, _, _], _ => exact sound_error _
            | a :: b :: c2 :: d :: rest2, h =>
              simp only [List.length_cons] at h ⊢
              cases hex4 a b c2 d with
              | none => exact sound_error _
              | some u =>
                exact consUnit_sound _ _ _ (sound_mono _ _ _ (ih rest2 (by omega)) (by omega))
          · simp only [if_neg h117]
            cases unescape e with
            | none => exact sound_error _
            | some u =>
              exact consUnit_sound _ _ _ (sound_mono _ _ _ (ih rest1 (by omega)) (by omega))
      rw [if_neg h92]
      by_cases h32 : c < 32
      · rw [if_pos h32]
        exact sound_error _
      · rw [if_neg h32]
        exact consUnit_sound _ _ _ (sound_mono _ _ _ hrest (by omega))

theorem exponentPart_error (neg : Bool) (sig : List Nat) (fracLen : Nat) (rest : List Nat)
    (e : JSError) (h : exponentPart neg sig fracLen rest = .error e) : e = .syntaxError := by
  cases rest with
  | nil => simp [exponentPart] at h
  | cons c r =>
    simp only [exponentPart] at h
    split_ifs at h with h1 h2
    all_goals first | exact h.symm | exact (Except.error.inj h).symm

theorem numeralValue_error (neg : Bool) (tok : List Nat) (e : JSError)
    (h : numeralValue neg tok = .error e) : e = .syntaxError := by
  unfold numeralValue at h
  simp only at h
  split at h
  · cases h; rfl
  · split at h
    · cases h; rfl
    · split at h
      · split at h
        · cases h; rfl
        · exact exponentPart_error _ _ _ _ _ h
      · exact exponentPart_error _ _ _ _ _ h

theorem dropWhile_length (p : Nat → Bool) (l : List Nat) : (l.dropWhile p).length ≤ l.length := by
  induction l with
  | nil => simp
  | cons c rest ih =>
    simp only [List.dropWhile]
    split
    · simp only [List.length_cons]; omega
    · exact le_refl _

theorem parseNumber_sound (neg : Bool) (input : List Nat) :
    Sound (parseNumber neg input) (input.length + 1) := by
  unfold parseNumber
  cases h : numeralValue neg (input.takeWhile isNumeralChar) with
  | error e =>
    have := numeralValue_error _ _ _ h
    subst this
    exact sound_error _
  | ok v =>
    exact sound_ok _ _ _ (Nat.lt_succ_of_le (dropWhile_length _ _))

theorem parseNumber_digit_sound (c : Nat) (rest : List Nat) (hc : isDigit c = true) :
    Sound (parseNumber false (c :: rest)) (rest.length + 1) := by
  have hn : isNumeralChar c = true := by simp [isNumeralChar, hc]
  unfold parseNumber
  cases h : numeralValue false ((c :: rest).takeWhile isNumeralChar) with
  | error e =>
    have := numeralValue_error _ _ _ h
    subst this
    exact sound_error _
  | ok v =>
    refine sound_ok _ _ _ ?_
    rw [List.dropWhile_cons_of_pos hn]
    exact Nat.lt_succ_of_le (dropWhile_length _ _)

theorem expect_sound (word : List Nat) (v : JSVal) (input : List Nat) :
    Sound (expect word v input) (input.length + 1) := by
  unfold expect
  split
  · refine sound_ok _ _ _ ?_
    simp only [List.length_drop]
    omega
  · exact sound_error _

theorem skipWs_shape (input : List Nat) :
    skipWs input = [] ∨ ∃ c rest, skipWs input = c :: rest ∧ rest.length < input.length := by
  have h := skipWs_length input
  cases hs : skipWs input with
  | nil => exact Or.inl rfl
  | cons c rest =>
    rw [hs] at h
    simp only [List.length_cons] at h
    exact Or.inr ⟨c, rest, rfl, by omega⟩

theorem parseValue_sound (fuel : Nat) (ihe : ∀ input, 2 * input.length + 2 ≤ fuel →
      Sound (parseElems fuel input) input.length)
    (ihm : ∀ input, 2 * input.length + 2 ≤ fuel → Sound (parseMembers fuel input) input.length)
    (input : List Nat) (hf : 2 * input.length + 1 ≤ fuel + 1) :
    Sound (parseValue (fuel + 1) input) input.length := by
  rw [parseValue.eq_def]
  simp only
  rcases skipWs_shape input with h0 | ⟨c, rest, hs, hlen⟩
  · rw [h0]
    exact sound_error _
  rw [hs]
  simp only
  by_cases h34 : c = 34
  · rw [if_pos h34]
    have := parseStr_sound rest.length rest (le_refl _)
    cases hp : parseStr rest with
    | error e =>
      have he := this.1 e hp
      subst he
      exact sound_error _
    | ok p =>
      obtain ⟨s, r⟩ := p
      exact sound_ok _ _ _ (lt_trans (this.2 s r hp) hlen)
  rw [if_neg h34]
  by_cases h91 : c = 91
  · rw [if_pos h91]
    have hskip := skipWs_length rest
    have hcall := ihe rest (by omega)
    have hgen : Sound (match parseElems fuel rest with
        | .ok (xs, r) => (Except.ok (JSVal.arr xs, r) : Except JSError (JSVal × List Nat))
        | .error e => .error e) input.length := by
      cases hp : parseElems fuel rest with
      | error e =>
        have he := hcall.1 e hp
        subst he
        exact sound_error _
      | ok p =>
        obtain ⟨xs, r⟩ := p
        exact sound_ok _ _ _ (lt_trans (hcall.2 xs r hp) hlen)
    split
    · rename_i r hr
      rw [hr] at hskip
      simp only [List.length_cons] at hskip
      exact sound_ok _ _ _ (by omega)
    · exact hgen
  rw [if_neg h91]
  by_cases h123 : c = 123
  · rw [if_pos h123]
    have hskip := skipWs_length rest
    have hcall := ihm rest (by omega)
    have hgen : Sound (match parseMembers fuel rest with
        | .ok (fs, r) => (Except.ok (JSVal.obj fs, r) : Except JSError (JSVal × List Nat))
        | .error e => .error e) input.length := by
      cases hp : parseMembers fuel rest with
      | error e =>
        have he := hcall.1 e hp
        subst he
        exact sound_error _
      | ok p =>
        obtain ⟨fs, r⟩ := p
        exact sound_ok _ _ _ (lt_trans (hcall.2 fs r hp) hlen)
    split
    · rename_i r hr
      rw [hr] at hskip
      simp only [List.length_cons] at hskip
      exact sound_ok _ _ _ (by omega)
    · exact hgen
  rw [if_neg h123]
  by_cases h116 : c = 116
  · rw [if_pos h116]
    exact sound_mono _ _ _ (expect_sound _ _ rest) (by omega)
  rw [if_neg h116]
  by_cases h102 : c = 102
  · rw [if_pos h102]
    exact sound_mono _ _ _ (expect_sound _ _ rest) (by omega)
  rw [if_neg h102]
  by_cases h110 : c = 110
  · rw [if_pos h110]
    exact sound_mono _ _ _ (expect_sound _ _ rest) (by omega)
  rw [if_neg h110]
  by_cases h45 : c = 45
  · rw [if_pos h45]
    exact sound_mono _ _ _ (parseNumber_sound true rest) (by omega)
  rw [if_neg h45]
  by_cases hd : isDigit c = true
  · rw [if_pos hd]
    exact sound_mono _ _ _ (parseNumber_digit_sound c rest hd) (by omega)
  · rw [if_neg hd]
    exact sound_error _

theorem parseElems_sound (fuel : Nat) (ihv : ∀ input, 2 * input.length + 1 ≤ fuel →
      Sound (parseValue fuel input) input.length)
    (ihe : ∀ input, 2 * input.length + 2 ≤ fuel → Sound (parseElems fuel input) input.length)
    (input : List Nat) (hf : 2 * input.length + 2 ≤ fuel + 1) :
    Sound (parseElems (fuel + 1) input) input.length := by
  rw [parseElems.eq_def]
  simp only
  have hv := ihv input (by omega)
  cases hp : parseValue fuel input with
  | error e =>
    have he := hv.1 e hp
    subst he
    exact sound_error _
  | ok p =>
    obtain ⟨v, r⟩ := p
    have hr := hv.2 v r hp
    simp only
    rcases skipWs_shape r with h0 | ⟨c, r2, hs, hlen⟩
    · rw [h0]
      exact sound_error _
    rw [hs]
    by_cases h44 : c = 44
    · subst h44
      simp only
      have hcall := ihe r2 (by omega)
      cases hq : parseElems fuel r2 with
      | error e =>
        have he := hcall.1 e hq
        subst he
        exact sound_error _
      | ok q =>
        obtain ⟨vs, r3⟩ := q
        exact sound_ok _ _ _ (by have := hcall.2 vs r3 hq; omega)
    by_cases h93 : c = 93
    · subst h93
      exact sound_ok _ _ _ (by omega)
    · split
      · rename_i heq
        simp only [List.cons.injEq] at heq
        exact absurd heq.1 h44
      · rename_i heq
        simp only [List.cons.injEq] at heq
        exact absurd heq.1 h93
      · exact sound_error _

theorem parseMembers_sound (fuel : Nat) (ihv : ∀ input, 2 * input.length + 1 ≤ fuel →
      Sound (parseValue fuel input) input.length)
    (ihm : ∀ input, 2 * input.length + 2 ≤ fuel → Sound (parseMembers fuel input) input.length)
    (input : List Nat) (hf : 2 * input.length + 2 ≤ fuel + 1) :
    Sound (parseMembers (fuel + 1) input) input.length := by
  rw [parseMembers.eq_def]
  simp only
  rcases skipWs_shape input with h0 | ⟨c, r, hs, hlen⟩
  · rw [h0]
    exact sound_error _
  rw [hs]
  by_cases h34 : c = 34
  swap
  · split
    · rename_i heq
      simp only [List.cons.injEq] at heq
      exact absurd heq.1 h34
    · exact sound_error _
  subst h34
  simp only
  have hstr := parseStr_sound r.length r (le_refl _)
  cases hp : parseStr r with
  | error e =>
    have he := hstr.1 e hp
    subst he
    exact sound_error _
  | ok p =>
    obtain ⟨k, r1⟩ := p
    have hr1 := hstr.2 k r1 hp
    simp only
    rcases skipWs_shape r1 with h0 | ⟨c2, r2, hs2, hlen2⟩
    · rw [h0]
      exact sound_error _
    rw [hs2]
    by_cases h58 : c2 = 58
    swap
    · split
      · rename_i heq
        simp only [List.cons.injEq] at heq
        exact absurd heq.1 h58
      · exact sound_error _
    subst h58
    simp only
    have hv := ihv r2 (by omega)
    cases hq : parseValue fuel r2 with
    | error e =>
      have he := hv.1 e hq
      subst he
      exact sound_error _
    | ok q =>
      obtain ⟨v, r3⟩ := q
      have hr3 := hv.2 v r3 hq
      simp only
      rcases skipWs_shape r3 with h0 | ⟨c4, r4, hs4, hlen4⟩
      · rw [h0]
        exact sound_error _
      rw [hs4]
      by_cases h44 : c4 = 44
      · subst h44
        simp only
        have hcall := ihm r4 (by omega)
        cases hm : parseMembers fuel r4 with
        | error e =>
          have he := hcall.1 e hm
          subst he
          exact sound_error _
        | ok m =>
          obtain ⟨fs, r5⟩ := m
          exact sound_ok _ _ _ (by have := hcall.2 fs r5 hm; omega)
      by_cases h125 : c4 = 125
      · subst h125
        exact sound_ok _ _ _ (by omega)
      · split
        · rename_i heq
          simp only [List.cons.injEq] at heq
          exact absurd heq.1 h44
        · rename_i heq
          simp only [List.cons.injEq] at heq
          exact absurd heq.1 h125
        · exact sound_error _

/-- The readers never fail for want of recursion depth, and each consumes some
of its input. -/
theorem readsAll (fuel : Nat) : ReadsAll fuel := by
  induction fuel with
  | zero =>
    refine ⟨?_, ?_, ?_⟩ <;> intro input h <;> omega
  | succ fuel ih =>
    obtain ⟨ihv, ihe, ihm⟩ := ih
    exact ⟨parseValue_sound fuel ihe ihm, parseElems_sound fuel ihv ihe,
      parseMembers_sound fuel ihv ihm⟩

/-- `JSON.parse` raises nothing but a `SyntaxError`. -/
theorem JSONparse_error (text : JSString) (e : JSError) (h : JSONparse text = .error e) :
    e = .syntaxError := by
  have hs := (readsAll (2 * text.length + 1)).1 text (le_refl _)
  unfold JSONparse at h
  cases hp : parseValue (2 * text.length + 1) text with
  | error e' =>
    rw [hp] at h
    simp only at h
    have := hs.1 e' hp
    subst this
    exact (Except.error.inj h).symm
  | ok p =>
    obtain ⟨v, r⟩ := p
    rw [hp] at h
    simp only at h
    split_ifs at h
    exact (Except.error.inj h).symm

/-! ## The codec (C1) -/

theorem lookup_blob_tag (t d : JSVal) :
    lookupLast (lit "__blob") [(lit "__blob", jsTrue), (lit "type", t), (lit "data", d)]
      = some jsTrue := rfl

theorem lookup_blob_data (t d : JSVal) :
    lookupLast (lit "data") [(lit "__blob", jsTrue), (lit "type", t), (lit "data", d)]
      = some d := rfl

theorem lookup_blob_type (t d : JSVal) :
    lookupLast (lit "type") [(lit "__blob", jsTrue), (lit "type", t), (lit "data", d)]
      = some t := rfl

theorem plain_byteArray (bytes : List Nat) (h : ∀ b ∈ bytes, b < 256) :
    Plain (byteArray bytes) := by
  unfold byteArray
  simp only [Plain]
  induction bytes with
  | nil => simp [Plain.plainList]
  | cons b rest ih =>
    simp only [List.map_cons, Plain.plainList, Plain]
    refine ⟨?_, ih (fun c hc => h c (List.mem_cons_of_mem _ hc))⟩
    have := h b (List.mem_cons_self _ _)
    simp only [Int.ofNat_eq_coe, Int.natAbs_ofNat]
    omega

theorem uint8Array_byteArray (bytes : List Nat) (h : ∀ b ∈ bytes, b < 256) :
    uint8Array (byteArray bytes) = some bytes := by
  unfold byteArray
  have hall : (bytes.map fun (b : Nat) => JSVal.num (Int.ofNat b)).all isNumber = true := by
    clear h
    induction bytes with
    | nil => rfl
    | cons b rest ih => simp [isNumber]
  have hmap : (bytes.map fun (b : Nat) => JSVal.num (Int.ofNat b)).map toUint8 = bytes := by
    clear hall
    induction bytes with
    | nil => rfl
    | cons b rest ih =>
      have hb := h b (List.mem_cons_self _ _)
      have hrest := ih (fun c hc => h c (List.mem_cons_of_mem _ hc))
      rw [List.map_cons, List.map_cons, hrest]
      congr 1
      simp only [toUint8, Int.ofNat_eq_coe]
      omega
  simp only [uint8Array, hall, if_true, hmap]

theorem codec_text (s : JSString) :
    serialize (.str s) = some (quoteJSONString s)
    ∧ unserialize (quoteJSONString s) = .ok (.str s) := by
  refine ⟨rfl, ?_⟩
  have hp := JSONparse_stringify true (.str s) _ (by simp [Plain]) rfl
  simp [unserialize, hp, getProp, truthy, revive]

theorem codec_blob (type : JSString) (bytes : List Nat) (htype : normaliseType type = type)
    (hbytes : ∀ b ∈ bytes, b < 256) :
    ∃ t, serialize (.blob type bytes) = some t ∧ unserialize t = .ok (.blob type bytes) := by
  have hplain : Plain (.obj [(lit "__blob", jsTrue), (lit "type", .str type),
      (lit "data", byteArray bytes)]) := by
    simp only [Plain, Plain.plainFields, and_true, true_and]
    exact plain_byteArray bytes hbytes
  obtain ⟨t, ht⟩ := plain_stringify false _ hplain
  refine ⟨t, ht, ?_⟩
  have hp := JSONparse_stringify false _ t hplain ht
  simp only [unserialize, hp, getProp, member, lookup_blob_tag, lookup_blob_data,
    lookup_blob_type, Option.getD_some, truthy, if_true, uint8Array_byteArray bytes hbytes,
    newBlob, toJSString, htype]

theorem codec_payload (x : JSVal) (hx : IsPayload x) :
    ∃ t, serialize x = some t ∧ valueStart t = true ∧ unserialize t = .ok x := by
  cases x with
  | str s => exact ⟨_, (codec_text s).1, rfl, (codec_text s).2⟩
  | blob type bytes =>
    obtain ⟨t, ht, hu⟩ := codec_blob type bytes hx.1 hx.2
    refine ⟨t, ht, ?_, hu⟩
    simp only [serialize, JSONstringify, stringifyWith, Option.some.injEq] at ht
    subst ht
    rfl
  | undefined => exact hx.elim
  | null => exact hx.elim
  | bool b => exact hx.elim
  | num n => exact hx.elim
  | real neg m e => exact hx.elim
  | infinity neg => exact hx.elim
  | arr xs => exact hx.elim
  | obj fs => exact hx.elim
  | buffer b => exact hx.elim

/-- C1. For every text and for every blob (a type the `Blob` constructor keeps,
bytes 0..255), `serialize` answers a string from which `unserialize` gives back
the payload: the same string, or a blob of the same type and the same bytes in
the same order. -/
theorem serialize_unserialize (x : JSVal) (hx : IsPayload x) :
    ∃ t, serialize x = some t ∧ unserialize t = .ok x := by
  cases x with
  | str s => exact ⟨quoteJSONString s, codec_text s⟩
  | blob type bytes => exact codec_blob type bytes hx.1 hx.2
  | undefined => exact hx.elim
  | null => exact hx.elim
  | bool b => exact hx.elim
  | num n => exact hx.elim
  | real neg m e => exact hx.elim
  | infinity neg => exact hx.elim
  | arr xs => exact hx.elim
  | obj fs => exact hx.elim
  | buffer b => exact hx.elim

/-- The round trip of C1 on a font blob with three bytes. -/
theorem serialize_unserialize_witness :
    IsPayload (.blob (lit "font/woff2") [0, 255, 7])
    ∧ ∃ t, serialize (.blob (lit "font/woff2") [0, 255, 7]) = some t
        ∧ unserialize t = .ok (.blob (lit "font/woff2") [0, 255, 7]) :=
  ⟨⟨by decide, by decide⟩, serialize_unserialize _ ⟨by decide, by decide⟩⟩

/-! ## Records on the flat backend (C2) -/

theorem lsGetItem_set_same (ls : LocalStorage) (k v : JSString) :
    lsGetItem (lsSetItem ls k v) k = some v := by
  induction ls with
  | nil => simp [lsSetItem, lsGetItem]
  | cons e rest ih =>
    obtain ⟨k', v'⟩ := e
    by_cases h : k' = k
    · simp [lsSetItem, lsGetItem, h]
    · simp [lsSetItem, lsGetItem, h, ih]

theorem lsGetItem_set_other (ls : LocalStorage) (k k2 v : JSString) (h : k2 ≠ k) :
    lsGetItem (lsSetItem ls k v) k2 = lsGetItem ls k2 := by
  induction ls with
  | nil => simp [lsSetItem, lsGetItem, Ne.symm h]
  | cons e rest ih =>
    obtain ⟨k', v'⟩ := e
    by_cases h1 : k' = k
    · subst h1
      simp [lsSetItem, lsGetItem, Ne.symm h]
    · by_cases h2 : k' = k2
      · subst h2
        simp [lsSetItem, lsGetItem, h1]
      · simp [lsSetItem, lsGetItem, h1, h2, ih]

theorem NamespaceIt_tag (cfg : Cfg) (res : JSVal) :
    NamespaceIt cfg (.str (toJSString res ++ lit "::V")) = NamespaceIt cfg res ++ lit "::V" := by
  simp [NamespaceIt, toJSString]

theorem NamespaceIt_ne_tag (cfg : Cfg) (res : JSVal) :
    NamespaceIt cfg res ≠ NamespaceIt cfg res ++ lit "::V" := by
  intro h
  have := congrArg List.length h
  simp [lit] at this

theorem strictEq_str (s : JSString) : strictEq (.str s) (.str s) = true := by
  simp [strictEq]

theorem valueStart_ne_nil (t : List Nat) (h : valueStart t = true) : t.isEmpty = false := by
  obtain ⟨c, r, rfl, -, -⟩ := valueStart_cons t h
  rfl

theorem tag_parse (type version : JSString) :
    JSONparse ((JSONstringify (.obj [(lit "type", .str type), (lit "ver", .str version)])).getD
        (lit "undefined"))
      = .ok (.obj [(lit "type", .str type), (lit "ver", .str version)]) := by
  have hplain : Plain (.obj [(lit "type", .str type), (lit "ver", .str version)]) := by
    simp [Plain, Plain.plainFields]
  obtain ⟨t, ht⟩ := plain_stringify false _ hplain
  have hp := JSONparse_stringify false _ t hplain ht
  rw [JSONstringify, ht]
  exact hp

theorem guarded_tag_ver (type version : JSVal) :
    guardedMember true (.obj [(lit "type", type), (lit "ver", version)]) (lit "ver")
      = .ok (some version) := rfl

theorem guarded_tag_type (type version : JSVal) :
    guardedMember true (.obj [(lit "type", type), (lit "ver", version)]) (lit "type")
      = .ok (some type) := rfl

/-- C2. On the flat backend, for every URL, every text or blob content, every
version string and every type, whatever `localStorage` held before: `store`
succeeds, after it `check` answers exactly the version, and `getFromStorage`
answers a record with the stored type and the stored content. -/
theorem store_then_read (inst : Instance) (host : Host) (ls : LocalStorage)
    (url version type : JSString) (content : JSVal)
    (hflat : inst.cfg.storage = .str (lit "local")) (hls : host.localStorage = some ls)
    (hc : IsPayload content) :
    ∃ host1, store inst host (.str url) content (.str version) (.str type)
        = .ok (.obj [(lit "content", content), (lit "type", .str type)], host1)
      ∧ check inst host1 (.str url) = .ok (.str version)
      ∧ getFromStorage inst host1 (.str url)
          = .ok (.obj [(lit "type", .str type), (lit "content", content)]) := by
  obtain ⟨t, ht, hstart, hround⟩ := codec_payload content hc
  have hne := valueStart_ne_nil t hstart
  have hkey := NamespaceIt_tag inst.cfg (.str url)
  have hdiff := NamespaceIt_ne_tag inst.cfg (.str url)
  refine ⟨{ host with localStorage := some (lsSetItem
      (lsSetItem ls (NamespaceIt inst.cfg (.str url)) t)
      (NamespaceIt inst.cfg (.str url) ++ lit "::V")
      ((JSONstringify (.obj [(lit "type", .str type), (lit "ver", .str version)])).getD
        (lit "undefined"))) }, ?_, ?_, ?_⟩
  · simp only [store, hflat, strictEq_str, if_true, hls, ht, Option.getD_some, hkey]
  · simp only [check, hflat, strictEq_str, if_true, ht, Option.getD_some, hkey,
      lsGetItem_set_same, lsGetItem_set_other _ _ _ _ hdiff, tag_parse, itemTruthy, hne,
      Bool.not_false, guarded_tag_ver]
  · simp only [getFromStorage, hflat, strictEq_str, if_true, ht, Option.getD_some, hkey,
      lsGetItem_set_same, lsGetItem_set_other _ _ _ _ hdiff, tag_parse, itemTruthy, hne,
      Bool.not_false, guarded_tag_type, hround]

/-- The statement of C2 on an empty `localStorage`, for a script stored under
`a.js` with version `h1`. -/
theorem store_then_read_witness :
    ∃ host1, store (flatInstance true) (flatHost []) (.str (lit "a.js")) (.str (lit "console.log(1)"))
        (.str (lit "h1")) (.str (lit "js"))
        = .ok (.obj [(lit "content", .str (lit "console.log(1)")), (lit "type", .str (lit "js"))],
            host1)
      ∧ check (flatInstance true) host1 (.str (lit "a.js")) = .ok (.str (lit "h1"))
      ∧ getFromStorage (flatInstance true) host1 (.str (lit "a.js"))
          = .ok (.obj [(lit "type", .str (lit "js")),
              (lit "content", .str (lit "console.log(1)"))]) :=
  store_then_read (flatInstance true) (flatHost []) [] (lit "a.js") (lit "h1") (lit "js")
    (.str (lit "console.log(1)")) rfl rfl trivial

/-! ## The decision of a resource task (C3) -/

theorem truthy_ne_false (sv : JSVal) (h : truthy sv = true) : strictEq sv jsFalse = false := by
  cases sv <;> simp_all [truthy, strictEq]

theorem probes_append (a b : List Event) : probes (a ++ b) = probes a + probes b := by
  induction a with
  | nil => simp [probes]
  | cons x rest ih =>
    cases x <;> first | (simp [probes, ih]; done) | (simp [probes, ih]; omega)

theorem downloads_append (a b : List Event) :
    downloads (a ++ b) = downloads a + downloads b := by
  induction a with
  | nil => simp [downloads]
  | cons x rest ih =>
    cases x <;> first | (simp [downloads, ih]; done) | (simp [downloads, ih]; omega)

theorem reads_append (a b : List Event) : reads (a ++ b) = reads a + reads b := by
  induction a with
  | nil => simp [reads]
  | cons x rest ih =>
    cases x <;> first | (simp [reads, ih]; done) | (simp [reads, ih]; omega)

theorem renderAndResolve_counts (cfg : Cfg) (host : Host) (item r : JSVal)
    (before : List Event) :
    probes (renderAndResolve cfg host item r before).events = probes before
    ∧ downloads (renderAndResolve cfg host item r before).events = downloads before
    ∧ reads (renderAndResolve cfg host item r before).events = reads before := by
  unfold renderAndResolve
  cases nameIt item r with
  | error e => exact ⟨rfl, rfl, rfl⟩
  | ok r1 =>
    dsimp only
    cases renderItem cfg r1 with
    | error e => exact ⟨rfl, rfl, rfl⟩
    | ok u =>
      dsimp only
      rw [probes_append, downloads_append, reads_append]
      exact ⟨rfl, rfl, rfl⟩

theorem finishRead_counts (inst : Instance) (host : Host) (item : JSVal) (before : List Event) :
    probes (finishRead inst host item before).events = probes before
    ∧ downloads (finishRead inst host item before).events = downloads before
    ∧ reads (finishRead inst host item before).events = reads before + 1 := by
  unfold finishRead
  dsimp only
  cases getFromStorage inst host (member item (lit "url")) with
  | error e =>
    dsimp only
    rw [probes_append, downloads_append, reads_append]
    exact ⟨rfl, rfl, rfl⟩
  | ok r =>
    dsimp only
    have h := renderAndResolve_counts inst.cfg host item r
      (before ++ [.read (member item (lit "url"))])
    rw [probes_append, downloads_append, reads_append] at h
    exact h

theorem finishDownload_counts (inst : Instance) (net : Net) (host : Host) (item : JSVal)
    (before : List Event) :
    probes (finishDownload inst net host item before).events = probes before
    ∧ downloads (finishDownload inst net host item before).events = downloads before + 1
    ∧ reads (finishDownload inst net host item before).events = reads before := by
  unfold finishDownload
  dsimp only
  cases downloadAndStore inst net host (member item (lit "url")) (member item (lit "type")) with
  | error e =>
    dsimp only
    rw [probes_append, downloads_append, reads_append]
    exact ⟨rfl, rfl, rfl⟩
  | ok pair =>
    obtain ⟨r, host1⟩ := pair
    dsimp only
    have h := renderAndResolve_counts inst.cfg host1 item r
      (before ++ [.fetched (member item (lit "url")) (member item (lit "type"))])
    rw [probes_append, downloads_append, reads_append] at h
    exact h

/-- C3. Let `check` answer `sv` for the URL of a descriptor that has a URL and a
type, and let `live` be what `getHeadersHash` would answer. In the task of
`load` and in the turn of `cache` alike:
(1) `sv` truthy, update checking off: no fingerprint request, no download (the
task of `load` reads the stored record once);
(2) `sv` truthy, update checking on, offline: the same;
(3) `sv` truthy, update checking on, online: exactly one fingerprint request,
then no download when `live === sv` and exactly one download when not, which is
the case whenever the request failed (`live` is `false`);
(4) `sv` falsy and online: one download, no fingerprint request. -/
theorem decision_protocol (inst : Instance) (net : Net) (host : Host) (item sv : JSVal)
    (hurl : hasOwnProperty item (lit "url") = .ok true)
    (htype : hasOwnProperty item (lit "type") = .ok true)
    (hsv : check inst host (member item (lit "url")) = .ok sv) :
    (truthy sv = true → truthy inst.cfg.checkForUpdates = false →
      probes (loadTask inst net host item).events = 0
      ∧ downloads (loadTask inst net host item).events = 0
      ∧ reads (loadTask inst net host item).events = 1
      ∧ cacheStep inst net host item = .ok (host, []))
    ∧ (truthy sv = true → truthy inst.cfg.checkForUpdates = true → inst.priv.online = false →
      probes (loadTask inst net host item).events = 0
      ∧ downloads (loadTask inst net host item).events = 0
      ∧ reads (loadTask inst net host item).events = 1
      ∧ cacheStep inst net host item = .ok (host, []))
    ∧ (truthy sv = true → truthy inst.cfg.checkForUpdates = true → inst.priv.online = true →
      strictEq sv (getHeadersHash net (member item (lit "url"))) = true →
      probes (loadTask inst net host item).events = 1
      ∧ downloads (loadTask inst net host item).events = 0
      ∧ reads (loadTask inst net host item).events = 1
      ∧ cacheStep inst net host item = .ok (host, [.probe (member item (lit "url"))]))
    ∧ (truthy sv = true → truthy inst.cfg.checkForUpdates = true → inst.priv.online = true →
      (strictEq sv (getHeadersHash net (member item (lit "url"))) = false
        ∨ getHeadersHash net (member item (lit "url")) = jsFalse) →
      probes (loadTask inst net host item).events = 1
      ∧ downloads (loadTask inst net host item).events = 1
      ∧ reads (loadTask inst net host item).events = 0
      ∧ ∃ host1, cacheStep inst net host item
          = .ok (host1, [.probe (member item (lit "url")),
              .fetched (member item (lit "url")) (member item (lit "type"))]))
    ∧ (truthy sv = false → inst.priv.online = true →
      probes (loadTask inst net host item).events = 0
      ∧ downloads (loadTask inst net host item).events = 1
      ∧ reads (loadTask inst net host item).events = 0
      ∧ ∃ host1, cacheStep inst net host item
          = .ok (host1, [.fetched (member item (lit "url")) (member item (lit "type"))])) := by
  refine ⟨?_, ?_, ?_, ?_, ?_⟩
  · intro hs hoff
    have h := finishRead_counts inst host item []
    simp only [loadTask, taskAfterCheck, cacheStep, hurl, htype, hsv, hs, hoff, not_true_eq_false, if_false,
      Bool.false_eq_true]
    exact ⟨h.1, h.2.1, h.2.2, trivial⟩
  · intro hs hon hoffline
    have h := finishRead_counts inst host item []
    simp only [loadTask, taskAfterCheck, cacheStep, hurl, htype, hsv, hs, hon, hoffline, not_true_eq_false,
      if_false, if_true, Bool.false_eq_true, not_false_eq_true]
    exact ⟨h.1, h.2.1, h.2.2, trivial⟩
  · intro hs hon honline heq
    have h := finishRead_counts inst host item [.probe (member item (lit "url"))]
    simp only [loadTask, taskAfterCheck, cacheStep, hurl, htype, hsv, hs, hon, honline, heq, not_true_eq_false,
      if_false, if_true]
    exact ⟨h.1, h.2.1, h.2.2, trivial⟩
  · intro hs hon honline hne
    have hne2 : strictEq sv (getHeadersHash net (member item (lit "url"))) = false := by
      rcases hne with h | h
      · exact h
      · rw [h]; exact truthy_ne_false sv hs
    have h := finishDownload_counts inst net host item [.probe (member item (lit "url"))]
    simp only [loadTask, taskAfterCheck, cacheStep, hurl, htype, hsv, hs, hon, honline, hne2, not_true_eq_false,
      if_false, if_true, Bool.false_eq_true]
    exact ⟨h.1, h.2.1, h.2.2, _, rfl⟩
  · intro hs honline
    have h := finishDownload_counts inst net host item []
    simp only [loadTask, taskAfterCheck, cacheStep, hurl, htype, hsv, hs, honline, not_true_eq_false,
      if_false, if_true, Bool.false_eq_true, not_false_eq_true]
    exact ⟨h.1, h.2.1, h.2.2, _, rfl⟩

/-- The third case of C3 on a stored script whose live fingerprint is the stored
one: one fingerprint request, no download, one read. -/
theorem decision_protocol_witness :
    hasOwnProperty scriptItem (lit "url") = .ok true
    ∧ hasOwnProperty scriptItem (lit "type") = .ok true
    ∧ check (flatInstance true) (flatHost scriptStored) (member scriptItem (lit "url"))
        = .ok (.str (lit "h1"))
    ∧ probes (loadTask (flatInstance true) (steadyNet (plainResponse [] [] [])) (flatHost scriptStored)
        scriptItem).events = 1
    ∧ downloads (loadTask (flatInstance true) (steadyNet (plainResponse [] [] []))
        (flatHost scriptStored) scriptItem).events = 0
    ∧ reads (loadTask (flatInstance true) (steadyNet (plainResponse [] [] []))
        (flatHost scriptStored) scriptItem).events = 1 :=
  ⟨rfl, rfl, rfl,
    ((decision_protocol (flatInstance true) (steadyNet (plainResponse [] [] []))
      (flatHost scriptStored) scriptItem (.str (lit "h1")) rfl rfl rfl).2.2.1 rfl rfl rfl rfl).1,
    ((decision_protocol (flatInstance true) (steadyNet (plainResponse [] [] []))
      (flatHost scriptStored) scriptItem (.str (lit "h1")) rfl rfl rfl).2.2.1 rfl rfl rfl rfl).2.1,
    ((decision_protocol (flatInstance true) (steadyNet (plainResponse [] [] []))
      (flatHost scriptStored) scriptItem (.str (lit "h1")) rfl rfl rfl).2.2.1 rfl rfl rfl rfl).2.2.1⟩

/-! ## The guard of `downloadAndStore` (C4) -/

/-- The guard of `downloadAndStore` where it works: when the download fails, or
its fingerprint is falsy, or a text body is empty, nothing is stored. -/
theorem downloadAndStore_guard (inst : Instance) (net : Net) (host : Host) (url type : JSVal)
    (h : download net url type = jsFalse
      ∨ truthy (member (download net url type) (lit "hash")) = false
      ∨ member (download net url type) (lit "file") = .str []) :
    downloadAndStore inst net host url type = .ok (jsFalse, host) := by
  unfold downloadAndStore
  rcases h with h | h | h
  · simp [h, member, truthy]
  · simp [h]
  · simp [h, truthy]

/-- C4, at the failing input. A download that succeeds with an empty body read
as a blob (type `font`) passes the guard `!hash || !file`, because an empty
`Blob` is truthy: `downloadAndStore` writes a content entry with no bytes and a
metadata entry into a `localStorage` that was empty. -/
theorem downloadAndStore_empty_blob :
    ∃ r, downloadAndStore (flatInstance true) (steadyNet (plainResponse [] [] [])) (flatHost [])
        (.str (lit "a.woff")) (.str (lit "font"))
      = .ok (r, flatHost
          [(lit "quiche::a.woff", lit "\x7b\"__blob\":true,\"type\":\"\",\"data\":[]\x7d"),
           (lit "quiche::a.woff::V", lit "\x7b\"type\":\"font\",\"ver\":\"h1\"\x7d")]) :=
  ⟨_, rfl⟩

/-! ## Completion of the tasks of `load` (C5) -/

/-- A task of `load` that finds no stored version while connectivity is false
never calls `resolveThread`, and neither does one whose `check` raises. -/
theorem loadTask_offline_miss (inst : Instance) (net : Net) (host : Host) (item : JSVal)
    (hoff : inst.priv.online = false)
    (hmiss : ∀ sv, check inst host (member item (lit "url")) = .ok sv → truthy sv = false) :
    (loadTask inst net host item).signalled = false := by
  unfold loadTask taskAfterCheck
  dsimp only
  cases hc : check inst host (member item (lit "url")) with
  | error e => rfl
  | ok sv => simp [hmiss sv hc, hoff]

/-- C5, at the failing input. With nothing stored and connectivity false, the
task of `load` for `{url: 'a.js', type: 'js'}` leaves through `return false`
without calling `resolveThread`, and the promise of `load` stays pending. -/
theorem load_offline_miss_pending :
    (loadTask (flatInstance false) (steadyNet (plainResponse [] [] [])) (flatHost [])
        scriptItem).signalled = false
    ∧ (load (flatInstance false) (steadyNet (plainResponse [] [] [])) (flatHost [])
        (.arr [scriptItem])).outcome = .pending :=
  ⟨rfl, rfl⟩

/-! ## Validation of descriptors (C6) -/

theorem word_ne : lit "js" ≠ lit "font" ∧ lit "css" ≠ lit "font" ∧ lit "js" ≠ lit "css" := by
  decide

/-- C6 fails as stated. A descriptor with an own member named `hasOwnProperty`
has a URL and the type `js`, yet the loop of `load` raises on it
(`item.hasOwnProperty` is that member, not a function): no task is spawned for
it nor for the script after it, and the call raises. A descriptor whose type is
an object with an own member `toString` is not skipped either: building the
message about its type raises. -/
theorem load_raises_on_shadowed_method :
    validDescriptor shadowedItem = true
    ∧ spawn (flatInstance true).cfg [shadowedItem, scriptItem] = ([], some .typeError)
    ∧ (load (flatInstance true) (steadyNet (plainResponse [] [] [])) (flatHost [])
        (.arr [shadowedItem, scriptItem])).outcome = .raised .typeError
    ∧ validDescriptor opaqueTypeItem = false
    ∧ spawn (flatInstance true).cfg [opaqueTypeItem, scriptItem] = ([], some .typeError) :=
  ⟨rfl, rfl, rfl, rfl, rfl⟩

theorem debugLog_printable (cfg : Cfg) (fields : List (JSString × JSVal))
    (hp : printable cfg (.obj fields) = true) : debugLog cfg (.obj fields) = .ok () := by
  simp only [printable, Bool.and_eq_true, Bool.or_eq_true, Bool.not_eq_true'] at hp
  unfold debugLog
  by_cases hd : truthy cfg.debug = true
  · rcases hp.1 with h | h
    · rw [h] at hd; cases hd
    · simp only [member] at h
      simp [hd, getProp, h]
  · simp [hd]

theorem loadValid_descriptor (cfg : Cfg) (item : JSVal) (h : isDescriptor item = true)
    (hp : printable cfg item = true) :
    loadValid cfg item = .ok (validDescriptor item) := by
  obtain ⟨hjf, hcf, hjc⟩ := word_ne
  cases item with
  | obj fields =>
    have hlog := debugLog_printable cfg fields hp
    simp only [printable, Bool.and_eq_true, Bool.or_eq_true, Bool.not_eq_true'] at hp
    have hty := hp.2
    simp only [isDescriptor, Option.isNone_iff_eq_none] at h
    simp only [member, ownMember] at hty
    simp only [loadValid, hlog, hasOwnProperty, h, member, validDescriptor, ownMember]
    rcases Option.eq_none_or_eq_some (lookupLast (lit "url") fields) with hu | ⟨u, hu⟩
    · simp [hu]
    rcases Option.eq_none_or_eq_some (lookupLast (lit "type") fields) with ht | ⟨t, ht⟩
    · simp [hu, ht]
    simp only [hu, ht, Option.isSome_some, Bool.and_self, Bool.true_eq_false, false_or,
      Option.getD_some] at hty
    simp only [hu, ht]
    rcases Option.eq_none_or_eq_some (lookupLast (lit "name") fields) with hn | ⟨n, hn⟩
    · simp only [hn]
      cases t with
      | str s =>
        by_cases h1 : s = lit "js"
        · subst h1; simp [strictEq, looseEqWord, isWord, hjf, hjc]
        · by_cases h2 : s = lit "css"
          · subst h2; simp [strictEq, looseEqWord, isWord, hcf, Ne.symm hjc]
          · by_cases h3 : s = lit "font"
            · subst h3; simp [strictEq, looseEqWord, isWord]
            · simp [strictEq, looseEqWord, isWord, h1, h2, h3, stringable]
      | _ => simp_all [strictEq, looseEqWord, isWord]
    · simp only [hn]
      cases t with
      | str s =>
        by_cases h1 : s = lit "js"
        · subst h1; simp [strictEq, looseEqWord, isWord, hjf, hjc]
        · by_cases h2 : s = lit "css"
          · subst h2; simp [strictEq, looseEqWord, isWord, hcf, Ne.symm hjc]
          · by_cases h3 : s = lit "font"
            · subst h3; simp [strictEq, looseEqWord, isWord]
            · simp [strictEq, looseEqWord, isWord, h1, h2, h3, stringable]
      | _ => simp_all [strictEq, looseEqWord, isWord]
  | undefined => simp [isDescriptor] at h
  | null => simp [isDescriptor] at h
  | bool b => simp [isDescriptor] at h
  | num n => simp [isDescriptor] at h
  | real neg m e => simp [isDescriptor] at h
  | infinity neg => simp [isDescriptor] at h
  | str s => simp [isDescriptor] at h
  | arr xs => simp [isDescriptor] at h
  | blob t b => simp [isDescriptor] at h
  | buffer b => simp [isDescriptor] at h

theorem spawn_descriptors (cfg : Cfg) (items : List JSVal)
    (h : ∀ item ∈ items, isDescriptor item = true ∧ printable cfg item = true) :
    spawn cfg items = (items.filter validDescriptor, none) := by
  induction items with
  | nil => rfl
  | cons item rest ih =>
    have hrest := ih (fun x hx => h x (List.mem_cons_of_mem _ hx))
    have hitem := loadValid_descriptor cfg item (h item (List.mem_cons_self _ _)).1
      (h item (List.mem_cons_self _ _)).2
    simp only [spawn, hitem, hrest]
    cases hv : validDescriptor item <;> simp [List.filter, hv]

/-- C6 as amended. For every list of descriptors given to `load` on a loaded
instance, none of which has an own member named `hasOwnProperty` and for each
of which the texts the loop prints can be built: the loop raises nothing, the
tasks are those of the descriptors that have a URL and a type, whose type is
`js`, `css` or `font`, and that have a name when the type is `font`, in the
order of the list; and they are the tasks the same call starts when the other
descriptors are taken out of the list. -/
theorem load_spawns (inst : Instance) (net : Net) (host : Host) (items : List JSVal)
    (hd : ∀ item ∈ items, isDescriptor item = true ∧ printable inst.cfg item = true)
    (hl : inst.priv.loaded = true) :
    spawn inst.cfg items = (items.filter validDescriptor, none)
    ∧ (load inst net host (.arr items)).tasks
        = runTasks inst net (items.filter validDescriptor) host
    ∧ (load inst net host (.arr (items.filter validDescriptor))).tasks
        = (load inst net host (.arr items)).tasks := by
  have h1 := spawn_descriptors inst.cfg items hd
  have h2 := spawn_descriptors inst.cfg (items.filter validDescriptor)
    (fun x hx => hd x (List.mem_of_mem_filter hx))
  rw [List.filter_filter] at h2
  simp only [Bool.and_self] at h2
  have hload : ∀ l : List JSVal, spawn inst.cfg l = (items.filter validDescriptor, none) →
      (load inst net host (.arr l)).tasks
        = runTasks inst net (items.filter validDescriptor) host := by
    intro l hs
    simp only [load, hl, not_true_eq_false, if_false, hs]
    split <;> rfl
  exact ⟨h1, hload items h1, by rw [hload _ h2, hload _ h1]⟩

/-- The statement of amended C6 on a batch of a script, a descriptor without
URL and a font without name: one task, for the script. -/
theorem load_spawns_witness :
    (∀ item ∈ mixedBatch,
      isDescriptor item = true ∧ printable (flatInstance true).cfg item = true)
    ∧ (flatInstance true).priv.loaded = true
    ∧ spawn (flatInstance true).cfg mixedBatch = ([scriptItem], none) :=
  ⟨by decide, rfl,
    (load_spawns (flatInstance true) (steadyNet (plainResponse [] [] [])) (flatHost []) mixedBatch
      (by decide) rfl).1⟩

/-! ## Options (C7) -/

/-- An argument that is not an object leaves every option as it was. -/
theorem parsePasssedOptions_not_object (support : Support) (cfg : Cfg) (opts : JSVal)
    (h : typeofObject opts = false) : parsePasssedOptions support cfg opts = (cfg, none) := by
  simp [parsePasssedOptions, h]

/-- C7, at the failing input. For the argument `{debug: true, bogus: 1}` the loop
of `parsePasssedOptions` assigns `cfg.debug` before it meets the unrecognized
key and leaves through `return invalidOptions()`: after the call, and after the
construction, `debug` is `true`, not its default `false`. -/
theorem parsePasssedOptions_partial :
    (parsePasssedOptions initialPriv.support defaultCfg
        (.obj [(lit "debug", jsTrue), (lit "bogus", .num 1)])).1.debug = jsTrue
    ∧ defaultCfg.debug = jsFalse
    ∧ (constructor (steadyNet (plainResponse [] [] [])) hostWithoutCaches
        (.obj [(lit "debug", jsTrue), (lit "bogus", .num 1)])).inst.cfg.debug = jsTrue :=
  ⟨rfl, rfl, rfl⟩

/-! ## Choice of the backend (C8) -/

/-- Without either capability the construction answers `false` and the instance
is never loaded, whatever options were passed without raising. -/
theorem constructor_no_capability (net : Net) (opts : JSVal)
    (h : (parsePasssedOptions ⟨false, false⟩ defaultCfg opts).2 = none) :
    (constructor net ⟨none, none⟩ opts).result = .ok jsFalse
    ∧ (constructor net ⟨none, none⟩ opts).inst.priv.loaded = false := by
  by_cases ht : truthy opts = true
  · simp [constructor, ht, h, LS_Supported, Cache_Supported, initialPriv]
  · simp [constructor, ht, LS_Supported, Cache_Supported, initialPriv]

/-- C8, at the failing inputs. With the default preference `cache`, no Cache API
and a working `localStorage`, the construction succeeds and the instance is
loaded, but `cfg.storage` is still `cache` and `__.cache` is still `false`:
`check`, `store` and `getFromStorage` take the `cache` branch and raise. With
the preference `local`, no `localStorage` and a Cache API, `cfg.storage` stays
`local` and `check` raises on the access to `localStorage`. -/
theorem constructor_keeps_preference :
    builtWithoutCaches.result = .ok jsTrue
    ∧ builtWithoutCaches.inst.priv.loaded = true
    ∧ builtWithoutCaches.inst.priv.support = ⟨true, false⟩
    ∧ builtWithoutCaches.inst.cfg.storage = .str (lit "cache")
    ∧ check builtWithoutCaches.inst builtWithoutCaches.host (.str (lit "a.js"))
        = .error .typeError
    ∧ store builtWithoutCaches.inst builtWithoutCaches.host (.str (lit "a.js")) (.str (lit "x"))
        (.str (lit "h1")) (.str (lit "js")) = .error .typeError
    ∧ getFromStorage builtWithoutCaches.inst builtWithoutCaches.host (.str (lit "a.js"))
        = .error .typeError
    ∧ builtWithoutLocalStorage.result = .ok jsTrue
    ∧ builtWithoutLocalStorage.inst.priv.support = ⟨false, true⟩
    ∧ builtWithoutLocalStorage.inst.cfg.storage = .str (lit "local")
    ∧ check builtWithoutLocalStorage.inst builtWithoutLocalStorage.host (.str (lit "a.js"))
        = .error .hostError :=
  ⟨rfl, rfl, rfl, rfl, rfl, rfl, rfl, rfl, rfl, rfl, rfl⟩

/-! ## `check` on any stored state (C9) -/

/-- C9 fails as stated. With a content entry and the metadata entry `oops`,
which is not JSON, `check('a.js')` raises (`JSON.parse` is not guarded); and
with an empty content entry next to a metadata entry that carries `ver`,
`check('a.js')` answers `false`, not the stored fingerprint. -/
theorem check_raises_on_malformed :
    check (flatInstance true)
        (flatHost [(lit "quiche::a.js", lit "\"x\""), (lit "quiche::a.js::V", lit "oops")])
        (.str (lit "a.js")) = .error .syntaxError
    ∧ check (flatInstance true)
        (flatHost [(lit "quiche::a.js", []),
          (lit "quiche::a.js::V", lit "\x7b\"type\":\"js\",\"ver\":\"h1\"\x7d")])
        (.str (lit "a.js")) = .ok jsFalse :=
  ⟨rfl, rfl⟩

theorem parse_null : JSONparse (lit "null") = .ok .null := rfl

theorem guardedMember_own (item : Bool) (v : JSVal) (k : JSString)
    (h : ownMember v (lit "hasOwnProperty") = none) :
    guardedMember item v k
      = .ok (match ownMember v k with
          | some x => if item then some x else none
          | none => none) := by
  cases v with
  | obj fields =>
    simp only [ownMember] at h
    simp only [guardedMember, truthy, Bool.and_true, hasOwnProperty, h, getProp, ownMember]
    cases lookupLast k fields with
    | none => cases item <;> simp
    | some x => cases item <;> simp
  | undefined => simp [guardedMember, truthy, ownMember]
  | null => simp [guardedMember, truthy, ownMember]
  | bool b => cases b <;> simp [guardedMember, truthy, ownMember, hasOwnProperty]
  | num n => by_cases hn : n = 0 <;> simp [guardedMember, truthy, ownMember, hasOwnProperty, hn]
  | real neg m e => simp [guardedMember, truthy, ownMember, hasOwnProperty]
  | infinity neg => simp [guardedMember, truthy, ownMember, hasOwnProperty]
  | str s => cases s <;> simp [guardedMember, truthy, ownMember, hasOwnProperty]
  | arr xs => simp [guardedMember, truthy, ownMember, hasOwnProperty]
  | blob t b => simp [guardedMember, truthy, ownMember, hasOwnProperty]
  | buffer b => simp [guardedMember, truthy, ownMember, hasOwnProperty]

/-- C9 as amended. On the flat backend, for every URL and every state of its two
entries in which the metadata entry is missing or is JSON text whose value has
no own member named `hasOwnProperty`: `check` raises nothing; it answers the
`ver` member when the metadata value is an object that has one and the content
entry is a non-empty string, and `false` in every other case. Every other
metadata entry is a text that `JSON.parse` rejects, and on it `check` raises
the `SyntaxError`. -/
theorem check_flat (inst : Instance) (host : Host) (ls : LocalStorage) (res : JSVal)
    (hflat : inst.cfg.storage = .str (lit "local")) (hls : host.localStorage = some ls) :
    (lsGetItem ls (NamespaceIt inst.cfg res ++ lit "::V") = none →
      check inst host res = .ok jsFalse)
    ∧ (∀ m v, lsGetItem ls (NamespaceIt inst.cfg res ++ lit "::V") = some m →
      JSONparse m = .ok v → ownMember v (lit "hasOwnProperty") = none →
      check inst host res = .ok (match ownMember v (lit "ver") with
        | some ver => if itemTruthy (lsGetItem ls (NamespaceIt inst.cfg res)) then ver else jsFalse
        | none => jsFalse))
    ∧ (∀ m, lsGetItem ls (NamespaceIt inst.cfg res ++ lit "::V") = some m →
      (∃ v, JSONparse m = .ok v)
      ∨ (JSONparse m = .error .syntaxError ∧ check inst host res = .error .syntaxError)) := by
  refine ⟨?_, ?_, ?_⟩
  · intro hm
    simp [check, hflat, strictEq_str, hls, hm, parse_null, guardedMember, truthy]
  · intro m v hm hv hown
    simp only [check, hflat, strictEq_str, if_true, hls, hm, Option.getD_some, hv,
      guardedMember_own _ v _ hown]
    cases ownMember v (lit "ver") with
    | none => rfl
    | some x => cases itemTruthy (lsGetItem ls (NamespaceIt inst.cfg (res))) <;> rfl
  · intro m hm
    cases hp : JSONparse m with
    | ok v => exact Or.inl ⟨v, rfl⟩
    | error e =>
      have he := JSONparse_error m e hp
      subst he
      refine Or.inr ⟨rfl, ?_⟩
      simp only [check, hflat, strictEq_str, if_true, hls, hm, Option.getD_some, hp]

/-- The parsed metadata `{"type":"js","ver":1.5,"size":1e3}`. -/
theorem parse_metadata_numbers :
    JSONparse (lit "\x7b\"type\":\"js\",\"ver\":1.5,\"size\":1e3\x7d")
      = .ok (.obj [(lit "type", .str (lit "js")), (lit "ver", .real false 3 (-1)),
          (lit "size", .num 1000)]) := rfl

/-- With the metadata entry `{"ver":1.5}` next to a content entry, `check`
answers the number `1.5`. -/
theorem check_fraction_version :
    check (flatInstance true)
        (flatHost [(lit "quiche::a.js", lit "\"x\""), (lit "quiche::a.js::V", lit "\x7b\"ver\":1.5\x7d")])
        (.str (lit "a.js")) = .ok (.real false 3 (-1)) := rfl

/-- Amended C9 on the record of a stored script: the metadata entry parses,
the content entry is not empty, and `check` answers the fingerprint `h1`. -/
theorem check_flat_witness :
    (flatInstance true).cfg.storage = .str (lit "local")
    ∧ (flatHost scriptStored).localStorage = some scriptStored
    ∧ JSONparse (lit "\x7b\"type\":\"js\",\"ver\":\"h1\"\x7d")
        = .ok (.obj [(lit "type", .str (lit "js")), (lit "ver", .str (lit "h1"))])
    ∧ check (flatInstance true) (flatHost scriptStored) (.str (lit "a.js")) = .ok (.str (lit "h1")) :=
  ⟨rfl, rfl, rfl,
    (check_flat (flatInstance true) (flatHost scriptStored) scriptStored (.str (lit "a.js"))
      rfl rfl).2.1 (lit "\x7b\"type\":\"js\",\"ver\":\"h1\"\x7d")
      (.obj [(lit "type", .str (lit "js")), (lit "ver", .str (lit "h1"))]) rfl rfl rfl⟩

/-! ## Purging `localStorage` (C10) -/

theorem cleanLoop_pair (pre k1 v1 k2 v2 : JSString) (h : pre.isPrefixOf k1 = true) :
    cleanLoop pre 0 [(k1, v1), (k2, v2)] = [(k2, v2)] := by
  rw [cleanLoop]
  simp only [List.length_cons, List.length_nil, Nat.zero_lt_succ, dite_true, List.get, h, if_true,
    lsRemoveItem]
  rw [cleanLoop]
  simp

theorem lsGetItem_remove_other (ls : LocalStorage) (k k2 : JSString) (h : k2 ≠ k) :
    lsGetItem (lsRemoveItem ls k) k2 = lsGetItem ls k2 := by
  induction ls with
  | nil => rfl
  | cons e rest ih =>
    obtain ⟨k', v'⟩ := e
    by_cases h1 : k' = k
    · subst h1
      simp [lsRemoveItem, lsGetItem, Ne.symm h]
    · by_cases h2 : k' = k2
      · subst h2
        simp [lsRemoveItem, lsGetItem, h1]
      · simp [lsRemoveItem, lsGetItem, h1, h2, ih]

/-- The half of C10 that holds: the loop of `cleanLocalStorage` leaves every
entry whose key does not start with the namespace and `::` in place, with its
value. -/
theorem cleanLoop_keeps (pre : JSString) (i : Nat) (ls : LocalStorage) (k : JSString)
    (h : pre.isPrefixOf k = false) : lsGetItem (cleanLoop pre i ls) k = lsGetItem ls k := by
  induction i, ls using cleanLoop.induct pre with
  | case1 i ls hi hpre ih =>
    rw [cleanLoop, dif_pos hi, if_pos hpre, ih]
    apply lsGetItem_remove_other
    intro hk
    rw [hk, hpre] at h
    exact Bool.noConfusion h
  | case2 i ls hi hpre ih =>
    rw [cleanLoop, dif_pos hi, if_neg hpre, ih]
  | case3 i ls hi =>
    rw [cleanLoop, dif_neg hi]

/-- C10, at the failing input. After `a.js` was stored, `localStorage` holds the
two entries `quiche::a.js` and `quiche::a.js::V`. The loop of
`cleanLocalStorage` removes the entry at index 0 and goes on at index 1, past
the entry that moved to index 0: `quiche::a.js::V` is still there after
`cleanLocalStorage`, and after `clearAll('local')`. -/
theorem cleanLocalStorage_leaves_entry :
    cleanLoop (lit "quiche::") 0 scriptStored
        = [(lit "quiche::a.js::V", lit "\x7b\"type\":\"js\",\"ver\":\"h1\"\x7d")]
    ∧ (match cleanLocalStorage (flatInstance true) (flatHost scriptStored) with
        | .ok host1 => host1.localStorage.map (fun ls => lsGetItem ls (lit "quiche::a.js::V"))
        | .error _ => none)
        = some (some (lit "\x7b\"type\":\"js\",\"ver\":\"h1\"\x7d"))
    ∧ (clearAll (flatInstance true) (flatHost scriptStored) (.str (lit "local"))).host.localStorage
        = some [(lit "quiche::a.js::V", lit "\x7b\"type\":\"js\",\"ver\":\"h1\"\x7d")] := by
  have h := cleanLoop_pair (lit "quiche::") (lit "quiche::a.js") (lit "\"x\"")
    (lit "quiche::a.js::V") (lit "\x7b\"type\":\"js\",\"ver\":\"h1\"\x7d") (by decide)
  have hpre : toJSString (flatInstance true).cfg.nameSpace ++ lit "::" = lit "quiche::" := by
    decide
  have hclean : cleanLocalStorage (flatInstance true) (flatHost scriptStored)
      = .ok (flatHost [(lit "quiche::a.js::V", lit "\x7b\"type\":\"js\",\"ver\":\"h1\"\x7d")]) := by
    simp only [cleanLocalStorage, flatHost, hpre]
    rw [show scriptStored = [(lit "quiche::a.js", lit "\"x\""),
      (lit "quiche::a.js::V", lit "\x7b\"type\":\"js\",\"ver\":\"h1\"\x7d")] from rfl, h]
  refine ⟨h, ?_, ?_⟩
  · rw [hclean]
    rfl
  · have hl : toLowerCase (lit "local") = lit "local" := by decide
    have hne : lit "local" ≠ lit "cache" := by decide
    simp only [clearAll, truthy, hl, clearSwitch, hne, hclean]
    rfl

/-! ## The codec on JSON payloads (C11) -/

theorem revivesToSelf (n : Nat) : RevivesToSelf n := by
  induction n with
  | zero =>
    refine ⟨?_, ?_, ?_⟩
    · intro v hs _
      have := size_pos v
      omega
    · intro xs hs _
      cases xs with
      | nil => rfl
      | cons x rest => simp only [JSVal.size.sizeList] at hs; omega
    · intro fields hs _
      cases fields with
      | nil => rfl
      | cons f rest =>
        obtain ⟨k, x⟩ := f
        simp only [JSVal.size.sizeFields] at hs
        omega
  | succ n ih =>
    obtain ⟨ihv, ihl, ihf⟩ := ih
    refine ⟨?_, ?_, ?_⟩
    · intro v hs hst
      cases v with
      | arr xs =>
        simp only [JSVal.size] at hs
        simp only [Stable] at hst
        have hl := ihl xs (by omega) hst.2
        simp only [revive, hl, hst.1, Bool.false_eq_true, if_false]
      | obj fields =>
        simp only [JSVal.size] at hs
        simp only [Stable] at hst
        have hf := ihf fields (by omega) hst
        simp only [revive, hf]
      | undefined => rfl
      | null => rfl
      | bool b => rfl
      | num z => rfl
      | real neg m e => rfl
      | infinity neg => rfl
      | str s => rfl
      | blob t b => rfl
      | buffer b => rfl
    · intro xs hs hst
      cases xs with
      | nil => rfl
      | cons x rest =>
        simp only [JSVal.size.sizeList] at hs
        simp only [Stable.stableList] at hst
        simp only [revive.reviveList, ihv x (by omega) hst.1, ihl rest (by omega) hst.2]
    · intro fields hs hst
      cases fields with
      | nil => rfl
      | cons f rest =>
        obtain ⟨k, x⟩ := f
        simp only [JSVal.size.sizeFields] at hs
        simp only [Stable.stableFields] at hst
        simp only [revive.reviveFields, ihv x (by omega) hst.1, ihf rest (by omega) hst.2]

theorem revive_stable (v : JSVal) (h : Stable v) : revive v = v :=
  (revivesToSelf v.size).1 v (le_refl _) h

theorem serialize_plain (x : JSVal) (hp : Plain x) : serialize x = stringifyWith true x := by
  cases x <;> first | rfl | exact hp.elim

/-- C11 fails as stated. The empty array and the array `[1, 2]` go through
`serialize` as the texts `[]` and `[1,2]`, and `unserialize` answers an
`ArrayBuffer` for each (of no bytes, of the bytes 1 and 2), not an array: its
reviver turns every array whose elements are all numbers into a buffer. -/
theorem unserialize_number_array :
    serialize (.arr []) = some (lit "[]")
    ∧ unserialize (lit "[]") = .ok (.buffer [])
    ∧ ∃ t, serialize (.arr [.num 1, .num 2]) = some t ∧ unserialize t = .ok (.buffer [1, 2]) := by
  refine ⟨rfl, rfl, ?_⟩
  have hp : Plain (.arr [.num 1, .num 2]) := by
    simp [Plain, Plain.plainList]
  obtain ⟨t, ht⟩ := plain_stringify true _ hp
  refine ⟨t, ht, ?_⟩
  have hparse := JSONparse_stringify true _ t hp ht
  simp [unserialize, hparse, getProp, truthy, revive, revive.reviveList, isNumber, toUint8]

/-- An infinity is written as `null`: inside a payload it does not come back. -/
theorem serialize_infinity :
    serialize (.arr [.str (lit "a"), .infinity false]) = some (lit "[\"a\",null]")
    ∧ unserialize (lit "[\"a\",null]") = .ok (.arr [.str (lit "a"), .null]) :=
  ⟨rfl, rfl⟩

/-- C11 as amended. For every JSON payload `x` (objects, arrays, finite numbers,
strings, booleans, with `null` allowed inside) in which no array has only
numbers as elements (so no array is empty), that is not `null` itself and has
no truthy member `__blob`: `serialize` answers a string from which
`unserialize` gives back `x`, arrays as arrays. The numbers are all the finite
doubles: the integers of magnitude at most `2^53` and every other double
(`Plain`). -/
theorem json_roundtrip (x : JSVal) (hp : Plain x) (hs : Stable x) (hnull : x ≠ .null)
    (htag : truthy (member x (lit "__blob")) = false) :
    ∃ t, serialize x = some t ∧ unserialize t = .ok x := by
  obtain ⟨t, ht⟩ := plain_stringify true x hp
  refine ⟨t, by rw [serialize_plain x hp, ht], ?_⟩
  have hparse := JSONparse_stringify true x t hp ht
  have hprop : getProp x (lit "__blob") = .ok (member x (lit "__blob")) := by
    cases x with
    | null => exact absurd rfl hnull
    | undefined => exact hp.elim
    | obj fields => rfl
    | bool b => rfl
    | num z => rfl
    | real neg m e => rfl
    | infinity neg => rfl
    | str s => rfl
    | arr xs => rfl
    | blob ty b => rfl
    | buffer b => rfl
  simp only [unserialize, hparse, hprop, htag, Bool.false_eq_true, if_false, revive_stable x hs]

theorem plain_recordPayload : Plain recordPayload := by
  simp only [recordPayload, Plain, Plain.plainFields, Plain.plainList, true_and, and_true]
  exact ⟨⟨rfl, by decide, by decide, by decide, Or.inl (by decide)⟩, by decide⟩

/-- Amended C11 on the payload `{"name": "quiche", "ratio": 1.5, "tags": ["a", true, -3]}`. -/
theorem json_roundtrip_witness :
    Plain recordPayload ∧ Stable recordPayload ∧ recordPayload ≠ .null
    ∧ truthy (member recordPayload (lit "__blob")) = false
    ∧ ∃ t, serialize recordPayload = some t ∧ unserialize t = .ok recordPayload :=
  ⟨plain_recordPayload,
    by simp [recordPayload, Stable, Stable.stableFields, Stable.stableList, isNumber],
    by simp [recordPayload], rfl,
    json_roundtrip recordPayload plain_recordPayload
      (by simp [recordPayload, Stable, Stable.stableFields, Stable.stableList, isNumber])
      (by simp [recordPayload]) rfl⟩

/-! ## Normalisation of the storage option (C12) -/

/-- The half of C12 that holds: a storage name that is `local`, `localstorage`
or `ls` up to letter case becomes `local`, whatever the capability flags. -/
theorem normalizeStorageVar_local (support : Support) (cfg : Cfg) (st : JSString)
    (hst : cfg.storage = .str st)
    (h : toLowerCase st = lit "local" ∨ toLowerCase st = lit "localstorage"
      ∨ toLowerCase st = lit "ls") :
    (normalizeStorageVar support cfg).1.storage = .str (lit "local")
    ∧ (normalizeStorageVar support cfg).2 = none := by
  simp [normalizeStorageVar, hst, h, strictEq]

/-- C12, at the failing inputs. `constructor` parses the options, and with them
runs `normalizeStorageVar`, before it computes `__.support`: both flags are
still `false`, so for `{storage: 'foo'}` neither default is taken and
`cfg.storage` stays `foo`, on a host that has both capabilities. For
`{storage: 'CACHE'}` the value stays `CACHE`: only the lower-cased copy is
compared with the names of `localStorage`, and `cfg.storage` itself with
`cache` and `local`. -/
theorem constructor_keeps_unsupported_storage :
    (parsePasssedOptions initialPriv.support defaultCfg
        (.obj [(lit "storage", .str (lit "foo"))])).1.storage = .str (lit "foo")
    ∧ builtWithFoo.result = .ok jsTrue
    ∧ builtWithFoo.inst.priv.support = ⟨true, true⟩
    ∧ builtWithFoo.inst.cfg.storage = .str (lit "foo")
    ∧ builtWithUpperCache.inst.cfg.storage = .str (lit "CACHE")
    ∧ check builtWithFoo.inst builtWithFoo.host (.str (lit "a.js")) = .ok .undefined :=
  ⟨rfl, rfl, rfl, rfl, rfl, rfl⟩

/-! ## Records of other URLs (C13) -/

/-- C13 fails as stated. With the record of `a.js` stored (version `h1`, content
`x`), `store('a.js::V', 'x', 'h9', 'js')` writes its content under the key
`quiche::a.js::V`, which is the metadata key of `a.js`: after it `check('a.js')`
and `getFromStorage('a.js')` answer `false`. -/
theorem store_collides :
    lit "a.js::V" ≠ lit "a.js"
    ∧ check (flatInstance true) (flatHost scriptStored) (.str (lit "a.js")) = .ok (.str (lit "h1"))
    ∧ getFromStorage (flatInstance true) (flatHost scriptStored) (.str (lit "a.js"))
        = .ok (.obj [(lit "type", .str (lit "js")), (lit "content", .str (lit "x"))])
    ∧ ∃ r host1, store (flatInstance true) (flatHost scriptStored) (.str (lit "a.js::V"))
          (.str (lit "x")) (.str (lit "h9")) (.str (lit "js")) = .ok (r, host1)
        ∧ check (flatInstance true) host1 (.str (lit "a.js")) = .ok jsFalse
        ∧ getFromStorage (flatInstance true) host1 (.str (lit "a.js")) = .ok jsFalse :=
  ⟨by decide, rfl, rfl, _, _, rfl, rfl, rfl⟩

theorem NamespaceIt_str_inj (cfg : Cfg) (u u2 : JSString)
    (h : NamespaceIt cfg (.str u) = NamespaceIt cfg (.str u2)) : u = u2 := by
  simpa [NamespaceIt, toJSString] using h

theorem NamespaceIt_str_tag (cfg : Cfg) (u : JSString) :
    NamespaceIt cfg (.str u) ++ lit "::V" = NamespaceIt cfg (.str (u ++ lit "::V")) := by
  simp [NamespaceIt, toJSString]

/-- C13 as amended. On the flat backend, for every two URLs `u` and `u'` such
that `u'` is not `u`, `u'` is not `u` followed by `::V` and `u` is not `u'`
followed by `::V`, and for every state of `localStorage`: `store(u, content,
version, type)` succeeds, and `check(u')` and `getFromStorage(u')` answer after
it what they answered before. -/
theorem store_frame (inst : Instance) (host : Host) (ls : LocalStorage) (u u2 : JSString)
    (content version type : JSVal)
    (hflat : inst.cfg.storage = .str (lit "local")) (hls : host.localStorage = some ls)
    (h1 : u2 ≠ u) (h2 : u2 ≠ u ++ lit "::V") (h3 : u ≠ u2 ++ lit "::V") :
    ∃ r host1, store inst host (.str u) content version type = .ok (r, host1)
      ∧ check inst host1 (.str u2) = check inst host (.str u2)
      ∧ getFromStorage inst host1 (.str u2) = getFromStorage inst host (.str u2) := by
  have hkey : NamespaceIt inst.cfg (.str (toJSString (.str u) ++ lit "::V"))
      = NamespaceIt inst.cfg (.str (u ++ lit "::V")) := rfl
  have d1 : NamespaceIt inst.cfg (.str u2) ≠ NamespaceIt inst.cfg (.str u) :=
    fun h => h1 (NamespaceIt_str_inj _ _ _ h)
  have d2 : NamespaceIt inst.cfg (.str u2) ≠ NamespaceIt inst.cfg (.str (u ++ lit "::V")) :=
    fun h => h2 (NamespaceIt_str_inj _ _ _ h)
  have d3 : NamespaceIt inst.cfg (.str u2) ++ lit "::V" ≠ NamespaceIt inst.cfg (.str u) := by
    rw [NamespaceIt_str_tag]
    exact fun h => h3 (NamespaceIt_str_inj _ _ _ h).symm
  have d4 : NamespaceIt inst.cfg (.str u2) ++ lit "::V"
      ≠ NamespaceIt inst.cfg (.str (u ++ lit "::V")) := by
    rw [NamespaceIt_str_tag]
    intro h
    have := NamespaceIt_str_inj _ _ _ h
    exact h1 (List.append_cancel_right this)
  refine ⟨.obj [(lit "content", content), (lit "type", type)],
    { host with localStorage := some (lsSetItem
      (lsSetItem ls (NamespaceIt inst.cfg (.str u)) ((serialize content).getD (lit "undefined")))
      (NamespaceIt inst.cfg (.str (u ++ lit "::V")))
      ((JSONstringify (.obj [(lit "type", type), (lit "ver", version)])).getD
        (lit "undefined"))) }, ?_, ?_, ?_⟩
  · simp only [store, hflat, strictEq_str, if_true, hls, hkey]
  · simp only [check, hflat, strictEq_str, if_true, hls, hkey,
      lsGetItem_set_other _ _ _ _ d1, lsGetItem_set_other _ _ _ _ d2,
      lsGetItem_set_other _ _ _ _ d3, lsGetItem_set_other _ _ _ _ d4]
  · simp only [getFromStorage, hflat, strictEq_str, if_true, hls, hkey,
      lsGetItem_set_other _ _ _ _ d1, lsGetItem_set_other _ _ _ _ d2,
      lsGetItem_set_other _ _ _ _ d3, lsGetItem_set_other _ _ _ _ d4]

/-- Amended C13 on the stored record of `a.js` and a `store` for `b.css`. -/
theorem store_frame_witness :
    (flatInstance true).cfg.storage = .str (lit "local")
    ∧ (flatHost scriptStored).localStorage = some scriptStored
    ∧ lit "a.js" ≠ lit "b.css" ∧ lit "a.js" ≠ lit "b.css" ++ lit "::V"
    ∧ lit "b.css" ≠ lit "a.js" ++ lit "::V"
    ∧ ∃ r host1, store (flatInstance true) (flatHost scriptStored) (.str (lit "b.css"))
          (.str (lit "p")) (.str (lit "h2")) (.str (lit "css")) = .ok (r, host1)
        ∧ check (flatInstance true) host1 (.str (lit "a.js"))
            = check (flatInstance true) (flatHost scriptStored) (.str (lit "a.js"))
        ∧ getFromStorage (flatInstance true) host1 (.str (lit "a.js"))
            = getFromStorage (flatInstance true) (flatHost scriptStored) (.str (lit "a.js")) :=
  ⟨rfl, rfl, by decide, by decide, by decide,
    store_frame (flatInstance true) (flatHost scriptStored) scriptStored (lit "b.css")
      (lit "a.js") (.str (lit "p")) (.str (lit "h2")) (.str (lit "css")) rfl rfl
      (by decide) (by decide) (by decide)⟩

end QuicheJS
